import Mathlib

/-! Tic-tac-toe engine of `mainwindow.cpp`.

A shallow embedding of the game logic of `GameBoard` (the 3x3 board, `makeMove`,
`checkWinner`, `isFull`, `switchPlayer`, `onCellClicked`, `aiMove`) and of the
exhaustive search (`evalIsWinner`, `evalIsFull`, `minimax`, `findBestMove`),
followed by the properties proved about them.

Modelling conventions.

* `board` is assigned three rows of three `char`s in `initializeBoard` and is never
  resized, so it is a `Board` of three `Row`s of three `Char`s, indexed by `Fin 3`.
* The nested `for i in 0..3, for j in 0..3` loops are folds over `cells`, the nine
  index pairs in row-major order; the loop state is threaded explicitly, including the
  working copy of the board that the search writes to and restores.
* `minimax` recurses; `minimaxFuel` bounds the number of nested calls by a fuel argument
  and returns `none` when it runs out.  `minimax` is `minimaxFuel 10`.
* A read of `board[row][col]` with an index outside the grid is undefined behaviour;
  `Board.read` returns `none` there and `makeMove` propagates it.
* Qt signals and timers are returned as a list of `Event`s.  The slots connected to the
  `gameOver` signal run synchronously inside `emit`; their effect on the `GameBoard`
  is the `observer` argument of `onCellClicked` and `aiMove`: `noObserver` for the
  `GameBoard` alone, `dialogObserver` for `GameDialog::onGameOver`.
* `findBestMove` and `minimax` write to locals only and send no signal, so they are
  functions of the board that return the move, respectively the score.
* Widget state (button text, style, enabledness) is not modelled.
-/

namespace TicTacToe

/-! ## Board -/

/-- One row of the grid: `std::vector<char>` of length 3. -/
structure Row where
  c0 : Char
  c1 : Char
  c2 : Char
deriving DecidableEq, Repr

/-- The grid: `std::vector<std::vector<char>>` with 3 rows of 3 cells. -/
structure Board where
  r0 : Row
  r1 : Row
  r2 : Row
deriving DecidableEq, Repr

/-- `row[j]`. -/
def Row.get (r : Row) (j : Fin 3) : Char :=
  match j with
  | 0 => r.c0
  | 1 => r.c1
  | 2 => r.c2

/-- `row[j] = v`. -/
def Row.set (r : Row) (j : Fin 3) (v : Char) : Row :=
  match j with
  | 0 => { r with c0 := v }
  | 1 => { r with c1 := v }
  | 2 => { r with c2 := v }

/-- `board[i]`. -/
def Board.row (b : Board) (i : Fin 3) : Row :=
  match i with
  | 0 => b.r0
  | 1 => b.r1
  | 2 => b.r2

/-- `board[i][j]`. -/
def Board.get (b : Board) (i j : Fin 3) : Char := (b.row i).get j

/-- `board[i][j] = v`. -/
def Board.set (b : Board) (i j : Fin 3) (v : Char) : Board :=
  match i with
  | 0 => { b with r0 := b.r0.set j v }
  | 1 => { b with r1 := b.r1.set j v }
  | 2 => { b with r2 := b.r2.set j v }

/-- The cells of a row in iteration order (`for (char cell : row)`). -/
def Row.cells (r : Row) : List Char := [r.c0, r.c1, r.c2]

/-- The rows of the board in iteration order (`for (const auto &row : board)`). -/
def Board.rows (b : Board) : List Row := [b.r0, b.r1, b.r2]

/-- The board after `board.assign(3, std::vector<char>(3, ' '))`. -/
def emptyBoard : Board :=
  ⟨⟨' ', ' ', ' '⟩, ⟨' ', ' ', ' '⟩, ⟨' ', ' ', ' '⟩⟩

/-- Index pairs visited by `for (i = 0; i < 3; i++) for (j = 0; j < 3; j++)`, in order. -/
def cells : List (Fin 3 × Fin 3) :=
  [(0, 0), (0, 1), (0, 2), (1, 0), (1, 1), (1, 2), (2, 0), (2, 1), (2, 2)]

/-- A C++ `int` used as a grid index: `some` exactly when `0 <= k < 3`. -/
def toIndex (k : Int) : Option (Fin 3) :=
  if h : 0 ≤ k ∧ k < 3 then some ⟨k.toNat, by omega⟩ else none

/-- Reading `board[row][col]` with `int` indices; `none` is a read outside the grid. -/
def Board.read (b : Board) (row col : Int) : Option Char :=
  match toIndex row, toIndex col with
  | some i, some j => some (b.get i j)
  | _, _ => none

/-- Writing `board[row][col] = v` with `int` indices; `none` is a write outside the grid. -/
def Board.write (b : Board) (row col : Int) (v : Char) : Option Board :=
  match toIndex row, toIndex col with
  | some i, some j => some (b.set i j v)
  | _, _ => none

/-- Number of cells holding `' '`. -/
def countEmpty (b : Board) : Nat :=
  (cells.filter (fun c => b.get c.1 c.2 == ' ')).length

/-! ## Helpers of the search: `evalIsWinner`, `evalIsFull` -/

/-- The `for (int i = 0; i < 3; i++)` loop of `evalIsWinner`: row `i`, then column `i`. -/
def evalIsWinnerLoop (board : Board) (player : Char) : List (Fin 3) → Bool
  | [] => false
  | i :: rest =>
    if board.get i 0 == player && board.get i 1 == player && board.get i 2 == player then true
    else if board.get 0 i == player && board.get 1 i == player && board.get 2 i == player then true
    else evalIsWinnerLoop board player rest

/-- `static bool evalIsWinner(const std::vector<std::vector<char>> &board, char player)`. -/
def evalIsWinner (board : Board) (player : Char) : Bool :=
  if evalIsWinnerLoop board player [0, 1, 2] then true
  else if board.get 0 0 == player && board.get 1 1 == player && board.get 2 2 == player then true
  else if board.get 0 2 == player && board.get 1 1 == player && board.get 2 0 == player then true
  else false

/-- `static bool evalIsFull(const std::vector<std::vector<char>> &board)`. -/
def evalIsFull (board : Board) : Bool :=
  !(board.rows.any (fun row => row.cells.any (fun cell => cell == ' ')))

/-! ## `GameBoard` -/

/-- The data members of `GameBoard` that the game logic uses. -/
structure GameBoard where
  board : Board
  currentPlayer : Char
  gameActive : Bool
  gameMode : Int
deriving DecidableEq, Repr

/-- What a member function of `GameBoard` sends out: the two signals, the single-shot
timer that `triggerAiMove` arms for `aiMove`, and the single-shot timer that `resetBoard`
arms for `triggerAiMove`. -/
inductive Event where
  | moveMade (row col : Int) (player : Char)
  | gameOver (winner : String)
  | aiMoveTimer
  | triggerAiMoveTimer
deriving DecidableEq, Repr

/-- Effect on the `GameBoard` of the slots connected to `gameOver`, run inside `emit`. -/
abbrev Observer := String → GameBoard → GameBoard

/-- No slot connected to `gameOver` touches the `GameBoard`. -/
def noObserver : Observer := fun _ s => s

/-- State after the constructor `GameBoard(parent, mode)`: `initializeBoard` ends in
`resetBoard`, with `currentPlayer('X')` and `gameActive(true)`. -/
def GameBoard.init (mode : Int) : GameBoard :=
  { board := emptyBoard, currentPlayer := 'X', gameActive := true, gameMode := mode }

/-- `void GameBoard::resetBoard()`; returns the timer it arms, if any. -/
def resetBoard (s : GameBoard) : GameBoard × List Event :=
  let s1 : GameBoard :=
    { s with
      board := cells.foldl (fun b c => b.set c.1 c.2 ' ') s.board
      currentPlayer := 'X'
      gameActive := true }
  if s1.gameMode == 2 && s1.currentPlayer == 'O' then (s1, [Event.triggerAiMoveTimer])
  else (s1, [])

/-- `bool GameBoard::makeMove(int row, int col, char player)`.  The conjuncts of the
condition are evaluated left to right and the cell is read only when the four range
tests hold.  `none` is an access outside the grid. -/
def makeMove (s : GameBoard) (row col : Int) (player : Char) : Option (Bool × GameBoard) :=
  if row ≥ 0 && row < 3 && col ≥ 0 && col < 3 then
    match s.board.read row col with
    | none => none
    | some cell =>
      if cell == ' ' && s.gameActive then
        match s.board.write row col player with
        | none => none
        | some b => some (true, { s with board := b })
      else some (false, s)
  else some (false, s)

/-- The `for (int i = 0; i < 3; ++i)` loop of `checkWinner`. -/
def checkWinnerLoop (board : Board) (player : Char) : List (Fin 3) → Bool
  | [] => false
  | i :: rest =>
    if board.get i 0 == player && board.get i 1 == player && board.get i 2 == player then true
    else if board.get 0 i == player && board.get 1 i == player && board.get 2 i == player then true
    else checkWinnerLoop board player rest

/-- `bool GameBoard::checkWinner(char player)`. -/
def checkWinner (s : GameBoard) (player : Char) : Bool :=
  if checkWinnerLoop s.board player [0, 1, 2] then true
  else if s.board.get 0 0 == player && s.board.get 1 1 == player && s.board.get 2 2 == player
    then true
  else if s.board.get 0 2 == player && s.board.get 1 1 == player && s.board.get 2 0 == player
    then true
  else false

/-- `bool GameBoard::isFull()`. -/
def isFull (s : GameBoard) : Bool :=
  !(s.board.rows.any (fun row => row.cells.any (fun cell => cell == ' ')))

/-- `void GameBoard::disableBoard()`. -/
def disableBoard (s : GameBoard) : GameBoard := { s with gameActive := false }

/-- `void GameBoard::enableBoard()`. -/
def enableBoard (s : GameBoard) : GameBoard := { s with gameActive := true }

/-- `void GameBoard::triggerAiMove()`: arms the timer for `aiMove` unless guarded out. -/
def triggerAiMove (s : GameBoard) : List Event :=
  if !s.gameActive || s.currentPlayer != 'O' || s.gameMode != 2 then []
  else [Event.aiMoveTimer]

/-- `void GameBoard::switchPlayer()`. -/
def switchPlayer (s : GameBoard) : GameBoard × List Event :=
  let s1 : GameBoard := { s with currentPlayer := if s.currentPlayer == 'X' then 'O' else 'X' }
  if s1.gameMode == 2 && s1.currentPlayer == 'O' && s1.gameActive then (s1, triggerAiMove s1)
  else (s1, [])

/-- The part of `onCellClicked` and `aiMove` after `emit moveMade`: `winnerName` is the
name announced when the mover has a line. -/
def afterMove (observer : Observer) (s : GameBoard) (winnerName : String) :
    GameBoard × List Event :=
  if checkWinner s s.currentPlayer then
    let s1 := observer winnerName s
    let s2 := disableBoard s1
    ({ s2 with gameActive := false }, [Event.gameOver winnerName])
  else if isFull s then
    let s1 := observer "Draw" s
    let s2 := disableBoard s1
    ({ s2 with gameActive := false }, [Event.gameOver "Draw"])
  else switchPlayer s

/-- The `winnerName` computed by `onCellClicked`. -/
def winnerName (s : GameBoard) : String :=
  let name := if s.currentPlayer == 'X' then "You" else "AI"
  if s.gameMode == 1 then (if s.currentPlayer == 'X' then "Player 1" else "Player 2")
  else name

/-- `void GameBoard::onCellClicked()`.  `sender` is the grid position of the button that
sent the signal, found by the search loop over `buttons`; `none` when `sender()` is
null or is not one of the nine buttons (`row == -1 || col == -1`). -/
def onCellClicked (observer : Observer) (s : GameBoard) (sender : Option (Fin 3 × Fin 3)) :
    Option (GameBoard × List Event) :=
  if !s.gameActive then some (s, [])
  else
    match sender with
    | none => some (s, [])
    | some (i, j) =>
      let row : Int := i.val
      let col : Int := j.val
      match makeMove s row col s.currentPlayer with
      | none => none
      | some (true, s1) =>
        let r := afterMove observer s1 (winnerName s1)
        some (r.1, Event.moveMade row col s1.currentPlayer :: r.2)
      | some (false, s1) => some (s1, [])

/-! ## The search: `minimax` and `findBestMove` -/

/-- One of the two double loops of `minimax`: for each cell holding `' '`, write `mark`,
score the position with `next` to move, restore `' '`, and fold the score into the best
so far with `pick` (`std::max` or `std::min`).  The state is the working board and
`bestScore`. -/
def minimaxLoop (recur : Board → Char → Option Int) (mark next : Char)
    (pick : Int → Int → Int) : List (Fin 3 × Fin 3) → Board × Int → Option (Board × Int)
  | [], st => some st
  | (i, j) :: rest, (currentBoard, bestScore) =>
    if currentBoard.get i j == ' ' then
      match recur (currentBoard.set i j mark) next with
      | none => none
      | some score =>
        minimaxLoop recur mark next pick rest
          ((currentBoard.set i j mark).set i j ' ', pick bestScore score)
    else minimaxLoop recur mark next pick rest (currentBoard, bestScore)

/-- `int GameBoard::minimax(std::vector<std::vector<char>> currentBoard, char player)` with
at most `fuel` nested calls; `none` when the fuel does not suffice. -/
def minimaxFuel : Nat → Board → Char → Option Int
  | 0, _, _ => none
  | fuel + 1, currentBoard, player =>
    if evalIsWinner currentBoard 'O' then some 10
    else if evalIsWinner currentBoard 'X' then some (-10)
    else if evalIsFull currentBoard then some 0
    else if player == 'O' then
      (minimaxLoop (minimaxFuel fuel) 'O' 'X' max cells (currentBoard, -1000)).map
        (fun st => st.2)
    else
      (minimaxLoop (minimaxFuel fuel) 'X' 'O' min cells (currentBoard, 1000)).map
        (fun st => st.2)

/-- `minimax` with room for the ten nested calls a 3x3 board can need. -/
def minimax (currentBoard : Board) (player : Char) : Option Int :=
  minimaxFuel 10 currentBoard player

/-- The double loop of `findBestMove`.  The state is `boardCopy`, `bestScore` and
`bestMove` (a `QPoint`, as the pair `(x, y)`). -/
def findBestMoveLoop (score : Board → Char → Option Int) :
    List (Fin 3 × Fin 3) → Board × Int × (Int × Int) → Option (Board × Int × (Int × Int))
  | [], st => some st
  | (i, j) :: rest, (boardCopy, bestScore, bestMove) =>
    if boardCopy.get i j == ' ' then
      match score (boardCopy.set i j 'O') 'X' with
      | none => none
      | some sc =>
        if sc > bestScore then
          findBestMoveLoop score rest
            ((boardCopy.set i j 'O').set i j ' ', sc, ((i.val : Int), (j.val : Int)))
        else
          findBestMoveLoop score rest
            ((boardCopy.set i j 'O').set i j ' ', bestScore, bestMove)
    else findBestMoveLoop score rest (boardCopy, bestScore, bestMove)

/-- `QPoint GameBoard::findBestMove()` on the live `board`; `none` when the search does
not return. -/
def findBestMove (board : Board) : Option (Int × Int) :=
  (findBestMoveLoop minimax cells (board, -1000, (-1, -1))).map (fun st => st.2.2)

/-- `void GameBoard::aiMove()`. -/
def aiMove (observer : Observer) (s : GameBoard) : Option (GameBoard × List Event) :=
  if !s.gameActive || s.currentPlayer != 'O' || s.gameMode != 2 then some (s, [])
  else
    match findBestMove s.board with
    | none => none
    | some bestMove =>
      if bestMove.1 != -1 && bestMove.2 != -1 then
        match makeMove s bestMove.1 bestMove.2 s.currentPlayer with
        | none => none
        | some (_, s1) =>
          let r := afterMove observer s1 "AI"
          some (r.1, Event.moveMade bestMove.1 bestMove.2 s1.currentPlayer :: r.2)
      else some (s, [])

/-! ## Reference notions, in the words of the specification -/

/-- The 8 winning lines: 3 rows, 3 columns, the main diagonal and the anti-diagonal. -/
def winningLines : List (List (Fin 3 × Fin 3)) :=
  [[(0, 0), (0, 1), (0, 2)], [(1, 0), (1, 1), (1, 2)], [(2, 0), (2, 1), (2, 2)],
   [(0, 0), (1, 0), (2, 0)], [(0, 1), (1, 1), (2, 1)], [(0, 2), (1, 2), (2, 2)],
   [(0, 0), (1, 1), (2, 2)], [(0, 2), (1, 1), (2, 0)]]

/-- Some winning line has all three cells equal to `marker`. -/
def hasLine (b : Board) (marker : Char) : Prop :=
  ∃ l ∈ winningLines, ∀ c ∈ l, b.get c.1 c.2 = marker

/-- No cell of the board is empty. -/
def boardFull (b : Board) : Prop := ∀ i j : Fin 3, b.get i j ≠ ' '

/-- Row-major order of the cells: row ascending, then column ascending. -/
def rowMajorLt (c d : Fin 3 × Fin 3) : Prop :=
  c.1 < d.1 ∨ (c.1 = d.1 ∧ c.2 < d.2)

instance rowMajorLtDecidable (c d : Fin 3 × Fin 3) : Decidable (rowMajorLt c d) := by
  unfold rowMajorLt
  infer_instance

/-! ## Boards of the specification's scenarios -/

/-- Scenario 2: `[[X,X,Empty],[O,O,Empty],[Empty,Empty,Empty]]`. -/
def scenario2Board : Board :=
  ⟨⟨'X', 'X', ' '⟩, ⟨'O', 'O', ' '⟩, ⟨' ', ' ', ' '⟩⟩

/-- Scenario 3: `[[X,Empty,Empty],[Empty,Empty,Empty],[Empty,Empty,X]]`. -/
def scenario3Board : Board :=
  ⟨⟨'X', ' ', ' '⟩, ⟨' ', ' ', ' '⟩, ⟨' ', ' ', 'X'⟩⟩

/-- The board after `'X'` has opened at the centre. -/
def centreBoard : Board :=
  ⟨⟨' ', ' ', ' '⟩, ⟨' ', 'X', ' '⟩, ⟨' ', ' ', ' '⟩⟩

/-- The board at the end of the game X(1,1) O(0,0) X(0,1) O(2,1) X(1,0) O(1,2) X(0,2)
O(2,0) X(2,2). -/
def finishedBoard : Board :=
  ⟨⟨'O', 'X', 'X'⟩, ⟨'X', 'X', 'O'⟩, ⟨'O', 'O', 'X'⟩⟩

/-! ## Games against the computer -/

/-- States of a game in mode 2 in which the human plays `'X'`: clicks are handled only
while it is `'X'` to move, and every `'O'` is placed by `aiMove`. -/
inductive Reachable : GameBoard → Prop
  | init : Reachable (GameBoard.init 2)
  | click (s s1 : GameBoard) (ev : List Event) (sender : Option (Fin 3 × Fin 3)) :
      Reachable s → s.currentPlayer = 'X' →
      onCellClicked noObserver s sender = some (s1, ev) → Reachable s1
  | ai (s s1 : GameBoard) (ev : List Event) :
      Reachable s → aiMove noObserver s = some (s1, ev) → Reachable s1

/-- Placing `'X'` at the empty cell `(i, j)` minimises `minimax(resulting board, 'O')`
over the legal placements of `'X'`. -/
def minimisesX (b : Board) (i j : Fin 3) : Prop :=
  b.get i j = ' ' ∧
    ∃ v, minimax (b.set i j 'X') 'O' = some v ∧
      ∀ k l : Fin 3, b.get k l = ' ' → ∃ w, minimax (b.set k l 'X') 'O' = some w ∧ v ≤ w

/-- States of a game in mode 2 after `n` placements in which every placement of `'X'`
minimises `minimax` and every placement of `'O'` is made by `aiMove`. -/
inductive OptimalPlay : Nat → GameBoard → Prop
  | init : OptimalPlay 0 (GameBoard.init 2)
  | xMove (n : Nat) (s s1 : GameBoard) (ev : List Event) (i j : Fin 3) :
      OptimalPlay n s → s.gameActive = true → s.currentPlayer = 'X' →
      minimisesX s.board i j →
      onCellClicked noObserver s (some (i, j)) = some (s1, ev) → OptimalPlay (n + 1) s1
  | oMove (n : Nat) (s s1 : GameBoard) (ev : List Event) :
      OptimalPlay n s → s.gameActive = true → s.currentPlayer = 'O' →
      aiMove noObserver s = some (s1, ev) → OptimalPlay (n + 1) s1

/-! ## The dialog that owns the board -/

/-- Effect on the `GameBoard` of `GameDialog::onGameOver`, the slot that `startGame`
connects to `gameOver`: after the message box and the history record it calls
`gameBoard->resetBoard()` and then `gameBoard->enableBoard()`. -/
def dialogObserver : Observer := fun _ s => enableBoard (resetBoard s).1

/-- States of a `GameBoard`, in any mode, from a freshly reset board on, under clicks and
runs of `aiMove`, with the slots connected to `gameOver` acting as `observer`. -/
inductive Played (observer : Observer) : GameBoard → Prop
  | start (s0 : GameBoard) : Played observer (resetBoard s0).1
  | click (s s1 : GameBoard) (ev : List Event) (sender : Option (Fin 3 × Fin 3)) :
      Played observer s → onCellClicked observer s sender = some (s1, ev) →
      Played observer s1
  | ai (s s1 : GameBoard) (ev : List Event) :
      Played observer s → aiMove observer s = some (s1, ev) → Played observer s1

/-- Number of cells holding `marker`. -/
def countMark (b : Board) (marker : Char) : Nat :=
  (cells.filter (fun c => b.get c.1 c.2 == marker)).length

/-- The event is a `moveMade` signal. -/
def Event.isMoveMade : Event → Bool
  | Event.moveMade _ _ _ => true
  | _ => false

/-- The event is a `gameOver` signal. -/
def Event.isGameOver : Event → Bool
  | Event.gameOver _ => true
  | _ => false

/-- What the event loop delivers to a `GameBoard`: a click on a button (or on something
that is not a grid button), or the expiry of the timer armed for `aiMove`. -/
inductive Input where
  | click (sender : Option (Fin 3 × Fin 3))
  | aiTimer
deriving DecidableEq, Repr

/-- The slot run for one input. -/
def step (observer : Observer) (s : GameBoard) : Input → Option (GameBoard × List Event)
  | Input.click sender => onCellClicked observer s sender
  | Input.aiTimer => aiMove observer s

/-- The slots run for a sequence of inputs, with the events they send, in order. -/
def run (observer : Observer) : GameBoard → List Input → Option (GameBoard × List Event)
  | s, [] => some (s, [])
  | s, inp :: rest =>
    match step observer s inp with
    | none => none
    | some (s1, ev) =>
      match run observer s1 rest with
      | none => none
      | some (s2, ev2) => some (s2, ev ++ ev2)

/-! ## The reference game value -/

/-- The value of a position in the words of the specification: +10 if `'O'` has a
complete line, otherwise -10 if `'X'` has one, otherwise 0 if the board is full, and
otherwise the maximum (with `'O'` to move) or the minimum (with `'X'` to move) over the
empty cells of the value of the board with the mover's mark placed there and the other
side to move.  `val` gives the values of the children; the bound is attained. -/
inductive GameValue : Board → Char → Int → Prop
  | winO (b : Board) (p : Char) : hasLine b 'O' → GameValue b p 10
  | winX (b : Board) (p : Char) : ¬hasLine b 'O' → hasLine b 'X' → GameValue b p (-10)
  | draw (b : Board) (p : Char) :
      ¬hasLine b 'O' → ¬hasLine b 'X' → boardFull b → GameValue b p 0
  | maxO (b : Board) (v : Int) (val : Fin 3 × Fin 3 → Int) :
      ¬hasLine b 'O' → ¬hasLine b 'X' → ¬boardFull b →
      (∀ c : Fin 3 × Fin 3, b.get c.1 c.2 = ' ' → GameValue (b.set c.1 c.2 'O') 'X' (val c)) →
      (∀ c : Fin 3 × Fin 3, b.get c.1 c.2 = ' ' → val c ≤ v) →
      (∃ c : Fin 3 × Fin 3, b.get c.1 c.2 = ' ' ∧ val c = v) → GameValue b 'O' v
  | minX (b : Board) (v : Int) (val : Fin 3 × Fin 3 → Int) :
      ¬hasLine b 'O' → ¬hasLine b 'X' → ¬boardFull b →
      (∀ c : Fin 3 × Fin 3, b.get c.1 c.2 = ' ' → GameValue (b.set c.1 c.2 'X') 'O' (val c)) →
      (∀ c : Fin 3 × Fin 3, b.get c.1 c.2 = ' ' → v ≤ val c) →
      (∃ c : Fin 3 × Fin 3, b.get c.1 c.2 = ' ' ∧ val c = v) → GameValue b 'X' v

/-! ## Certificates for bounds on `minimax`

The two functions below are not part of the program.  They search for a strategy of one
side and are used in proofs only, through `atLeastC_sound` and `atMostC_sound`, to bound
the value `minimax` computes without unfolding the whole game tree. -/

/-- Checks a strategy of the maximizing side: true only if the position is worth at least `v`.
At a node of `'O'` one empty cell must lead to a position that passes, at a node of the
other side every empty cell must.  The cells are tried centre first, then corners, then
edges. -/
def atLeastC (v : Int) : Nat → Board → Char → Bool
  | 0, _, _ => false
  | n + 1, ⟨⟨a0, a1, a2⟩, ⟨a3, a4, a5⟩, ⟨a6, a7, a8⟩⟩, p =>
    if evalIsWinner ⟨⟨a0, a1, a2⟩, ⟨a3, a4, a5⟩, ⟨a6, a7, a8⟩⟩ 'O' then decide (v ≤ 10)
    else if evalIsWinner ⟨⟨a0, a1, a2⟩, ⟨a3, a4, a5⟩, ⟨a6, a7, a8⟩⟩ 'X' then decide (v ≤ -10)
    else if evalIsFull ⟨⟨a0, a1, a2⟩, ⟨a3, a4, a5⟩, ⟨a6, a7, a8⟩⟩ then decide (v ≤ 0)
    else if p == 'O' then
      ((a4 == ' ' && atLeastC v n ⟨⟨a0, a1, a2⟩, ⟨a3, 'O', a5⟩, ⟨a6, a7, a8⟩⟩ 'X') ||
      ((a0 == ' ' && atLeastC v n ⟨⟨'O', a1, a2⟩, ⟨a3, a4, a5⟩, ⟨a6, a7, a8⟩⟩ 'X') ||
      ((a2 == ' ' && atLeastC v n ⟨⟨a0, a1, 'O'⟩, ⟨a3, a4, a5⟩, ⟨a6, a7, a8⟩⟩ 'X') ||
      ((a6 == ' ' && atLeastC v n ⟨⟨a0, a1, a2⟩, ⟨a3, a4, a5⟩, ⟨'O', a7, a8⟩⟩ 'X') ||
      ((a8 == ' ' && atLeastC v n ⟨⟨a0, a1, a2⟩, ⟨a3, a4, a5⟩, ⟨a6, a7, 'O'⟩⟩ 'X') ||
      ((a1 == ' ' && atLeastC v n ⟨⟨a0, 'O', a2⟩, ⟨a3, a4, a5⟩, ⟨a6, a7, a8⟩⟩ 'X') ||
      ((a3 == ' ' && atLeastC v n ⟨⟨a0, a1, a2⟩, ⟨'O', a4, a5⟩, ⟨a6, a7, a8⟩⟩ 'X') ||
      ((a5 == ' ' && atLeastC v n ⟨⟨a0, a1, a2⟩, ⟨a3, a4, 'O'⟩, ⟨a6, a7, a8⟩⟩ 'X') ||
      (a7 == ' ' && atLeastC v n ⟨⟨a0, a1, a2⟩, ⟨a3, a4, a5⟩, ⟨a6, 'O', a8⟩⟩ 'X')))))))))
    else
      ((!(a4 == ' ') || atLeastC v n ⟨⟨a0, a1, a2⟩, ⟨a3, 'X', a5⟩, ⟨a6, a7, a8⟩⟩ 'O') &&
      ((!(a0 == ' ') || atLeastC v n ⟨⟨'X', a1, a2⟩, ⟨a3, a4, a5⟩, ⟨a6, a7, a8⟩⟩ 'O') &&
      ((!(a2 == ' ') || atLeastC v n ⟨⟨a0, a1, 'X'⟩, ⟨a3, a4, a5⟩, ⟨a6, a7, a8⟩⟩ 'O') &&
      ((!(a6 == ' ') || atLeastC v n ⟨⟨a0, a1, a2⟩, ⟨a3, a4, a5⟩, ⟨'X', a7, a8⟩⟩ 'O') &&
      ((!(a8 == ' ') || atLeastC v n ⟨⟨a0, a1, a2⟩, ⟨a3, a4, a5⟩, ⟨a6, a7, 'X'⟩⟩ 'O') &&
      ((!(a1 == ' ') || atLeastC v n ⟨⟨a0, 'X', a2⟩, ⟨a3, a4, a5⟩, ⟨a6, a7, a8⟩⟩ 'O') &&
      ((!(a3 == ' ') || atLeastC v n ⟨⟨a0, a1, a2⟩, ⟨'X', a4, a5⟩, ⟨a6, a7, a8⟩⟩ 'O') &&
      ((!(a5 == ' ') || atLeastC v n ⟨⟨a0, a1, a2⟩, ⟨a3, a4, 'X'⟩, ⟨a6, a7, a8⟩⟩ 'O') &&
      (!(a7 == ' ') || atLeastC v n ⟨⟨a0, a1, a2⟩, ⟨a3, a4, a5⟩, ⟨a6, 'X', a8⟩⟩ 'O')))))))))

/-- Checks a strategy of the minimizing side: true only if the position is worth at most `v`.
At a node of `'O'` every empty cell must lead to a position that passes, at a node of the
other side one empty cell must.  The cells are tried centre first, then corners, then
edges. -/
def atMostC (v : Int) : Nat → Board → Char → Bool
  | 0, _, _ => false
  | n + 1, ⟨⟨a0, a1, a2⟩, ⟨a3, a4, a5⟩, ⟨a6, a7, a8⟩⟩, p =>
    if evalIsWinner ⟨⟨a0, a1, a2⟩, ⟨a3, a4, a5⟩, ⟨a6, a7, a8⟩⟩ 'O' then decide (10 ≤ v)
    else if evalIsWinner ⟨⟨a0, a1, a2⟩, ⟨a3, a4, a5⟩, ⟨a6, a7, a8⟩⟩ 'X' then decide (-10 ≤ v)
    else if evalIsFull ⟨⟨a0, a1, a2⟩, ⟨a3, a4, a5⟩, ⟨a6, a7, a8⟩⟩ then decide (0 ≤ v)
    else if p == 'O' then
      ((!(a4 == ' ') || atMostC v n ⟨⟨a0, a1, a2⟩, ⟨a3, 'O', a5⟩, ⟨a6, a7, a8⟩⟩ 'X') &&
      ((!(a0 == ' ') || atMostC v n ⟨⟨'O', a1, a2⟩, ⟨a3, a4, a5⟩, ⟨a6, a7, a8⟩⟩ 'X') &&
      ((!(a2 == ' ') || atMostC v n ⟨⟨a0, a1, 'O'⟩, ⟨a3, a4, a5⟩, ⟨a6, a7, a8⟩⟩ 'X') &&
      ((!(a6 == ' ') || atMostC v n ⟨⟨a0, a1, a2⟩, ⟨a3, a4, a5⟩, ⟨'O', a7, a8⟩⟩ 'X') &&
      ((!(a8 == ' ') || atMostC v n ⟨⟨a0, a1, a2⟩, ⟨a3, a4, a5⟩, ⟨a6, a7, 'O'⟩⟩ 'X') &&
      ((!(a1 == ' ') || atMostC v n ⟨⟨a0, 'O', a2⟩, ⟨a3, a4, a5⟩, ⟨a6, a7, a8⟩⟩ 'X') &&
      ((!(a3 == ' ') || atMostC v n ⟨⟨a0, a1, a2⟩, ⟨'O', a4, a5⟩, ⟨a6, a7, a8⟩⟩ 'X') &&
      ((!(a5 == ' ') || atMostC v n ⟨⟨a0, a1, a2⟩, ⟨a3, a4, 'O'⟩, ⟨a6, a7, a8⟩⟩ 'X') &&
      (!(a7 == ' ') || atMostC v n ⟨⟨a0, a1, a2⟩, ⟨a3, a4, a5⟩, ⟨a6, 'O', a8⟩⟩ 'X')))))))))
    else
      ((a4 == ' ' && atMostC v n ⟨⟨a0, a1, a2⟩, ⟨a3, 'X', a5⟩, ⟨a6, a7, a8⟩⟩ 'O') ||
      ((a0 == ' ' && atMostC v n ⟨⟨'X', a1, a2⟩, ⟨a3, a4, a5⟩, ⟨a6, a7, a8⟩⟩ 'O') ||
      ((a2 == ' ' && atMostC v n ⟨⟨a0, a1, 'X'⟩, ⟨a3, a4, a5⟩, ⟨a6, a7, a8⟩⟩ 'O') ||
      ((a6 == ' ' && atMostC v n ⟨⟨a0, a1, a2⟩, ⟨a3, a4, a5⟩, ⟨'X', a7, a8⟩⟩ 'O') ||
      ((a8 == ' ' && atMostC v n ⟨⟨a0, a1, a2⟩, ⟨a3, a4, a5⟩, ⟨a6, a7, 'X'⟩⟩ 'O') ||
      ((a1 == ' ' && atMostC v n ⟨⟨a0, 'X', a2⟩, ⟨a3, a4, a5⟩, ⟨a6, a7, a8⟩⟩ 'O') ||
      ((a3 == ' ' && atMostC v n ⟨⟨a0, a1, a2⟩, ⟨'X', a4, a5⟩, ⟨a6, a7, a8⟩⟩ 'O') ||
      ((a5 == ' ' && atMostC v n ⟨⟨a0, a1, a2⟩, ⟨a3, a4, 'X'⟩, ⟨a6, a7, a8⟩⟩ 'O') ||
      (a7 == ' ' && atMostC v n ⟨⟨a0, a1, a2⟩, ⟨a3, a4, a5⟩, ⟨a6, 'X', a8⟩⟩ 'O')))))))))

/-! ## Basic facts about the board -/

theorem Board.get_set (b : Board) (i j : Fin 3) (v : Char) (k l : Fin 3) :
    (b.set i j v).get k l = if k = i ∧ l = j then v else b.get k l := by
  obtain ⟨⟨a0, a1, a2⟩, ⟨a3, a4, a5⟩, ⟨a6, a7, a8⟩⟩ := b
  fin_cases i <;> fin_cases j <;> fin_cases k <;> fin_cases l <;> rfl

theorem Board.get_set_self (b : Board) (i j : Fin 3) (v : Char) :
    (b.set i j v).get i j = v := by
  simp [Board.get_set]

theorem Board.get_set_other (b : Board) (i j : Fin 3) (v : Char) (k l : Fin 3)
    (h : ¬(k = i ∧ l = j)) : (b.set i j v).get k l = b.get k l := by
  simp [Board.get_set, h]

theorem Board.ext_get (b c : Board) (h : ∀ i j, b.get i j = c.get i j) : b = c := by
  obtain ⟨⟨a0, a1, a2⟩, ⟨a3, a4, a5⟩, ⟨a6, a7, a8⟩⟩ := b
  obtain ⟨⟨d0, d1, d2⟩, ⟨d3, d4, d5⟩, ⟨d6, d7, d8⟩⟩ := c
  have h00 := h 0 0
  have h01 := h 0 1
  have h02 := h 0 2
  have h10 := h 1 0
  have h11 := h 1 1
  have h12 := h 1 2
  have h20 := h 2 0
  have h21 := h 2 1
  have h22 := h 2 2
  simp only [Board.get, Board.row, Row.get] at h00 h01 h02 h10 h11 h12 h20 h21 h22
  subst h00 h01 h02 h10 h11 h12 h20 h21 h22
  rfl

/-- Writing a mark into an empty cell and then writing `' '` back restores the board. -/
theorem Board.set_restore (b : Board) (i j : Fin 3) (v : Char) (h : b.get i j = ' ') :
    (b.set i j v).set i j ' ' = b := by
  apply Board.ext_get
  intro k l
  by_cases hk : k = i ∧ l = j
  · obtain ⟨rfl, rfl⟩ := hk
    simp [Board.get_set, h]
  · simp [Board.get_set, hk]

theorem mem_cells (c : Fin 3 × Fin 3) : c ∈ cells := by
  obtain ⟨i, j⟩ := c
  fin_cases i <;> fin_cases j <;> simp [cells]

/-! ## Win and full-board detection -/

theorem evalIsWinner_iff (b : Board) (p : Char) : evalIsWinner b p = true ↔ hasLine b p := by
  simp only [evalIsWinner, evalIsWinnerLoop, hasLine, winningLines]
  simp [or_imp, forall_and]
  constructor
  · rintro ((h | h | h | h | h | h) | h | h) <;> simp [h]
  · rintro (h | h | h | h | h | h | h | h) <;> simp [h]

theorem checkWinner_eq_evalIsWinner (s : GameBoard) (p : Char) :
    checkWinner s p = evalIsWinner s.board p := by
  simp only [checkWinner, checkWinnerLoop, evalIsWinner, evalIsWinnerLoop]

theorem boardFull_iff_cells (b : Board) :
    boardFull b ↔ ∀ c ∈ cells, b.get c.1 c.2 ≠ ' ' :=
  ⟨fun h c _ => h c.1 c.2, fun h i j => h (i, j) (mem_cells (i, j))⟩

theorem evalIsFull_iff (b : Board) : evalIsFull b = true ↔ boardFull b := by
  rw [boardFull_iff_cells]
  have h00 : b.get 0 0 = b.r0.c0 := rfl
  have h01 : b.get 0 1 = b.r0.c1 := rfl
  have h02 : b.get 0 2 = b.r0.c2 := rfl
  have h10 : b.get 1 0 = b.r1.c0 := rfl
  have h11 : b.get 1 1 = b.r1.c1 := rfl
  have h12 : b.get 1 2 = b.r1.c2 := rfl
  have h20 : b.get 2 0 = b.r2.c0 := rfl
  have h21 : b.get 2 1 = b.r2.c1 := rfl
  have h22 : b.get 2 2 = b.r2.c2 := rfl
  simp [evalIsFull, Board.rows, Row.cells, cells, h00, h01, h02, h10, h11, h12, h20, h21, h22]
  tauto

theorem isFull_eq_evalIsFull (s : GameBoard) : isFull s = evalIsFull s.board := rfl

/-- C3: `checkWinner(marker)` is true exactly when one of the 8 lines (3 rows, 3 columns,
the two diagonals) has all three cells equal to `marker`, and `evalIsWinner` returns the
same value on the same board. -/
theorem checkWinner_iff_hasLine (s : GameBoard) (marker : Char) :
    (checkWinner s marker = true ↔ hasLine s.board marker) ∧
      evalIsWinner s.board marker = checkWinner s marker := by
  rw [checkWinner_eq_evalIsWinner]
  exact ⟨evalIsWinner_iff s.board marker, rfl⟩

/-! ## Placement: `makeMove` -/

theorem toIndex_coe (i : Fin 3) : toIndex (i.val : Int) = some i := by
  have h : (0 : Int) ≤ (i.val : Int) ∧ (i.val : Int) < 3 := by omega
  simp [toIndex, h]

theorem toIndex_eq_some {k : Int} {i : Fin 3} (h : toIndex k = some i) : (i.val : Int) = k := by
  unfold toIndex at h
  split at h
  · simp only [Option.some.injEq] at h
    subst h
    simp
    omega
  · simp at h

theorem toIndex_eq_none_iff (k : Int) : toIndex k = none ↔ ¬(0 ≤ k ∧ k < 3) := by
  unfold toIndex
  split <;> simp_all

theorem toIndex_of_range {k : Int} (h : 0 ≤ k ∧ k < 3) : ∃ i : Fin 3, toIndex k = some i := by
  cases hk : toIndex k with
  | none => exact absurd h ((toIndex_eq_none_iff k).1 hk)
  | some i => exact ⟨i, rfl⟩

theorem Board.read_coe (b : Board) (i j : Fin 3) :
    b.read (i.val : Int) (j.val : Int) = some (b.get i j) := by
  simp [Board.read, toIndex_coe]

theorem Board.write_coe (b : Board) (i j : Fin 3) (v : Char) :
    b.write (i.val : Int) (j.val : Int) v = some (b.set i j v) := by
  simp [Board.write, toIndex_coe]

/-- On grid coordinates `makeMove` succeeds exactly on an empty cell of an active game. -/
theorem makeMove_coe (s : GameBoard) (i j : Fin 3) (p : Char) :
    makeMove s (i.val : Int) (j.val : Int) p =
      if s.board.get i j = ' ' ∧ s.gameActive = true then
        some (true, { s with board := s.board.set i j p })
      else some (false, s) := by
  have hi : (0 : Int) ≤ (i.val : Int) ∧ (i.val : Int) < 3 := by omega
  have hj : (0 : Int) ≤ (j.val : Int) ∧ (j.val : Int) < 3 := by omega
  simp only [makeMove, Board.read_coe, Board.write_coe]
  simp [hi.1, hi.2, hj.1, hj.2]

/-- Outside the grid `makeMove` refuses the move before it touches the board. -/
theorem makeMove_out_of_range (s : GameBoard) (row col : Int) (p : Char)
    (h : ¬(0 ≤ row ∧ row < 3 ∧ 0 ≤ col ∧ col < 3)) :
    makeMove s row col p = some (false, s) := by
  unfold makeMove
  rw [if_neg]
  simpa [and_assoc] using h

/-- C4: `makeMove(row, col, marker)` returns (it never reads outside the grid) and its
result is true exactly when `0 <= row < 3`, `0 <= col < 3`, the cell is empty and the
game is active; on true the cell holds `marker`, every other cell is unchanged, and
`currentPlayer`, `gameActive` and `gameMode` are unchanged. -/
theorem makeMove_true_iff (s : GameBoard) (row col : Int) (marker : Char) :
    ∃ ok s1, makeMove s row col marker = some (ok, s1) ∧
      (ok = true ↔ (0 ≤ row ∧ row < 3 ∧ 0 ≤ col ∧ col < 3 ∧
        s.board.read row col = some ' ' ∧ s.gameActive = true)) ∧
      (ok = true → s1.board.read row col = some marker ∧
        (∀ i j : Fin 3, ¬((i.val : Int) = row ∧ (j.val : Int) = col) →
          s1.board.get i j = s.board.get i j) ∧
        s1.currentPlayer = s.currentPlayer ∧ s1.gameActive = s.gameActive ∧
        s1.gameMode = s.gameMode) := by
  by_cases hr : 0 ≤ row ∧ row < 3 ∧ 0 ≤ col ∧ col < 3
  · obtain ⟨i, hi⟩ := toIndex_of_range ⟨hr.1, hr.2.1⟩
    obtain ⟨j, hj⟩ := toIndex_of_range ⟨hr.2.2.1, hr.2.2.2⟩
    have hi1 := toIndex_eq_some hi
    have hj1 := toIndex_eq_some hj
    subst hi1 hj1
    rw [makeMove_coe]
    by_cases hc : s.board.get i j = ' ' ∧ s.gameActive = true
    · refine ⟨true, _, by rw [if_pos hc], ?_, ?_⟩
      · simp [Board.read_coe, hc.1, hc.2]
      · intro _
        refine ⟨by simp [Board.read_coe, Board.get_set_self], ?_, rfl, rfl, rfl⟩
        intro k l hkl
        apply Board.get_set_other
        rintro ⟨rfl, rfl⟩
        exact hkl ⟨rfl, rfl⟩
    · refine ⟨false, s, by rw [if_neg hc], ?_, by simp⟩
      simp only [Board.read_coe, Option.some.injEq]
      constructor
      · intro h
        cases h
      · intro h
        exact absurd ⟨h.2.2.2.2.1, h.2.2.2.2.2⟩ hc
  · refine ⟨false, s, makeMove_out_of_range s row col marker hr, ?_, by simp⟩
    constructor
    · intro h
      cases h
    · intro h
      exact absurd ⟨h.1, h.2.1, h.2.2.1, h.2.2.2.1⟩ hr

/-- C5: a placement that is out of range, or addresses an occupied cell, or is requested
while the game is over, makes `makeMove` return false (without any read outside the
grid) and leaves the whole state as it was; a click on such a cell, and a click whose
sender is not a grid button, changes nothing and emits nothing. -/
theorem illegal_placement_rejected (observer : Observer) (s : GameBoard) (row col : Int)
    (marker : Char)
    (h : ¬(0 ≤ row ∧ row < 3 ∧ 0 ≤ col ∧ col < 3) ∨
      (∃ c, s.board.read row col = some c ∧ c ≠ ' ') ∨ s.gameActive = false) :
    makeMove s row col marker = some (false, s) ∧
      (∀ i j : Fin 3, (i.val : Int) = row → (j.val : Int) = col →
        onCellClicked observer s (some (i, j)) = some (s, [])) ∧
      onCellClicked observer s none = some (s, []) := by
  have hnone : onCellClicked observer s none = some (s, []) := by
    unfold onCellClicked
    split <;> rfl
  by_cases hr : 0 ≤ row ∧ row < 3 ∧ 0 ≤ col ∧ col < 3
  · obtain ⟨i, hi⟩ := toIndex_of_range ⟨hr.1, hr.2.1⟩
    obtain ⟨j, hj⟩ := toIndex_of_range ⟨hr.2.2.1, hr.2.2.2⟩
    have hi1 := toIndex_eq_some hi
    have hj1 := toIndex_eq_some hj
    subst hi1 hj1
    have hc : ¬(s.board.get i j = ' ' ∧ s.gameActive = true) := by
      rintro ⟨h1, h2⟩
      rcases h with h | ⟨c, hc1, hc2⟩ | h
      · exact h hr
      · rw [Board.read_coe] at hc1
        simp only [Option.some.injEq] at hc1
        exact hc2 (hc1 ▸ h1)
      · simp [h2] at h
    have hm : makeMove s (i.val : Int) (j.val : Int) marker = some (false, s) := by
      rw [makeMove_coe, if_neg hc]
    refine ⟨hm, ?_, hnone⟩
    intro k l hk hl
    have hk1 : k = i := by
      apply Fin.ext
      omega
    have hl1 : l = j := by
      apply Fin.ext
      omega
    subst hk1 hl1
    unfold onCellClicked
    split
    · rfl
    · simp only [makeMove_coe, if_neg hc]
  · refine ⟨makeMove_out_of_range s row col marker hr, ?_, hnone⟩
    intro k l hk hl
    exfalso
    apply hr
    omega

theorem illegal_placement_rejected_witness :
    (∃ c, ((GameBoard.init 1).board.set 0 0 'X').read 0 0 = some c ∧ c ≠ ' ') ∧
      makeMove { GameBoard.init 1 with board := (GameBoard.init 1).board.set 0 0 'X' } 0 0 'O' =
        some (false, { GameBoard.init 1 with board := (GameBoard.init 1).board.set 0 0 'X' }) :=
  ⟨⟨'X', by decide⟩,
    (illegal_placement_rejected noObserver
      { GameBoard.init 1 with board := (GameBoard.init 1).board.set 0 0 'X' } 0 0 'O'
      (Or.inr (Or.inl ⟨'X', by decide⟩))).1⟩

/-! ## Outcome of an accepted click -/

theorem afterMove_win (observer : Observer) (s : GameBoard) (name : String)
    (h : checkWinner s s.currentPlayer = true) :
    afterMove observer s name =
      ({ observer name s with gameActive := false }, [Event.gameOver name]) := by
  simp [afterMove, h, disableBoard]

theorem afterMove_draw (observer : Observer) (s : GameBoard) (name : String)
    (h : checkWinner s s.currentPlayer = false) (hf : isFull s = true) :
    afterMove observer s name =
      ({ observer "Draw" s with gameActive := false }, [Event.gameOver "Draw"]) := by
  simp [afterMove, h, hf, disableBoard]

theorem afterMove_continue (observer : Observer) (s : GameBoard) (name : String)
    (h : checkWinner s s.currentPlayer = false) (hf : isFull s = false) :
    afterMove observer s name = switchPlayer s := by
  simp [afterMove, h, hf]

theorem switchPlayer_eq (s : GameBoard) :
    switchPlayer s =
      ({ s with currentPlayer := if s.currentPlayer = 'X' then 'O' else 'X' },
        if s.gameMode = 2 ∧ s.currentPlayer = 'X' ∧ s.gameActive = true then [Event.aiMoveTimer]
        else []) := by
  by_cases hm : s.gameMode = 2 <;> by_cases hp : s.currentPlayer = 'X' <;>
    by_cases ha : s.gameActive = true <;> simp [switchPlayer, triggerAiMove, hm, hp, ha]

theorem onCellClicked_accepted_eq (observer : Observer) (s : GameBoard) (i j : Fin 3)
    (hact : s.gameActive = true) (hcell : s.board.get i j = ' ') :
    onCellClicked observer s (some (i, j)) =
      some ((afterMove observer { s with board := s.board.set i j s.currentPlayer }
          (winnerName { s with board := s.board.set i j s.currentPlayer })).1,
        Event.moveMade i.val j.val s.currentPlayer ::
          (afterMove observer { s with board := s.board.set i j s.currentPlayer }
            (winnerName { s with board := s.board.set i j s.currentPlayer })).2) := by
  unfold onCellClicked
  simp only [hact, Bool.not_true, Bool.false_eq_true, if_false, makeMove_coe, hcell, and_self,
    if_true]

/-- C6: outcome of an accepted placement made by `onCellClicked` for the active player,
with no observer touching the `GameBoard`.  If the mover now has a complete line,
`gameOver` names the mover (mode 1: "Player 1" / "Player 2", other modes: "You" / "AI"),
the game is inactive and `currentPlayer` is unchanged, whether or not the board is full;
otherwise, if the board is full, `gameOver("Draw")` is emitted and the game is inactive;
otherwise `currentPlayer` is toggled and the game stays active. -/
theorem onCellClicked_accepted_outcome (s : GameBoard) (i j : Fin 3)
    (hact : s.gameActive = true) (hcell : s.board.get i j = ' ') :
    (hasLine (s.board.set i j s.currentPlayer) s.currentPlayer →
      onCellClicked noObserver s (some (i, j)) =
        some ({ s with board := s.board.set i j s.currentPlayer, gameActive := false },
          [Event.moveMade i.val j.val s.currentPlayer,
            Event.gameOver
              (if s.gameMode = 1 then (if s.currentPlayer = 'X' then "Player 1" else "Player 2")
               else (if s.currentPlayer = 'X' then "You" else "AI"))])) ∧
    (¬hasLine (s.board.set i j s.currentPlayer) s.currentPlayer →
      boardFull (s.board.set i j s.currentPlayer) →
      onCellClicked noObserver s (some (i, j)) =
        some ({ s with board := s.board.set i j s.currentPlayer, gameActive := false },
          [Event.moveMade i.val j.val s.currentPlayer, Event.gameOver "Draw"])) ∧
    (¬hasLine (s.board.set i j s.currentPlayer) s.currentPlayer →
      ¬boardFull (s.board.set i j s.currentPlayer) →
      onCellClicked noObserver s (some (i, j)) =
        some ({ s with board := s.board.set i j s.currentPlayer,
                       currentPlayer := if s.currentPlayer = 'X' then 'O' else 'X',
                       gameActive := true },
          Event.moveMade i.val j.val s.currentPlayer ::
            (if s.gameMode = 2 ∧ s.currentPlayer = 'X' then [Event.aiMoveTimer] else []))) := by
  rw [onCellClicked_accepted_eq noObserver s i j hact hcell]
  refine ⟨?_, ?_, ?_⟩
  · intro hl
    have hw : checkWinner { s with board := s.board.set i j s.currentPlayer } s.currentPlayer
        = true := by
      rw [checkWinner_eq_evalIsWinner]
      exact (evalIsWinner_iff _ _).2 hl
    rw [afterMove_win _ _ _ hw]
    simp only [noObserver, winnerName]
    by_cases hm : s.gameMode = 1 <;> by_cases hp : s.currentPlayer = 'X' <;> simp [hm, hp]
  · intro hl hf
    have hw : checkWinner { s with board := s.board.set i j s.currentPlayer } s.currentPlayer
        = false := by
      rw [checkWinner_eq_evalIsWinner, ← Bool.not_eq_true]
      exact fun h => hl ((evalIsWinner_iff _ _).1 h)
    have hfull : isFull { s with board := s.board.set i j s.currentPlayer } = true := by
      rw [isFull_eq_evalIsFull]
      exact (evalIsFull_iff _).2 hf
    rw [afterMove_draw _ _ _ hw hfull]
    simp [noObserver]
  · intro hl hf
    have hw : checkWinner { s with board := s.board.set i j s.currentPlayer } s.currentPlayer
        = false := by
      rw [checkWinner_eq_evalIsWinner, ← Bool.not_eq_true]
      exact fun h => hl ((evalIsWinner_iff _ _).1 h)
    have hfull : isFull { s with board := s.board.set i j s.currentPlayer } = false := by
      rw [isFull_eq_evalIsFull, ← Bool.not_eq_true]
      exact fun h => hf ((evalIsFull_iff _).1 h)
    rw [afterMove_continue _ _ _ hw hfull, switchPlayer_eq]
    simp [hact]

theorem onCellClicked_accepted_outcome_witness :
    (GameBoard.init 2).gameActive = true ∧ (GameBoard.init 2).board.get 1 1 = ' ' ∧
      onCellClicked noObserver (GameBoard.init 2) (some (1, 1)) =
        some ({ board := emptyBoard.set 1 1 'X', currentPlayer := 'O', gameActive := true,
                gameMode := 2 },
          [Event.moveMade 1 1 'X', Event.aiMoveTimer]) :=
  ⟨rfl, rfl,
    ((onCellClicked_accepted_outcome (GameBoard.init 2) 1 1 rfl rfl).2.2
      (by rw [← evalIsWinner_iff]; decide) (by rw [← evalIsFull_iff]; decide)).trans
      (by decide)⟩

/-! ## The loops of `minimax` -/

/-- What one double loop of `minimax` computes.  `R` is the order in which `pick` moves
(`≤` for `std::max`, `≥` for `std::min`). -/
theorem minimaxLoop_spec (recur : Board → Char → Option Int) (mark next : Char)
    (pick : Int → Int → Int) (R : Int → Int → Prop)
    (hrefl : ∀ a, R a a) (htrans : ∀ a b c, R a b → R b c → R a c)
    (hleft : ∀ a v, R a (pick a v)) (hright : ∀ a v, R v (pick a v))
    (hpick : ∀ a v, pick a v = a ∨ pick a v = v) (b : Board) :
    ∀ (cs : List (Fin 3 × Fin 3)) (best : Int) (st : Board × Int),
      minimaxLoop recur mark next pick cs (b, best) = some st →
        st.1 = b ∧ R best st.2 ∧
        (∀ c ∈ cs, b.get c.1 c.2 = ' ' →
          ∃ v, recur (b.set c.1 c.2 mark) next = some v ∧ R v st.2) ∧
        (st.2 = best ∨
          ∃ c ∈ cs, b.get c.1 c.2 = ' ' ∧ recur (b.set c.1 c.2 mark) next = some st.2) := by
  intro cs
  induction cs with
  | nil =>
    intro best st h
    simp only [minimaxLoop, Option.some.injEq] at h
    subst h
    exact ⟨rfl, hrefl _, by simp, Or.inl rfl⟩
  | cons c rest ih =>
    intro best st h
    obtain ⟨i, j⟩ := c
    by_cases hc : b.get i j = ' '
    · simp only [minimaxLoop, hc, beq_self_eq_true, if_true] at h
      cases hv : recur (b.set i j mark) next with
      | none => simp [hv] at h
      | some v =>
        simp only [hv, Board.set_restore b i j mark hc] at h
        obtain ⟨h1, h2, h3, h4⟩ := ih _ _ h
        refine ⟨h1, htrans _ _ _ (hleft best v) h2, ?_, ?_⟩
        · intro c hmem hce
          rcases List.mem_cons.1 hmem with rfl | hmem
          · exact ⟨v, hv, htrans _ _ _ (hright best v) h2⟩
          · exact h3 c hmem hce
        · rcases h4 with h4 | ⟨c, hmem, hce, hcv⟩
          · rcases hpick best v with hp | hp
            · exact Or.inl (h4.trans hp)
            · exact Or.inr ⟨(i, j), List.mem_cons_self _ _, hc, by rw [hv, h4, hp]⟩
          · exact Or.inr ⟨c, List.mem_cons_of_mem _ hmem, hce, hcv⟩
    · have hc1 : (b.get i j == ' ') = false := by simpa using hc
      simp only [minimaxLoop, hc1, Bool.false_eq_true, if_false] at h
      obtain ⟨h1, h2, h3, h4⟩ := ih _ _ h
      refine ⟨h1, h2, ?_, ?_⟩
      · intro c hmem hce
        rcases List.mem_cons.1 hmem with rfl | hmem
        · exact absurd hce hc
        · exact h3 c hmem hce
      · rcases h4 with h4 | ⟨c, hmem, hce, hcv⟩
        · exact Or.inl h4
        · exact Or.inr ⟨c, List.mem_cons_of_mem _ hmem, hce, hcv⟩

/-- The loop returns as soon as every recursive call it makes returns. -/
theorem minimaxLoop_isSome (recur : Board → Char → Option Int) (mark next : Char)
    (pick : Int → Int → Int) (b : Board) :
    ∀ (cs : List (Fin 3 × Fin 3)) (best : Int),
      (∀ c ∈ cs, b.get c.1 c.2 = ' ' → ∃ v, recur (b.set c.1 c.2 mark) next = some v) →
        ∃ st, minimaxLoop recur mark next pick cs (b, best) = some st := by
  intro cs
  induction cs with
  | nil =>
    intro best _
    exact ⟨_, rfl⟩
  | cons c rest ih =>
    intro best h
    obtain ⟨i, j⟩ := c
    by_cases hc : b.get i j = ' '
    · obtain ⟨v, hv⟩ := h (i, j) (List.mem_cons_self _ _) hc
      simp only [minimaxLoop, hc, beq_self_eq_true, if_true, hv, Board.set_restore b i j mark hc]
      exact ih _ (fun c hmem => h c (List.mem_cons_of_mem _ hmem))
    · have hc1 : (b.get i j == ' ') = false := by simpa using hc
      simp only [minimaxLoop, hc1, Bool.false_eq_true, if_false]
      exact ih _ (fun c hmem => h c (List.mem_cons_of_mem _ hmem))

/-- The loop's result does not change when the recursive calls are given more room. -/
theorem minimaxLoop_mono (recur recur2 : Board → Char → Option Int) (mark next : Char)
    (pick : Int → Int → Int)
    (h : ∀ b p v, recur b p = some v → recur2 b p = some v) :
    ∀ (cs : List (Fin 3 × Fin 3)) (st r : Board × Int),
      minimaxLoop recur mark next pick cs st = some r →
        minimaxLoop recur2 mark next pick cs st = some r := by
  intro cs
  induction cs with
  | nil =>
    intro st r hr
    simpa [minimaxLoop] using hr
  | cons c rest ih =>
    intro st r hr
    obtain ⟨i, j⟩ := c
    obtain ⟨b, best⟩ := st
    by_cases hc : (b.get i j == ' ') = true
    · simp only [minimaxLoop, hc, if_true] at hr ⊢
      cases hv : recur (b.set i j mark) next with
      | none => simp [hv] at hr
      | some v =>
        simp only [hv] at hr
        simp only [h _ _ _ hv]
        exact ih _ _ hr
    · simp only [minimaxLoop, hc, if_false] at hr ⊢
      exact ih _ _ hr

/-! ## Counting empty cells -/

theorem countEmpty_le (b : Board) : countEmpty b ≤ 9 := by
  unfold countEmpty
  exact (List.length_filter_le _ _).trans (by decide)

theorem countEmpty_eq (b : Board) :
    countEmpty b = cells.countP (fun c => b.get c.1 c.2 == ' ') := by
  unfold countEmpty
  rw [List.countP_eq_length_filter]

/-- Writing a mark other than `' '` into an empty cell removes exactly one empty cell. -/
theorem countEmpty_set (b : Board) (i j : Fin 3) (m : Char) (h : b.get i j = ' ')
    (hm : m ≠ ' ') : countEmpty (b.set i j m) + 1 = countEmpty b := by
  have hm1 : (m == ' ') = false := by simpa using hm
  have key : ∀ (cs : List (Fin 3 × Fin 3)), cs.Nodup →
      cs.countP (fun c => (b.set i j m).get c.1 c.2 == ' ') + (if (i, j) ∈ cs then 1 else 0) =
        cs.countP (fun c => b.get c.1 c.2 == ' ') := by
    intro cs
    induction cs with
    | nil => intro _; simp
    | cons c rest ih =>
      intro hnd
      obtain ⟨hnot, hnd1⟩ := List.nodup_cons.1 hnd
      have ih1 := ih hnd1
      by_cases hc : c = (i, j)
      · subst hc
        have hrest : ¬((i, j) ∈ rest) := hnot
        simp only [hrest, if_false, Nat.add_zero] at ih1
        simp only [List.countP_cons, Board.get_set_self, hm1, h, List.mem_cons, true_or, if_true,
          beq_self_eq_true, Bool.false_eq_true, if_false, ih1]
      · have hne : ¬(c.1 = i ∧ c.2 = j) := fun hh => hc (Prod.ext hh.1 hh.2)
        have hmem : ((i, j) ∈ c :: rest) ↔ ((i, j) ∈ rest) := by
          simp [List.mem_cons, Ne.symm hc]
        simp only [List.countP_cons, Board.get_set_other b i j m c.1 c.2 hne, hmem]
        omega
  have hnd : cells.Nodup := by decide
  have := key cells hnd
  simp only [mem_cells, if_true] at this
  rw [countEmpty_eq, countEmpty_eq]
  exact this

theorem evalIsFull_false_iff (b : Board) :
    evalIsFull b = false ↔ ∃ c : Fin 3 × Fin 3, b.get c.1 c.2 = ' ' := by
  rw [← Bool.not_eq_true, evalIsFull_iff]
  unfold boardFull
  constructor
  · intro h
    by_contra hne
    exact h (fun i j hij => hne ⟨(i, j), hij⟩)
  · rintro ⟨c, hc⟩ h
    exact h c.1 c.2 hc

theorem evalIsFull_iff_countEmpty (b : Board) : evalIsFull b = true ↔ countEmpty b = 0 := by
  rw [evalIsFull_iff, boardFull_iff_cells]
  unfold countEmpty
  rw [List.length_eq_zero, List.filter_eq_nil_iff]
  simp

/-! ## `minimax`: unfolding, range, fuel -/

theorem minimaxFuel_winO (n : Nat) (b : Board) (p : Char) (h : evalIsWinner b 'O' = true) :
    minimaxFuel (n + 1) b p = some 10 := by
  simp [minimaxFuel, h]

theorem minimaxFuel_winX (n : Nat) (b : Board) (p : Char) (hO : evalIsWinner b 'O' = false)
    (h : evalIsWinner b 'X' = true) : minimaxFuel (n + 1) b p = some (-10) := by
  simp [minimaxFuel, hO, h]

theorem minimaxFuel_full (n : Nat) (b : Board) (p : Char) (hO : evalIsWinner b 'O' = false)
    (hX : evalIsWinner b 'X' = false) (h : evalIsFull b = true) :
    minimaxFuel (n + 1) b p = some 0 := by
  simp [minimaxFuel, hO, hX, h]

theorem minimaxFuel_maxLoop (n : Nat) (b : Board) (hO : evalIsWinner b 'O' = false)
    (hX : evalIsWinner b 'X' = false) (hF : evalIsFull b = false) :
    minimaxFuel (n + 1) b 'O' =
      (minimaxLoop (minimaxFuel n) 'O' 'X' max cells (b, -1000)).map (fun st => st.2) := by
  simp [minimaxFuel, hO, hX, hF]

theorem minimaxFuel_minLoop (n : Nat) (b : Board) (p : Char) (hp : p ≠ 'O')
    (hO : evalIsWinner b 'O' = false) (hX : evalIsWinner b 'X' = false)
    (hF : evalIsFull b = false) :
    minimaxFuel (n + 1) b p =
      (minimaxLoop (minimaxFuel n) 'X' 'O' min cells (b, 1000)).map (fun st => st.2) := by
  have hp1 : (p == 'O') = false := by simpa using hp
  simp [minimaxFuel, hO, hX, hF, hp1]

/-- Maximizing node, before the initial bound is excluded. -/
theorem minimaxFuel_max_raw (n : Nat) (b : Board) (r : Int) (hO : evalIsWinner b 'O' = false)
    (hX : evalIsWinner b 'X' = false) (hF : evalIsFull b = false)
    (h : minimaxFuel (n + 1) b 'O' = some r) :
    (∀ c : Fin 3 × Fin 3, b.get c.1 c.2 = ' ' →
        ∃ v, minimaxFuel n (b.set c.1 c.2 'O') 'X' = some v ∧ v ≤ r) ∧
      (r = -1000 ∨
        ∃ c : Fin 3 × Fin 3, b.get c.1 c.2 = ' ' ∧
          minimaxFuel n (b.set c.1 c.2 'O') 'X' = some r) := by
  rw [minimaxFuel_maxLoop n b hO hX hF, Option.map_eq_some'] at h
  obtain ⟨st, hst, rfl⟩ := h
  obtain ⟨_, _, h3, h4⟩ := minimaxLoop_spec (minimaxFuel n) 'O' 'X' max (fun a b => a ≤ b)
    (fun a => le_refl a) (fun a b c => le_trans) (fun a v => le_max_left a v)
    (fun a v => le_max_right a v) (fun a v => max_choice a v) b cells (-1000) st hst
  refine ⟨fun c hc => h3 c (mem_cells c) hc, ?_⟩
  rcases h4 with h4 | ⟨c, _, hc, hv⟩
  · exact Or.inl h4
  · exact Or.inr ⟨c, hc, hv⟩

/-- Minimizing node, before the initial bound is excluded. -/
theorem minimaxFuel_min_raw (n : Nat) (b : Board) (p : Char) (r : Int) (hp : p ≠ 'O')
    (hO : evalIsWinner b 'O' = false) (hX : evalIsWinner b 'X' = false)
    (hF : evalIsFull b = false) (h : minimaxFuel (n + 1) b p = some r) :
    (∀ c : Fin 3 × Fin 3, b.get c.1 c.2 = ' ' →
        ∃ v, minimaxFuel n (b.set c.1 c.2 'X') 'O' = some v ∧ r ≤ v) ∧
      (r = 1000 ∨
        ∃ c : Fin 3 × Fin 3, b.get c.1 c.2 = ' ' ∧
          minimaxFuel n (b.set c.1 c.2 'X') 'O' = some r) := by
  rw [minimaxFuel_minLoop n b p hp hO hX hF, Option.map_eq_some'] at h
  obtain ⟨st, hst, rfl⟩ := h
  obtain ⟨_, _, h3, h4⟩ := minimaxLoop_spec (minimaxFuel n) 'X' 'O' min (fun a b => b ≤ a)
    (fun a => le_refl a) (fun a b c hab hbc => le_trans hbc hab) (fun a v => min_le_left a v)
    (fun a v => min_le_right a v) (fun a v => min_choice a v) b cells 1000 st hst
  refine ⟨fun c hc => h3 c (mem_cells c) hc, ?_⟩
  rcases h4 with h4 | ⟨c, _, hc, hv⟩
  · exact Or.inl h4
  · exact Or.inr ⟨c, hc, hv⟩

/-- Every result of `minimax` is one of -10, 0, 10. -/
theorem minimaxFuel_range : ∀ (n : Nat) (b : Board) (p : Char) (v : Int),
    minimaxFuel n b p = some v → v = -10 ∨ v = 0 ∨ v = 10 := by
  intro n
  induction n with
  | zero =>
    intro b p v h
    simp [minimaxFuel] at h
  | succ n ih =>
    intro b p v h
    by_cases hO : evalIsWinner b 'O' = true
    · rw [minimaxFuel_winO n b p hO] at h
      simp only [Option.some.injEq] at h
      omega
    have hO1 : evalIsWinner b 'O' = false := by simpa using hO
    by_cases hX : evalIsWinner b 'X' = true
    · rw [minimaxFuel_winX n b p hO1 hX] at h
      simp only [Option.some.injEq] at h
      omega
    have hX1 : evalIsWinner b 'X' = false := by simpa using hX
    by_cases hF : evalIsFull b = true
    · rw [minimaxFuel_full n b p hO1 hX1 hF] at h
      simp only [Option.some.injEq] at h
      omega
    have hF1 : evalIsFull b = false := by simpa using hF
    obtain ⟨c0, hc0⟩ := (evalIsFull_false_iff b).1 hF1
    by_cases hp : p = 'O'
    · subst hp
      obtain ⟨h1, h2⟩ := minimaxFuel_max_raw n b v hO1 hX1 hF1 h
      rcases h2 with h2 | ⟨c, _, hv⟩
      · obtain ⟨w, hw, hwv⟩ := h1 c0 hc0
        have := ih _ _ _ hw
        omega
      · exact ih _ _ _ hv
    · obtain ⟨h1, h2⟩ := minimaxFuel_min_raw n b p v hp hO1 hX1 hF1 h
      rcases h2 with h2 | ⟨c, _, hv⟩
      · obtain ⟨w, hw, hwv⟩ := h1 c0 hc0
        have := ih _ _ _ hw
        omega
      · exact ih _ _ _ hv

theorem minimaxFuel_mono_succ : ∀ (n : Nat) (b : Board) (p : Char) (v : Int),
    minimaxFuel n b p = some v → minimaxFuel (n + 1) b p = some v := by
  intro n
  induction n with
  | zero =>
    intro b p v h
    simp [minimaxFuel] at h
  | succ n ih =>
    intro b p v h
    by_cases hO : evalIsWinner b 'O' = true
    · rw [minimaxFuel_winO _ b p hO] at h ⊢
      exact h
    have hO1 : evalIsWinner b 'O' = false := by simpa using hO
    by_cases hX : evalIsWinner b 'X' = true
    · rw [minimaxFuel_winX _ b p hO1 hX] at h ⊢
      exact h
    have hX1 : evalIsWinner b 'X' = false := by simpa using hX
    by_cases hF : evalIsFull b = true
    · rw [minimaxFuel_full _ b p hO1 hX1 hF] at h ⊢
      exact h
    have hF1 : evalIsFull b = false := by simpa using hF
    by_cases hp : p = 'O'
    · subst hp
      rw [minimaxFuel_maxLoop _ b hO1 hX1 hF1, Option.map_eq_some'] at h ⊢
      obtain ⟨st, hst, hv⟩ := h
      exact ⟨st, minimaxLoop_mono _ _ _ _ _ ih _ _ _ hst, hv⟩
    · rw [minimaxFuel_minLoop _ b p hp hO1 hX1 hF1, Option.map_eq_some'] at h ⊢
      obtain ⟨st, hst, hv⟩ := h
      exact ⟨st, minimaxLoop_mono _ _ _ _ _ ih _ _ _ hst, hv⟩

/-- More fuel does not change a result. -/
theorem minimaxFuel_mono (n m : Nat) (hnm : n ≤ m) (b : Board) (p : Char) (v : Int)
    (h : minimaxFuel n b p = some v) : minimaxFuel m b p = some v := by
  induction m with
  | zero =>
    have h0 : n = 0 := by omega
    subst h0
    exact h
  | succ m ih =>
    by_cases hle : n ≤ m
    · exact minimaxFuel_mono_succ m b p v (ih hle)
    · have h1 : n = m + 1 := by omega
      subst h1
      exact h

/-- `minimax` returns whenever the fuel exceeds the number of empty cells. -/
theorem minimaxFuel_total : ∀ (n : Nat) (b : Board) (p : Char),
    countEmpty b < n → ∃ v, minimaxFuel n b p = some v := by
  intro n
  induction n with
  | zero =>
    intro b p h
    omega
  | succ n ih =>
    intro b p h
    by_cases hO : evalIsWinner b 'O' = true
    · exact ⟨_, minimaxFuel_winO n b p hO⟩
    have hO1 : evalIsWinner b 'O' = false := by simpa using hO
    by_cases hX : evalIsWinner b 'X' = true
    · exact ⟨_, minimaxFuel_winX n b p hO1 hX⟩
    have hX1 : evalIsWinner b 'X' = false := by simpa using hX
    by_cases hF : evalIsFull b = true
    · exact ⟨_, minimaxFuel_full n b p hO1 hX1 hF⟩
    have hF1 : evalIsFull b = false := by simpa using hF
    by_cases hp : p = 'O'
    · subst hp
      rw [minimaxFuel_maxLoop n b hO1 hX1 hF1]
      obtain ⟨st, hst⟩ := minimaxLoop_isSome (minimaxFuel n) 'O' 'X' max b cells (-1000)
        (fun c _ hc => ih _ _ (by
          have := countEmpty_set b c.1 c.2 'O' hc (by decide)
          omega))
      exact ⟨st.2, by rw [hst]; rfl⟩
    · rw [minimaxFuel_minLoop n b p hp hO1 hX1 hF1]
      obtain ⟨st, hst⟩ := minimaxLoop_isSome (minimaxFuel n) 'X' 'O' min b cells 1000
        (fun c _ hc => ih _ _ (by
          have := countEmpty_set b c.1 c.2 'X' hc (by decide)
          omega))
      exact ⟨st.2, by rw [hst]; rfl⟩

/-! ## `minimax` with the fuel of a 3x3 board -/

/-- `minimax` returns on every board, with a value among -10, 0, 10. -/
theorem minimax_total (b : Board) (p : Char) :
    ∃ v, minimax b p = some v ∧ (v = -10 ∨ v = 0 ∨ v = 10) := by
  obtain ⟨v, hv⟩ := minimaxFuel_total 10 b p (by have := countEmpty_le b; omega)
  exact ⟨v, hv, minimaxFuel_range 10 b p v hv⟩

/-- A result obtained with any fuel is the result of `minimax`. -/
theorem minimax_of_fuel (n : Nat) (b : Board) (p : Char) (v : Int)
    (h : minimaxFuel n b p = some v) : minimax b p = some v := by
  by_cases hn : n ≤ 10
  · exact minimaxFuel_mono n 10 hn b p v h
  · obtain ⟨w, hw, _⟩ := minimax_total b p
    have h2 := minimaxFuel_mono 10 n (by omega) b p w hw
    rw [h] at h2
    simp only [Option.some.injEq] at h2
    rw [h2]
    exact hw

theorem minimax_winO (b : Board) (p : Char) (h : evalIsWinner b 'O' = true) :
    minimax b p = some 10 := minimaxFuel_winO 9 b p h

theorem minimax_winX (b : Board) (p : Char) (hO : evalIsWinner b 'O' = false)
    (h : evalIsWinner b 'X' = true) : minimax b p = some (-10) := minimaxFuel_winX 9 b p hO h

theorem minimax_full (b : Board) (p : Char) (hO : evalIsWinner b 'O' = false)
    (hX : evalIsWinner b 'X' = false) (h : evalIsFull b = true) :
    minimax b p = some 0 := minimaxFuel_full 9 b p hO hX h

/-- Value of a maximizing node: an upper bound of the children's values that one child
attains. -/
theorem minimax_max (b : Board) (r : Int) (hO : evalIsWinner b 'O' = false)
    (hX : evalIsWinner b 'X' = false) (hF : evalIsFull b = false)
    (h : minimax b 'O' = some r) :
    (∀ c : Fin 3 × Fin 3, b.get c.1 c.2 = ' ' →
        ∃ v, minimax (b.set c.1 c.2 'O') 'X' = some v ∧ v ≤ r) ∧
      (∃ c : Fin 3 × Fin 3, b.get c.1 c.2 = ' ' ∧
          minimax (b.set c.1 c.2 'O') 'X' = some r) := by
  obtain ⟨h1, h2⟩ := minimaxFuel_max_raw 9 b r hO hX hF h
  obtain ⟨c0, hc0⟩ := (evalIsFull_false_iff b).1 hF
  refine ⟨?_, ?_⟩
  · intro c hc
    obtain ⟨v, hv, hvr⟩ := h1 c hc
    exact ⟨v, minimax_of_fuel 9 _ _ v hv, hvr⟩
  · rcases h2 with h2 | ⟨c, hc, hv⟩
    · obtain ⟨w, hw, hwv⟩ := h1 c0 hc0
      have := minimaxFuel_range _ _ _ _ hw
      omega
    · exact ⟨c, hc, minimax_of_fuel 9 _ _ r hv⟩

/-- Value of a minimizing node: a lower bound of the children's values that one child
attains. -/
theorem minimax_min (b : Board) (p : Char) (r : Int) (hp : p ≠ 'O')
    (hO : evalIsWinner b 'O' = false) (hX : evalIsWinner b 'X' = false)
    (hF : evalIsFull b = false) (h : minimax b p = some r) :
    (∀ c : Fin 3 × Fin 3, b.get c.1 c.2 = ' ' →
        ∃ v, minimax (b.set c.1 c.2 'X') 'O' = some v ∧ r ≤ v) ∧
      (∃ c : Fin 3 × Fin 3, b.get c.1 c.2 = ' ' ∧
          minimax (b.set c.1 c.2 'X') 'O' = some r) := by
  obtain ⟨h1, h2⟩ := minimaxFuel_min_raw 9 b p r hp hO hX hF h
  obtain ⟨c0, hc0⟩ := (evalIsFull_false_iff b).1 hF
  refine ⟨?_, ?_⟩
  · intro c hc
    obtain ⟨v, hv, hvr⟩ := h1 c hc
    exact ⟨v, minimax_of_fuel 9 _ _ v hv, hvr⟩
  · rcases h2 with h2 | ⟨c, hc, hv⟩
    · obtain ⟨w, hw, hwv⟩ := h1 c0 hc0
      have := minimaxFuel_range _ _ _ _ hw
      omega
    · exact ⟨c, hc, minimax_of_fuel 9 _ _ r hv⟩

/-! ## The loop of `findBestMove` -/

/-- What the double loop of `findBestMove` computes from the state `(b, best, mv)`:
either no empty cell of `cs` scores above `best` and the state is unchanged, or the
result is the first cell of `cs` whose score is the maximum over `cs`. -/
theorem findBestMoveLoop_spec (score : Board → Char → Option Int) (b : Board) :
    ∀ (cs : List (Fin 3 × Fin 3)) (best : Int) (mv : Int × Int) (st : Board × Int × (Int × Int)),
      findBestMoveLoop score cs (b, best, mv) = some st →
        st.1 = b ∧
        ((st.2.1 = best ∧ st.2.2 = mv ∧
            ∀ c ∈ cs, b.get c.1 c.2 = ' ' →
              ∃ v, score (b.set c.1 c.2 'O') 'X' = some v ∧ v ≤ best) ∨
          ∃ pre c post, cs = pre ++ c :: post ∧ b.get c.1 c.2 = ' ' ∧
            score (b.set c.1 c.2 'O') 'X' = some st.2.1 ∧
            st.2.2 = ((c.1.val : Int), (c.2.val : Int)) ∧ best < st.2.1 ∧
            (∀ d ∈ pre, b.get d.1 d.2 = ' ' →
              ∃ v, score (b.set d.1 d.2 'O') 'X' = some v ∧ v < st.2.1) ∧
            (∀ d ∈ post, b.get d.1 d.2 = ' ' →
              ∃ v, score (b.set d.1 d.2 'O') 'X' = some v ∧ v ≤ st.2.1)) := by
  intro cs
  induction cs with
  | nil =>
    intro best mv st h
    simp only [findBestMoveLoop, Option.some.injEq] at h
    subst h
    exact ⟨rfl, Or.inl ⟨rfl, rfl, by simp⟩⟩
  | cons c rest ih =>
    intro best mv st h
    obtain ⟨i, j⟩ := c
    by_cases hc : b.get i j = ' '
    · simp only [findBestMoveLoop, hc, beq_self_eq_true, if_true] at h
      cases hv : score (b.set i j 'O') 'X' with
      | none => simp [hv] at h
      | some v =>
        simp only [hv, Board.set_restore b i j 'O' hc] at h
        by_cases hgt : v > best
        · simp only [hgt, if_true] at h
          obtain ⟨h1, h2⟩ := ih _ _ _ h
          refine ⟨h1, Or.inr ?_⟩
          rcases h2 with ⟨hs, hm, hall⟩ | ⟨pre, d, post, hcs, hd, hsd, hmd, hlt, hpre, hpost⟩
          · exact ⟨[], (i, j), rest, rfl, hc, by rw [hv, hs], hm, by rw [hs]; exact hgt,
              by simp, by rw [hs]; exact hall⟩
          · refine ⟨(i, j) :: pre, d, post, by rw [hcs]; rfl, hd, hsd, hmd, by omega, ?_, hpost⟩
            intro e he hee
            rcases List.mem_cons.1 he with rfl | he
            · exact ⟨v, hv, hlt⟩
            · exact hpre e he hee
        · simp only [hgt, if_false] at h
          obtain ⟨h1, h2⟩ := ih _ _ _ h
          refine ⟨h1, ?_⟩
          rcases h2 with ⟨hs, hm, hall⟩ | ⟨pre, d, post, hcs, hd, hsd, hmd, hlt, hpre, hpost⟩
          · refine Or.inl ⟨hs, hm, ?_⟩
            intro e he hee
            rcases List.mem_cons.1 he with rfl | he
            · exact ⟨v, hv, by omega⟩
            · exact hall e he hee
          · refine Or.inr ⟨(i, j) :: pre, d, post, by rw [hcs]; rfl, hd, hsd, hmd, hlt, ?_,
              hpost⟩
            intro e he hee
            rcases List.mem_cons.1 he with rfl | he
            · exact ⟨v, hv, by omega⟩
            · exact hpre e he hee
    · have hc1 : (b.get i j == ' ') = false := by simpa using hc
      simp only [findBestMoveLoop, hc1, Bool.false_eq_true, if_false] at h
      obtain ⟨h1, h2⟩ := ih _ _ _ h
      refine ⟨h1, ?_⟩
      rcases h2 with ⟨hs, hm, hall⟩ | ⟨pre, d, post, hcs, hd, hsd, hmd, hlt, hpre, hpost⟩
      · refine Or.inl ⟨hs, hm, ?_⟩
        intro e he hee
        rcases List.mem_cons.1 he with rfl | he
        · exact absurd hee hc
        · exact hall e he hee
      · refine Or.inr ⟨(i, j) :: pre, d, post, by rw [hcs]; rfl, hd, hsd, hmd, hlt, ?_, hpost⟩
        intro e he hee
        rcases List.mem_cons.1 he with rfl | he
        · exact absurd hee hc
        · exact hpre e he hee

/-- The loop of `findBestMove` returns as soon as every call of `minimax` returns. -/
theorem findBestMoveLoop_isSome (score : Board → Char → Option Int) (b : Board)
    (htot : ∀ c p, ∃ v, score c p = some v) :
    ∀ (cs : List (Fin 3 × Fin 3)) (best : Int) (mv : Int × Int),
      ∃ st, findBestMoveLoop score cs (b, best, mv) = some st := by
  intro cs
  induction cs with
  | nil =>
    intro best mv
    exact ⟨_, rfl⟩
  | cons c rest ih =>
    intro best mv
    obtain ⟨i, j⟩ := c
    by_cases hc : b.get i j = ' '
    · obtain ⟨v, hv⟩ := htot (b.set i j 'O') 'X'
      simp only [findBestMoveLoop, hc, beq_self_eq_true, if_true, hv,
        Board.set_restore b i j 'O' hc]
      split
      · exact ih _ _
      · exact ih _ _
    · have hc1 : (b.get i j == ' ') = false := by simpa using hc
      simp only [findBestMoveLoop, hc1, Bool.false_eq_true, if_false]
      exact ih _ _

/-! ## `findBestMove` -/

theorem rowMajorLt_asymm (c d : Fin 3 × Fin 3) (h : rowMajorLt c d) : ¬rowMajorLt d c := by
  obtain ⟨c1, c2⟩ := c
  obtain ⟨d1, d2⟩ := d
  simp only [rowMajorLt, Fin.lt_def, Fin.ext_iff] at h ⊢
  omega

/-- In a split of `cells` around `c`, the cells before `c` in row-major order are those of
the first part. -/
theorem mem_pre_of_rowMajorLt (pre post : List (Fin 3 × Fin 3)) (c d : Fin 3 × Fin 3)
    (h : cells = pre ++ c :: post) (hd : rowMajorLt d c) : d ∈ pre := by
  have pw : cells.Pairwise rowMajorLt := by decide
  rw [h, List.pairwise_append, List.pairwise_cons] at pw
  obtain ⟨_, ⟨hpost, _⟩, _⟩ := pw
  have hmem : d ∈ pre ++ c :: post := h ▸ mem_cells d
  rcases List.mem_append.1 hmem with hm | hm
  · exact hm
  · rcases List.mem_cons.1 hm with rfl | hm
    · exact absurd hd (rowMajorLt_asymm _ _ hd)
    · exact absurd hd (rowMajorLt_asymm _ _ (hpost d hm))

theorem findBestMove_eq_map (b : Board) :
    findBestMove b =
      (findBestMoveLoop minimax cells (b, -1000, (-1, -1))).map (fun st => st.2.2) := rfl

/-- On a board with an empty cell `findBestMove` returns the first cell, in row-major
order, among the empty cells of maximal score. -/
theorem findBestMove_first_max (b : Board) (h : ∃ c : Fin 3 × Fin 3, b.get c.1 c.2 = ' ') :
    ∃ (c : Fin 3 × Fin 3) (v : Int),
      findBestMove b = some ((c.1.val : Int), (c.2.val : Int)) ∧ b.get c.1 c.2 = ' ' ∧
      minimax (b.set c.1 c.2 'O') 'X' = some v ∧
      ∀ d : Fin 3 × Fin 3, b.get d.1 d.2 = ' ' →
        ∃ w, minimax (b.set d.1 d.2 'O') 'X' = some w ∧ w ≤ v ∧ (rowMajorLt d c → w < v) := by
  obtain ⟨c0, hc0⟩ := h
  obtain ⟨st, hst⟩ := findBestMoveLoop_isSome minimax b
    (fun c p => (minimax_total c p).imp fun v hv => hv.1) cells (-1000) (-1, -1)
  obtain ⟨_, h2⟩ := findBestMoveLoop_spec minimax b cells (-1000) (-1, -1) st hst
  rcases h2 with ⟨_, _, hall⟩ | ⟨pre, c, post, hcs, hc, hsc, hmv, _, hpre, hpost⟩
  · obtain ⟨v, hv, hle⟩ := hall c0 (mem_cells c0) hc0
    have := minimaxFuel_range _ _ _ _ hv
    omega
  · refine ⟨c, st.2.1, ?_, hc, hsc, ?_⟩
    · rw [findBestMove_eq_map, hst]
      simp [hmv]
    · intro d hd
      have hmem : d ∈ pre ++ c :: post := hcs ▸ mem_cells d
      rcases List.mem_append.1 hmem with hm | hm
      · obtain ⟨w, hw, hlt⟩ := hpre d hm hd
        exact ⟨w, hw, le_of_lt hlt, fun _ => hlt⟩
      · rcases List.mem_cons.1 hm with rfl | hm
        · exact ⟨st.2.1, hsc, le_refl _, fun hlt => absurd hlt (rowMajorLt_asymm _ _ hlt)⟩
        · obtain ⟨w, hw, hle⟩ := hpost d hm hd
          refine ⟨w, hw, hle, fun hlt => ?_⟩
          obtain ⟨w2, hw2, hlt2⟩ := hpre d (mem_pre_of_rowMajorLt pre post c d hcs hlt) hd
          rw [hw] at hw2
          simp only [Option.some.injEq] at hw2
          omega

/-- On a board without an empty cell `findBestMove` returns the sentinel `(-1, -1)`. -/
theorem findBestMove_no_empty (b : Board) (h : ¬∃ c : Fin 3 × Fin 3, b.get c.1 c.2 = ' ') :
    findBestMove b = some (-1, -1) := by
  obtain ⟨st, hst⟩ := findBestMoveLoop_isSome minimax b
    (fun c p => (minimax_total c p).imp fun v hv => hv.1) cells (-1000) (-1, -1)
  obtain ⟨_, h2⟩ := findBestMoveLoop_spec minimax b cells (-1000) (-1, -1) st hst
  rcases h2 with ⟨_, hmv, _⟩ | ⟨pre, c, post, _, hc, _⟩
  · rw [findBestMove_eq_map, hst]
    simp [hmv]
  · exact absurd ⟨c, hc⟩ h

/-- C1: on a board with at least one empty cell `findBestMove` returns the first cell in
row-major order among the empty cells of maximal score, the score of an empty cell
`(i, j)` being `minimax(board with 'O' at (i, j), 'X')`: no empty cell scores strictly
more than the returned one and no earlier empty cell scores the same. -/
theorem findBestMove_returns_first_maximal (board : Board)
    (h : ∃ i j : Fin 3, board.get i j = ' ') :
    ∃ (i j : Fin 3) (v : Int),
      findBestMove board = some ((i.val : Int), (j.val : Int)) ∧ board.get i j = ' ' ∧
      minimax (board.set i j 'O') 'X' = some v ∧
      ∀ k l : Fin 3, board.get k l = ' ' →
        ∃ w, minimax (board.set k l 'O') 'X' = some w ∧ w ≤ v ∧
          ((k < i ∨ (k = i ∧ l < j)) → w < v) := by
  obtain ⟨i0, j0, h0⟩ := h
  obtain ⟨c, v, h1, h2, h3, h4⟩ := findBestMove_first_max board ⟨(i0, j0), h0⟩
  exact ⟨c.1, c.2, v, h1, h2, h3, fun k l hkl => h4 (k, l) hkl⟩

theorem findBestMove_returns_first_maximal_witness :
    (∃ i j : Fin 3, (Board.mk ⟨'X', 'O', 'X'⟩ ⟨'X', 'O', 'O'⟩ ⟨'O', 'X', ' '⟩).get i j = ' ') ∧
    ∃ (i j : Fin 3) (v : Int),
      findBestMove (Board.mk ⟨'X', 'O', 'X'⟩ ⟨'X', 'O', 'O'⟩ ⟨'O', 'X', ' '⟩) =
        some ((i.val : Int), (j.val : Int)) ∧
      (Board.mk ⟨'X', 'O', 'X'⟩ ⟨'X', 'O', 'O'⟩ ⟨'O', 'X', ' '⟩).get i j = ' ' ∧
      minimax ((Board.mk ⟨'X', 'O', 'X'⟩ ⟨'X', 'O', 'O'⟩ ⟨'O', 'X', ' '⟩).set i j 'O') 'X' =
        some v ∧
      ∀ k l : Fin 3, (Board.mk ⟨'X', 'O', 'X'⟩ ⟨'X', 'O', 'O'⟩ ⟨'O', 'X', ' '⟩).get k l = ' ' →
        ∃ w, minimax ((Board.mk ⟨'X', 'O', 'X'⟩ ⟨'X', 'O', 'O'⟩ ⟨'O', 'X', ' '⟩).set k l 'O')
            'X' = some w ∧ w ≤ v ∧ ((k < i ∨ (k = i ∧ l < j)) → w < v) :=
  ⟨⟨2, 2, by decide⟩,
    findBestMove_returns_first_maximal (Board.mk ⟨'X', 'O', 'X'⟩ ⟨'X', 'O', 'O'⟩ ⟨'O', 'X', ' '⟩)
      ⟨2, 2, by decide⟩⟩

/-- C10: `findBestMove` returns the sentinel `(-1, -1)` exactly when the board has no
empty cell; on a board with an empty cell, with or without a complete line, it returns
the in-range coordinates of an empty cell, and the `makeMove` that `aiMove` then performs
on an active game succeeds. -/
theorem findBestMove_sentinel_iff (s : GameBoard) :
    (findBestMove s.board = some (-1, -1) ↔ ¬∃ i j : Fin 3, s.board.get i j = ' ') ∧
    ((∃ i j : Fin 3, s.board.get i j = ' ') →
      ∃ i j : Fin 3, findBestMove s.board = some ((i.val : Int), (j.val : Int)) ∧
        s.board.get i j = ' ' ∧
        (s.gameActive = true →
          makeMove s (i.val : Int) (j.val : Int) s.currentPlayer =
            some (true, { s with board := s.board.set i j s.currentPlayer }))) := by
  have hsome : (∃ i j : Fin 3, s.board.get i j = ' ') →
      ∃ i j : Fin 3, findBestMove s.board = some ((i.val : Int), (j.val : Int)) ∧
        s.board.get i j = ' ' := by
    rintro ⟨i0, j0, h0⟩
    obtain ⟨c, v, h1, h2, _⟩ := findBestMove_first_max s.board ⟨(i0, j0), h0⟩
    exact ⟨c.1, c.2, h1, h2⟩
  refine ⟨⟨?_, ?_⟩, ?_⟩
  · intro hs hex
    obtain ⟨i, j, hij, _⟩ := hsome hex
    rw [hs] at hij
    simp only [Option.some.injEq, Prod.mk.injEq] at hij
    omega
  · intro hne
    apply findBestMove_no_empty
    rintro ⟨c, hc⟩
    exact hne ⟨c.1, c.2, hc⟩
  · intro hex
    obtain ⟨i, j, hij, hcell⟩ := hsome hex
    refine ⟨i, j, hij, hcell, fun hact => ?_⟩
    rw [makeMove_coe, if_pos ⟨hcell, hact⟩]

theorem findBestMove_sentinel_iff_witness :
    (¬∃ i j : Fin 3, (Board.mk ⟨'X', 'O', 'X'⟩ ⟨'X', 'O', 'O'⟩ ⟨'O', 'X', 'X'⟩).get i j = ' ') ∧
      findBestMove (Board.mk ⟨'X', 'O', 'X'⟩ ⟨'X', 'O', 'O'⟩ ⟨'O', 'X', 'X'⟩) = some (-1, -1) :=
  ⟨by decide,
    (findBestMove_sentinel_iff
      { board := Board.mk ⟨'X', 'O', 'X'⟩ ⟨'X', 'O', 'O'⟩ ⟨'O', 'X', 'X'⟩, currentPlayer := 'O',
        gameActive := true, gameMode := 2 }).1.2 (by decide)⟩

/-! ## Soundness of the certificates -/

/-- Value of a maximizing node, with any fuel. -/
theorem minimaxFuel_max (n : Nat) (b : Board) (r : Int) (hO : evalIsWinner b 'O' = false)
    (hX : evalIsWinner b 'X' = false) (hF : evalIsFull b = false)
    (h : minimaxFuel (n + 1) b 'O' = some r) :
    (∀ c : Fin 3 × Fin 3, b.get c.1 c.2 = ' ' →
        ∃ v, minimaxFuel n (b.set c.1 c.2 'O') 'X' = some v ∧ v ≤ r) ∧
      (∃ c : Fin 3 × Fin 3, b.get c.1 c.2 = ' ' ∧
          minimaxFuel n (b.set c.1 c.2 'O') 'X' = some r) := by
  obtain ⟨h1, h2⟩ := minimaxFuel_max_raw n b r hO hX hF h
  obtain ⟨c0, hc0⟩ := (evalIsFull_false_iff b).1 hF
  refine ⟨h1, ?_⟩
  rcases h2 with h2 | h2
  · obtain ⟨w, hw, hwv⟩ := h1 c0 hc0
    have := minimaxFuel_range _ _ _ _ hw
    omega
  · exact h2

/-- Value of a minimizing node, with any fuel. -/
theorem minimaxFuel_min (n : Nat) (b : Board) (p : Char) (r : Int) (hp : p ≠ 'O')
    (hO : evalIsWinner b 'O' = false) (hX : evalIsWinner b 'X' = false)
    (hF : evalIsFull b = false) (h : minimaxFuel (n + 1) b p = some r) :
    (∀ c : Fin 3 × Fin 3, b.get c.1 c.2 = ' ' →
        ∃ v, minimaxFuel n (b.set c.1 c.2 'X') 'O' = some v ∧ r ≤ v) ∧
      (∃ c : Fin 3 × Fin 3, b.get c.1 c.2 = ' ' ∧
          minimaxFuel n (b.set c.1 c.2 'X') 'O' = some r) := by
  obtain ⟨h1, h2⟩ := minimaxFuel_min_raw n b p r hp hO hX hF h
  obtain ⟨c0, hc0⟩ := (evalIsFull_false_iff b).1 hF
  refine ⟨h1, ?_⟩
  rcases h2 with h2 | h2
  · obtain ⟨w, hw, hwv⟩ := h1 c0 hc0
    have := minimaxFuel_range _ _ _ _ hw
    omega
  · exact h2

/-- A position that passes `atLeastC v` has `minimax` value at least `v`. -/
theorem atLeastC_sound (v : Int) : ∀ (n : Nat) (b : Board) (p : Char),
    atLeastC v n b p = true → ∀ (m : Nat) (r : Int), minimaxFuel m b p = some r → v ≤ r := by
  intro n
  induction n with
  | zero =>
    intro b p h
    simp [atLeastC] at h
  | succ n ih =>
    intro b p h m r hm
    obtain ⟨⟨a0, a1, a2⟩, ⟨a3, a4, a5⟩, ⟨a6, a7, a8⟩⟩ := b
    cases m with
    | zero => simp [minimaxFuel] at hm
    | succ m =>
      simp only [atLeastC] at h
      by_cases hO : evalIsWinner (Board.mk ⟨a0, a1, a2⟩ ⟨a3, a4, a5⟩ ⟨a6, a7, a8⟩) 'O' = true
      · rw [minimaxFuel_winO m _ p hO] at hm
        simp only [hO, if_true, decide_eq_true_eq] at h
        simp only [Option.some.injEq] at hm
        omega
      have hO1 : evalIsWinner (Board.mk ⟨a0, a1, a2⟩ ⟨a3, a4, a5⟩ ⟨a6, a7, a8⟩) 'O' = false := by simpa using hO
      simp only [hO1, Bool.false_eq_true, if_false] at h
      by_cases hX : evalIsWinner (Board.mk ⟨a0, a1, a2⟩ ⟨a3, a4, a5⟩ ⟨a6, a7, a8⟩) 'X' = true
      · rw [minimaxFuel_winX m _ p hO1 hX] at hm
        simp only [hX, if_true, decide_eq_true_eq] at h
        simp only [Option.some.injEq] at hm
        omega
      have hX1 : evalIsWinner (Board.mk ⟨a0, a1, a2⟩ ⟨a3, a4, a5⟩ ⟨a6, a7, a8⟩) 'X' = false := by simpa using hX
      simp only [hX1, Bool.false_eq_true, if_false] at h
      by_cases hF : evalIsFull (Board.mk ⟨a0, a1, a2⟩ ⟨a3, a4, a5⟩ ⟨a6, a7, a8⟩) = true
      · rw [minimaxFuel_full m _ p hO1 hX1 hF] at hm
        simp only [hF, if_true, decide_eq_true_eq] at h
        simp only [Option.some.injEq] at hm
        omega
      have hF1 : evalIsFull (Board.mk ⟨a0, a1, a2⟩ ⟨a3, a4, a5⟩ ⟨a6, a7, a8⟩) = false := by simpa using hF
      simp only [hF1, Bool.false_eq_true, if_false] at h
      by_cases hp : p = 'O'
      · subst hp
        simp only [beq_self_eq_true, if_true, Bool.or_eq_true, Bool.and_eq_true, beq_iff_eq]
          at h
        obtain ⟨h1, _⟩ := minimaxFuel_max m _ r hO1 hX1 hF1 hm
        rcases h with ⟨hc, hk⟩ | ⟨hc, hk⟩ | ⟨hc, hk⟩ | ⟨hc, hk⟩ | ⟨hc, hk⟩ | ⟨hc, hk⟩ | ⟨hc, hk⟩ | ⟨hc, hk⟩ | ⟨hc, hk⟩
        · obtain ⟨w, hw, hwr⟩ := h1 (1, 1) hc
          exact le_trans (ih _ _ hk m w hw) hwr
        · obtain ⟨w, hw, hwr⟩ := h1 (0, 0) hc
          exact le_trans (ih _ _ hk m w hw) hwr
        · obtain ⟨w, hw, hwr⟩ := h1 (0, 2) hc
          exact le_trans (ih _ _ hk m w hw) hwr
        · obtain ⟨w, hw, hwr⟩ := h1 (2, 0) hc
          exact le_trans (ih _ _ hk m w hw) hwr
        · obtain ⟨w, hw, hwr⟩ := h1 (2, 2) hc
          exact le_trans (ih _ _ hk m w hw) hwr
        · obtain ⟨w, hw, hwr⟩ := h1 (0, 1) hc
          exact le_trans (ih _ _ hk m w hw) hwr
        · obtain ⟨w, hw, hwr⟩ := h1 (1, 0) hc
          exact le_trans (ih _ _ hk m w hw) hwr
        · obtain ⟨w, hw, hwr⟩ := h1 (1, 2) hc
          exact le_trans (ih _ _ hk m w hw) hwr
        · obtain ⟨w, hw, hwr⟩ := h1 (2, 1) hc
          exact le_trans (ih _ _ hk m w hw) hwr
      · have hp1 : (p == 'O') = false := by simpa using hp
        simp only [hp1, Bool.false_eq_true, if_false, Bool.or_eq_true, Bool.and_eq_true,
          Bool.not_eq_true', beq_eq_false_iff_ne] at h
        obtain ⟨_, h2⟩ := minimaxFuel_min m _ p r hp hO1 hX1 hF1 hm
        obtain ⟨⟨i, j⟩, hc, hv⟩ := h2
        obtain ⟨h4, h0, h2, h6, h8, h1, h3, h5, h7⟩ := h
        fin_cases i <;> fin_cases j
        · rcases h0 with hne | hk
          · exact absurd hc hne
          · exact ih _ _ hk m r hv
        · rcases h1 with hne | hk
          · exact absurd hc hne
          · exact ih _ _ hk m r hv
        · rcases h2 with hne | hk
          · exact absurd hc hne
          · exact ih _ _ hk m r hv
        · rcases h3 with hne | hk
          · exact absurd hc hne
          · exact ih _ _ hk m r hv
        · rcases h4 with hne | hk
          · exact absurd hc hne
          · exact ih _ _ hk m r hv
        · rcases h5 with hne | hk
          · exact absurd hc hne
          · exact ih _ _ hk m r hv
        · rcases h6 with hne | hk
          · exact absurd hc hne
          · exact ih _ _ hk m r hv
        · rcases h7 with hne | hk
          · exact absurd hc hne
          · exact ih _ _ hk m r hv
        · rcases h8 with hne | hk
          · exact absurd hc hne
          · exact ih _ _ hk m r hv

/-- A position that passes `atMostC v` has `minimax` value at most `v`. -/
theorem atMostC_sound (v : Int) : ∀ (n : Nat) (b : Board) (p : Char),
    atMostC v n b p = true → ∀ (m : Nat) (r : Int), minimaxFuel m b p = some r → r ≤ v := by
  intro n
  induction n with
  | zero =>
    intro b p h
    simp [atMostC] at h
  | succ n ih =>
    intro b p h m r hm
    obtain ⟨⟨a0, a1, a2⟩, ⟨a3, a4, a5⟩, ⟨a6, a7, a8⟩⟩ := b
    cases m with
    | zero => simp [minimaxFuel] at hm
    | succ m =>
      simp only [atMostC] at h
      by_cases hO : evalIsWinner (Board.mk ⟨a0, a1, a2⟩ ⟨a3, a4, a5⟩ ⟨a6, a7, a8⟩) 'O' = true
      · rw [minimaxFuel_winO m _ p hO] at hm
        simp only [hO, if_true, decide_eq_true_eq] at h
        simp only [Option.some.injEq] at hm
        omega
      have hO1 : evalIsWinner (Board.mk ⟨a0, a1, a2⟩ ⟨a3, a4, a5⟩ ⟨a6, a7, a8⟩) 'O' = false := by simpa using hO
      simp only [hO1, Bool.false_eq_true, if_false] at h
      by_cases hX : evalIsWinner (Board.mk ⟨a0, a1, a2⟩ ⟨a3, a4, a5⟩ ⟨a6, a7, a8⟩) 'X' = true
      · rw [minimaxFuel_winX m _ p hO1 hX] at hm
        simp only [hX, if_true, decide_eq_true_eq] at h
        simp only [Option.some.injEq] at hm
        omega
      have hX1 : evalIsWinner (Board.mk ⟨a0, a1, a2⟩ ⟨a3, a4, a5⟩ ⟨a6, a7, a8⟩) 'X' = false := by simpa using hX
      simp only [hX1, Bool.false_eq_true, if_false] at h
      by_cases hF : evalIsFull (Board.mk ⟨a0, a1, a2⟩ ⟨a3, a4, a5⟩ ⟨a6, a7, a8⟩) = true
      · rw [minimaxFuel_full m _ p hO1 hX1 hF] at hm
        simp only [hF, if_true, decide_eq_true_eq] at h
        simp only [Option.some.injEq] at hm
        omega
      have hF1 : evalIsFull (Board.mk ⟨a0, a1, a2⟩ ⟨a3, a4, a5⟩ ⟨a6, a7, a8⟩) = false := by simpa using hF
      simp only [hF1, Bool.false_eq_true, if_false] at h
      by_cases hp : p = 'O'
      · subst hp
        simp only [beq_self_eq_true, if_true, Bool.or_eq_true, Bool.and_eq_true,
          Bool.not_eq_true', beq_eq_false_iff_ne] at h
        obtain ⟨_, h2⟩ := minimaxFuel_max m _ r hO1 hX1 hF1 hm
        obtain ⟨⟨i, j⟩, hc, hv⟩ := h2
        obtain ⟨h4, h0, h2, h6, h8, h1, h3, h5, h7⟩ := h
        fin_cases i <;> fin_cases j
        · rcases h0 with hne | hk
          · exact absurd hc hne
          · exact ih _ _ hk m r hv
        · rcases h1 with hne | hk
          · exact absurd hc hne
          · exact ih _ _ hk m r hv
        · rcases h2 with hne | hk
          · exact absurd hc hne
          · exact ih _ _ hk m r hv
        · rcases h3 with hne | hk
          · exact absurd hc hne
          · exact ih _ _ hk m r hv
        · rcases h4 with hne | hk
          · exact absurd hc hne
          · exact ih _ _ hk m r hv
        · rcases h5 with hne | hk
          · exact absurd hc hne
          · exact ih _ _ hk m r hv
        · rcases h6 with hne | hk
          · exact absurd hc hne
          · exact ih _ _ hk m r hv
        · rcases h7 with hne | hk
          · exact absurd hc hne
          · exact ih _ _ hk m r hv
        · rcases h8 with hne | hk
          · exact absurd hc hne
          · exact ih _ _ hk m r hv
      · have hp1 : (p == 'O') = false := by simpa using hp
        simp only [hp1, Bool.false_eq_true, if_false, Bool.or_eq_true, Bool.and_eq_true,
          beq_iff_eq] at h
        obtain ⟨h1, _⟩ := minimaxFuel_min m _ p r hp hO1 hX1 hF1 hm
        rcases h with ⟨hc, hk⟩ | ⟨hc, hk⟩ | ⟨hc, hk⟩ | ⟨hc, hk⟩ | ⟨hc, hk⟩ | ⟨hc, hk⟩ | ⟨hc, hk⟩ | ⟨hc, hk⟩ | ⟨hc, hk⟩
        · obtain ⟨w, hw, hwr⟩ := h1 (1, 1) hc
          exact le_trans hwr (ih _ _ hk m w hw)
        · obtain ⟨w, hw, hwr⟩ := h1 (0, 0) hc
          exact le_trans hwr (ih _ _ hk m w hw)
        · obtain ⟨w, hw, hwr⟩ := h1 (0, 2) hc
          exact le_trans hwr (ih _ _ hk m w hw)
        · obtain ⟨w, hw, hwr⟩ := h1 (2, 0) hc
          exact le_trans hwr (ih _ _ hk m w hw)
        · obtain ⟨w, hw, hwr⟩ := h1 (2, 2) hc
          exact le_trans hwr (ih _ _ hk m w hw)
        · obtain ⟨w, hw, hwr⟩ := h1 (0, 1) hc
          exact le_trans hwr (ih _ _ hk m w hw)
        · obtain ⟨w, hw, hwr⟩ := h1 (1, 0) hc
          exact le_trans hwr (ih _ _ hk m w hw)
        · obtain ⟨w, hw, hwr⟩ := h1 (1, 2) hc
          exact le_trans hwr (ih _ _ hk m w hw)
        · obtain ⟨w, hw, hwr⟩ := h1 (2, 1) hc
          exact le_trans hwr (ih _ _ hk m w hw)

/-- A position that passes `atLeastC 10` has value 10. -/
theorem minimax_eq_ten (n : Nat) (b : Board) (p : Char) (h : atLeastC 10 n b p = true) :
    minimax b p = some 10 := by
  obtain ⟨v, hv, hr⟩ := minimax_total b p
  have := atLeastC_sound 10 n b p h 10 v hv
  have hv10 : v = 10 := by omega
  rw [hv, hv10]

/-- A position that passes `atMostC (-10)` has value -10. -/
theorem minimax_eq_neg_ten (n : Nat) (b : Board) (p : Char) (h : atMostC (-10) n b p = true) :
    minimax b p = some (-10) := by
  obtain ⟨v, hv, hr⟩ := minimax_total b p
  have := atMostC_sound (-10) n b p h 10 v hv
  have hv10 : v = -10 := by omega
  rw [hv, hv10]

/-- A position that passes `atLeastC 0` and `atMostC 0` has value 0. -/
theorem minimax_eq_zero (n k : Nat) (b : Board) (p : Char) (h1 : atLeastC 0 n b p = true)
    (h2 : atMostC 0 k b p = true) : minimax b p = some 0 := by
  obtain ⟨v, hv, hr⟩ := minimax_total b p
  have := atLeastC_sound 0 n b p h1 10 v hv
  have := atMostC_sound 0 k b p h2 10 v hv
  have hv0 : v = 0 := by omega
  rw [hv, hv0]

/-- A position that passes `atMostC 0` has value at most 0. -/
theorem minimax_le_zero (n : Nat) (b : Board) (p : Char) (h : atMostC 0 n b p = true) :
    ∃ w, minimax b p = some w ∧ w ≤ 0 := by
  obtain ⟨v, hv, _⟩ := minimax_total b p
  exact ⟨v, hv, atMostC_sound 0 n b p h 10 v hv⟩

theorem rowMajorLt_trichotomy (c d : Fin 3 × Fin 3) :
    rowMajorLt c d ∨ c = d ∨ rowMajorLt d c := by
  obtain ⟨c1, c2⟩ := c
  obtain ⟨d1, d2⟩ := d
  simp only [rowMajorLt, Fin.lt_def, Fin.ext_iff, Prod.mk.injEq]
  omega

/-- The cell `findBestMove` returns is determined by the scores: it is `c` as soon as `c`
is empty, no empty cell scores more, and every earlier empty cell scores less. -/
theorem findBestMove_eq_of_scores (b : Board) (c : Fin 3 × Fin 3) (v : Int)
    (hc : b.get c.1 c.2 = ' ') (hv : minimax (b.set c.1 c.2 'O') 'X' = some v)
    (hle : ∀ d : Fin 3 × Fin 3, b.get d.1 d.2 = ' ' →
      ∃ w, minimax (b.set d.1 d.2 'O') 'X' = some w ∧ w ≤ v)
    (hlt : ∀ d : Fin 3 × Fin 3, rowMajorLt d c → b.get d.1 d.2 = ' ' →
      ∃ w, minimax (b.set d.1 d.2 'O') 'X' = some w ∧ w < v) :
    findBestMove b = some ((c.1.val : Int), (c.2.val : Int)) := by
  obtain ⟨e, u, h1, h2, h3, h4⟩ := findBestMove_first_max b ⟨c, hc⟩
  rcases rowMajorLt_trichotomy e c with hec | hec | hec
  · obtain ⟨w, hw, hwv⟩ := hlt e hec h2
    obtain ⟨w2, hw2, hle2, _⟩ := h4 c hc
    rw [hw] at h3
    rw [hv] at hw2
    simp only [Option.some.injEq] at h3 hw2
    omega
  · rw [h1, hec]
  · obtain ⟨w, hw, _, hlt2⟩ := h4 c hc
    obtain ⟨w2, hw2, hle2⟩ := hle e h2
    rw [hv] at hw
    rw [h3] at hw2
    simp only [Option.some.injEq] at hw hw2
    have := hlt2 hec
    omega

/-! ## The scenarios of the specification -/

theorem scenario2_score : minimax (scenario2Board.set 0 2 'O') 'X' = some 10 :=
  minimax_eq_ten 10 _ _ (by decide)

/-- On the board of scenario 2 `findBestMove` returns `(0, 2)`. -/
theorem findBestMove_scenario2 : findBestMove scenario2Board = some (0, 2) := by
  apply findBestMove_eq_of_scores scenario2Board (0, 2) 10 (by decide) scenario2_score
  · intro d _
    obtain ⟨w, hw, hr⟩ := minimax_total (scenario2Board.set d.1 d.2 'O') 'X'
    exact ⟨w, hw, by omega⟩
  · intro d hd hcell
    exfalso
    obtain ⟨i, j⟩ := d
    revert hd hcell
    fin_cases i <;> fin_cases j <;> decide

/-- C7, as stated, fails on the specification's own board
`[[X,X,Empty],[O,O,Empty],[Empty,Empty,Empty]]`, which has no complete line: placing
`'O'` at `(1, 2)` would complete row 1, yet `findBestMove` returns `(0, 2)`, which
completes no line. -/
theorem findBestMove_scenario2_not_a_line :
    ¬hasLine scenario2Board 'X' ∧ ¬hasLine scenario2Board 'O' ∧
      scenario2Board.get 1 2 = ' ' ∧ hasLine (scenario2Board.set 1 2 'O') 'O' ∧
      findBestMove scenario2Board = some (0, 2) ∧
      ¬hasLine (scenario2Board.set 0 2 'O') 'O' := by
  refine ⟨?_, ?_, by decide, ?_, findBestMove_scenario2, ?_⟩
  · rw [← evalIsWinner_iff]; decide
  · rw [← evalIsWinner_iff]; decide
  · rw [← evalIsWinner_iff]; decide
  · rw [← evalIsWinner_iff]; decide

/-- C7, amended: when some empty cell would complete a line of `'O'`, `findBestMove` returns
the first empty cell in row-major order whose placement leaves a position of value +10
(won for `'O'` under perfect play); that cell need not complete a line itself.  On the
board of scenario 2 it is `(0, 2)`. -/
theorem findBestMove_takes_won_position (board : Board)
    (h : ∃ i j : Fin 3, board.get i j = ' ' ∧ hasLine (board.set i j 'O') 'O') :
    (∃ i j : Fin 3, findBestMove board = some ((i.val : Int), (j.val : Int)) ∧
      board.get i j = ' ' ∧ minimax (board.set i j 'O') 'X' = some 10 ∧
      ∀ k l : Fin 3, (k < i ∨ (k = i ∧ l < j)) → board.get k l = ' ' →
        ∃ w, minimax (board.set k l 'O') 'X' = some w ∧ w < 10) ∧
    findBestMove scenario2Board = some (0, 2) := by
  refine ⟨?_, findBestMove_scenario2⟩
  obtain ⟨i0, j0, h0, hl0⟩ := h
  obtain ⟨c, v, h1, h2, h3, h4⟩ := findBestMove_first_max board ⟨(i0, j0), h0⟩
  have hw0 : minimax (board.set i0 j0 'O') 'X' = some 10 :=
    minimax_winO _ _ ((evalIsWinner_iff _ _).2 hl0)
  obtain ⟨w, hw, hwv, _⟩ := h4 (i0, j0) h0
  have hr := minimaxFuel_range _ _ _ _ h3
  have hv : v = 10 := by
    rw [hw0] at hw
    simp only [Option.some.injEq] at hw
    omega
  subst hv
  refine ⟨c.1, c.2, h1, h2, h3, ?_⟩
  intro k l hkl hcell
  obtain ⟨u, hu, _, hlt⟩ := h4 (k, l) hcell
  exact ⟨u, hu, hlt hkl⟩

theorem findBestMove_takes_won_position_witness :
    (∃ i j : Fin 3, scenario2Board.get i j = ' ' ∧ hasLine (scenario2Board.set i j 'O') 'O') ∧
    ∃ i j : Fin 3, findBestMove scenario2Board = some ((i.val : Int), (j.val : Int)) ∧
      scenario2Board.get i j = ' ' ∧ minimax (scenario2Board.set i j 'O') 'X' = some 10 ∧
      ∀ k l : Fin 3, (k < i ∨ (k = i ∧ l < j)) → scenario2Board.get k l = ' ' →
        ∃ w, minimax (scenario2Board.set k l 'O') 'X' = some w ∧ w < 10 :=
  ⟨⟨1, 2, by decide, by rw [← evalIsWinner_iff]; decide⟩,
    (findBestMove_takes_won_position scenario2Board
      ⟨1, 2, by decide, by rw [← evalIsWinner_iff]; decide⟩).1⟩

/-- On the board of scenario 3 every placement of `'O'` leaves a position lost for `'O'`. -/
theorem scenario3_scores (c : Fin 3 × Fin 3) (hc : scenario3Board.get c.1 c.2 = ' ') :
    minimax (scenario3Board.set c.1 c.2 'O') 'X' = some (-10) := by
  obtain ⟨i, j⟩ := c
  revert hc
  fin_cases i <;> fin_cases j <;> intro hc
  · exact absurd hc (by decide)
  · exact minimax_eq_neg_ten 10 _ _ (by decide)
  · exact minimax_eq_neg_ten 10 _ _ (by decide)
  · exact minimax_eq_neg_ten 10 _ _ (by decide)
  · exact minimax_eq_neg_ten 10 _ _ (by decide)
  · exact minimax_eq_neg_ten 10 _ _ (by decide)
  · exact minimax_eq_neg_ten 10 _ _ (by decide)
  · exact minimax_eq_neg_ten 10 _ _ (by decide)
  · exact absurd hc (by decide)

/-- On the board of scenario 3 `findBestMove` returns `(0, 1)`, the first empty cell. -/
theorem findBestMove_scenario3 : findBestMove scenario3Board = some (0, 1) := by
  apply findBestMove_eq_of_scores scenario3Board (0, 1) (-10) (by decide)
    (scenario3_scores (0, 1) (by decide))
  · intro d hd
    exact ⟨-10, scenario3_scores d hd, le_refl _⟩
  · intro d hd hcell
    exfalso
    obtain ⟨i, j⟩ := d
    revert hd hcell
    fin_cases i <;> fin_cases j <;> decide

/-- C8, as stated, fails: on `[[X,Empty,Empty],[Empty,Empty,Empty],[Empty,Empty,X]]`
`findBestMove` returns `(0, 1)` and the position after placing `'O'` there has `minimax`
value -10 with `'X'` to move, which is not greater than -10. -/
theorem scenario3_move_is_forced_loss :
    findBestMove scenario3Board = some (0, 1) ∧
      minimax (scenario3Board.set 0 1 'O') 'X' = some (-10) ∧ ¬((-10 : Int) > -10) :=
  ⟨findBestMove_scenario3, scenario3_scores (0, 1) (by decide), by decide⟩

/-- C8, amended: on that board every placement of `'O'` leaves a position of `minimax`
value -10 with `'X'` to move (the board is already lost for `'O'`), so the cell
`findBestMove` returns, the first empty cell `(0, 1)`, has the maximal score -10: no
placement of `'O'` does better. -/
theorem scenario3_every_reply_loses :
    findBestMove scenario3Board = some (0, 1) ∧
      ∀ i j : Fin 3, scenario3Board.get i j = ' ' →
        minimax (scenario3Board.set i j 'O') 'X' = some (-10) :=
  ⟨findBestMove_scenario3, fun i j h => scenario3_scores (i, j) h⟩

theorem scenario3_every_reply_loses_witness :
    scenario3Board.get 1 1 = ' ' ∧ minimax (scenario3Board.set 1 1 'O') 'X' = some (-10) :=
  ⟨by decide, scenario3_every_reply_loses.2 1 1 (by decide)⟩

/-! ## Steps of a game -/

/-- Placing a mark cannot complete a line of another mark. -/
theorem evalIsWinner_set_other (b : Board) (i j : Fin 3) (m p : Char) (hmp : m ≠ p)
    (h : evalIsWinner (b.set i j m) p = true) : evalIsWinner b p = true := by
  rw [evalIsWinner_iff] at h ⊢
  obtain ⟨l, hl, hall⟩ := h
  refine ⟨l, hl, fun c hc => ?_⟩
  have hget := hall c hc
  rw [Board.get_set] at hget
  split at hget
  · exact absurd hget hmp
  · exact hget

theorem evalIsWinner_set_other_false (b : Board) (i j : Fin 3) (m p : Char) (hmp : m ≠ p)
    (h : evalIsWinner b p = false) : evalIsWinner (b.set i j m) p = false := by
  rw [← Bool.not_eq_true] at h ⊢
  exact fun h1 => h (evalIsWinner_set_other b i j m p hmp h1)

theorem makeMove_isSome (s : GameBoard) (row col : Int) (p : Char) :
    ∃ r, makeMove s row col p = some r := by
  by_cases hr : 0 ≤ row ∧ row < 3 ∧ 0 ≤ col ∧ col < 3
  · obtain ⟨i, hi⟩ := toIndex_of_range ⟨hr.1, hr.2.1⟩
    obtain ⟨j, hj⟩ := toIndex_of_range ⟨hr.2.2.1, hr.2.2.2⟩
    have hi1 := toIndex_eq_some hi
    have hj1 := toIndex_eq_some hj
    subst hi1 hj1
    rw [makeMove_coe]
    split
    · exact ⟨_, rfl⟩
    · exact ⟨_, rfl⟩
  · exact ⟨_, makeMove_out_of_range s row col p hr⟩

theorem onCellClicked_inactive (observer : Observer) (s : GameBoard)
    (sender : Option (Fin 3 × Fin 3)) (h : s.gameActive = false) :
    onCellClicked observer s sender = some (s, []) := by
  simp [onCellClicked, h]

theorem onCellClicked_none (observer : Observer) (s : GameBoard) :
    onCellClicked observer s none = some (s, []) := by
  unfold onCellClicked
  split <;> rfl

theorem onCellClicked_rejected (observer : Observer) (s : GameBoard) (i j : Fin 3)
    (h : ¬(s.board.get i j = ' ' ∧ s.gameActive = true)) :
    onCellClicked observer s (some (i, j)) = some (s, []) := by
  unfold onCellClicked
  split
  · rfl
  · simp only [makeMove_coe, if_neg h]

theorem onCellClicked_isSome (observer : Observer) (s : GameBoard)
    (sender : Option (Fin 3 × Fin 3)) : ∃ r, onCellClicked observer s sender = some r := by
  cases sender with
  | none => exact ⟨_, onCellClicked_none observer s⟩
  | some c =>
    obtain ⟨i, j⟩ := c
    by_cases h : s.board.get i j = ' ' ∧ s.gameActive = true
    · exact ⟨_, onCellClicked_accepted_eq observer s i j h.2 h.1⟩
    · exact ⟨_, onCellClicked_rejected observer s i j h⟩

theorem aiMove_guard (observer : Observer) (s : GameBoard)
    (h : ¬(s.gameActive = true ∧ s.currentPlayer = 'O' ∧ s.gameMode = 2)) :
    aiMove observer s = some (s, []) := by
  unfold aiMove
  rw [if_pos]
  by_cases h1 : s.gameActive = true <;> by_cases h2 : s.currentPlayer = 'O' <;>
    by_cases h3 : s.gameMode = 2 <;> simp_all

theorem aiMove_eq (observer : Observer) (s : GameBoard) (c : Fin 3 × Fin 3)
    (hact : s.gameActive = true) (hp : s.currentPlayer = 'O') (hm : s.gameMode = 2)
    (hf : findBestMove s.board = some ((c.1.val : Int), (c.2.val : Int)))
    (hc : s.board.get c.1 c.2 = ' ') :
    aiMove observer s =
      some ((afterMove observer { s with board := s.board.set c.1 c.2 'O' } "AI").1,
        Event.moveMade c.1.val c.2.val 'O' ::
          (afterMove observer { s with board := s.board.set c.1 c.2 'O' } "AI").2) := by
  have h1 : ((c.1.val : Int) != -1) = true := by
    simp only [bne_iff_ne, ne_eq]
    omega
  have h2 : ((c.2.val : Int) != -1) = true := by
    simp only [bne_iff_ne, ne_eq]
    omega
  unfold aiMove
  simp only [hact, hp, hm, hf, h1, h2, makeMove_coe, hc]
  simp

theorem aiMove_isSome (observer : Observer) (s : GameBoard) :
    ∃ r, aiMove observer s = some r := by
  by_cases hg : s.gameActive = true ∧ s.currentPlayer = 'O' ∧ s.gameMode = 2
  · by_cases hex : ∃ c : Fin 3 × Fin 3, s.board.get c.1 c.2 = ' '
    · obtain ⟨c, v, hf, hc, _⟩ := findBestMove_first_max s.board hex
      exact ⟨_, aiMove_eq observer s c hg.1 hg.2.1 hg.2.2 hf hc⟩
    · refine ⟨(s, []), ?_⟩
      unfold aiMove
      simp [hg.1, hg.2.1, hg.2.2, findBestMove_no_empty s.board hex]
  · exact ⟨_, aiMove_guard observer s hg⟩

/-- State after the checks that follow a placement, with no observer. -/
theorem afterMove_noObserver (s : GameBoard) (name : String) :
    (afterMove noObserver s name).1.board = s.board ∧
    (afterMove noObserver s name).1.gameMode = s.gameMode ∧
    ((evalIsWinner s.board s.currentPlayer = true ∨ evalIsFull s.board = true) →
      (afterMove noObserver s name).1.gameActive = false) ∧
    (evalIsWinner s.board s.currentPlayer = false → evalIsFull s.board = false →
      (afterMove noObserver s name).1.gameActive = s.gameActive ∧
      (afterMove noObserver s name).1.currentPlayer =
        if s.currentPlayer = 'X' then 'O' else 'X') := by
  by_cases hw : checkWinner s s.currentPlayer = true
  · rw [afterMove_win _ _ _ hw]
    rw [checkWinner_eq_evalIsWinner] at hw
    simp [noObserver, hw]
  · have hw1 : checkWinner s s.currentPlayer = false := by simpa using hw
    by_cases hf : isFull s = true
    · rw [afterMove_draw _ _ _ hw1 hf]
      rw [isFull_eq_evalIsFull] at hf
      simp [noObserver, hf]
    · have hf1 : isFull s = false := by simpa using hf
      rw [afterMove_continue _ _ _ hw1 hf1, switchPlayer_eq]
      rw [checkWinner_eq_evalIsWinner] at hw1
      rw [isFull_eq_evalIsFull] at hf1
      simp [hw1, hf1]

/-! ## The computer never loses -/

set_option maxRecDepth 1000000 in
/-- From the empty board with `'X'` to move, `'O'` has a strategy that never loses. -/
theorem atLeastC_emptyBoard : atLeastC 0 10 emptyBoard 'X' = true := by decide!

set_option maxRecDepth 1000000 in
/-- From the empty board with `'X'` to move, `'X'` has a strategy that never loses. -/
theorem atMostC_emptyBoard : atMostC 0 10 emptyBoard 'X' = true := by decide!

/-- The empty board is a draw under perfect play. -/
theorem minimax_emptyBoard : minimax emptyBoard 'X' = some 0 :=
  minimax_eq_zero 10 10 _ _ atLeastC_emptyBoard atMostC_emptyBoard

/-- An accepted click of `'X'` on a position worth at least 0 cannot complete a line of
`'X'`, and leaves a position worth at least 0 with `'O'` to move. -/
theorem xMove_keeps_value (b : Board) (i j : Fin 3) (v : Int) (hcell : b.get i j = ' ')
    (hO : evalIsWinner b 'O' = false) (hX : evalIsWinner b 'X' = false)
    (hF : evalIsFull b = false) (hv : minimax b 'X' = some v) (h0 : 0 ≤ v) :
    evalIsWinner (b.set i j 'X') 'O' = false ∧ evalIsWinner (b.set i j 'X') 'X' = false ∧
      ∃ w, minimax (b.set i j 'X') 'O' = some w ∧ v ≤ w := by
  obtain ⟨h1, _⟩ := minimax_min b 'X' v (by decide) hO hX hF hv
  obtain ⟨w, hw, hvw⟩ := h1 (i, j) hcell
  have hO1 : evalIsWinner (b.set i j 'X') 'O' = false :=
    evalIsWinner_set_other_false b i j 'X' 'O' (by decide) hO
  refine ⟨hO1, ?_, w, hw, hvw⟩
  rw [← Bool.not_eq_true]
  intro hX1
  have := minimax_winX _ 'O' hO1 hX1
  rw [hw] at this
  simp only [Option.some.injEq] at this
  omega

/-- The cell `findBestMove` picks on a position worth `v` with `'O'` to move leaves a
position worth `v` with `'X'` to move, without a line of `'X'`. -/
theorem oMove_keeps_value (b : Board) (v : Int) (hO : evalIsWinner b 'O' = false)
    (hX : evalIsWinner b 'X' = false) (hF : evalIsFull b = false)
    (hv : minimax b 'O' = some v) :
    ∃ c : Fin 3 × Fin 3, findBestMove b = some ((c.1.val : Int), (c.2.val : Int)) ∧
      b.get c.1 c.2 = ' ' ∧ evalIsWinner (b.set c.1 c.2 'O') 'X' = false ∧
      minimax (b.set c.1 c.2 'O') 'X' = some v := by
  obtain ⟨h1, c1, hc1, hv1⟩ := minimax_max b v hO hX hF hv
  obtain ⟨c, u, hf, hc, hu, hall⟩ := findBestMove_first_max b ⟨c1, hc1⟩
  obtain ⟨w, hw, hwu, _⟩ := hall c1 hc1
  obtain ⟨w2, hw2, hle2⟩ := h1 c hc
  rw [hv1] at hw
  rw [hu] at hw2
  simp only [Option.some.injEq] at hw hw2
  have huv : u = v := by omega
  subst huv
  exact ⟨c, hf, hc, evalIsWinner_set_other_false b c.1 c.2 'O' 'X' (by decide) hX, hu⟩

/-- Invariant of the games against the computer: `'X'` has no line, and while the game
is active the position is not decided, not full, and worth at least 0 for `'O'`. -/
theorem reachable_inv (s : GameBoard) (h : Reachable s) :
    s.gameMode = 2 ∧ evalIsWinner s.board 'X' = false ∧
      (s.gameActive = true →
        evalIsWinner s.board 'O' = false ∧ evalIsFull s.board = false ∧
        (s.currentPlayer = 'X' ∨ s.currentPlayer = 'O') ∧
        ∃ v, minimax s.board s.currentPlayer = some v ∧ 0 ≤ v) := by
  induction h with
  | init =>
    refine ⟨rfl, by decide, fun _ => ⟨by decide, by decide, Or.inl rfl, 0, ?_, le_refl _⟩⟩
    exact minimax_emptyBoard
  | click s s1 ev sender _ hp hstep ih =>
    obtain ⟨hm, hX, hact⟩ := ih
    cases sender with
    | none =>
      rw [onCellClicked_none] at hstep
      simp only [Option.some.injEq, Prod.mk.injEq] at hstep
      rw [← hstep.1]
      exact ⟨hm, hX, hact⟩
    | some c =>
      obtain ⟨i, j⟩ := c
      by_cases hacc : s.board.get i j = ' ' ∧ s.gameActive = true
      · obtain ⟨hO, hF, _, v, hv, h0⟩ := hact hacc.2
        rw [hp] at hv
        obtain ⟨hO1, hX1, w, hw, hvw⟩ := xMove_keeps_value s.board i j v hacc.1 hO hX hF hv h0
        rw [onCellClicked_accepted_eq noObserver s i j hacc.2 hacc.1] at hstep
        simp only [Option.some.injEq, Prod.mk.injEq] at hstep
        obtain ⟨hb, hmode, _, hcont⟩ := afterMove_noObserver
          { s with board := s.board.set i j s.currentPlayer }
          (winnerName { s with board := s.board.set i j s.currentPlayer })
        rw [hstep.1] at hb hmode hcont
        simp only [hp] at hb hmode hcont
        refine ⟨hmode.trans hm, by rw [hb]; exact hX1, fun hact1 => ?_⟩
        by_cases hF1 : evalIsFull (s.board.set i j 'X') = true
        · obtain ⟨_, _, hend, _⟩ := afterMove_noObserver
            { s with board := s.board.set i j s.currentPlayer }
            (winnerName { s with board := s.board.set i j s.currentPlayer })
          rw [hstep.1] at hend
          simp only [hp] at hend
          rw [hend (Or.inr hF1)] at hact1
          cases hact1
        · have hF2 : evalIsFull (s.board.set i j 'X') = false := by simpa using hF1
          obtain ⟨_, hcp⟩ := hcont hX1 hF2
          simp only [if_true] at hcp
          rw [hb, hcp]
          exact ⟨hO1, hF2, Or.inr rfl, w, hw, by omega⟩
      · rw [onCellClicked_rejected noObserver s i j hacc] at hstep
        simp only [Option.some.injEq, Prod.mk.injEq] at hstep
        rw [← hstep.1]
        exact ⟨hm, hX, hact⟩
  | ai s s1 ev _ hstep ih =>
    obtain ⟨hm, hX, hact⟩ := ih
    by_cases hg : s.gameActive = true ∧ s.currentPlayer = 'O' ∧ s.gameMode = 2
    · obtain ⟨hO, hF, _, v, hv, h0⟩ := hact hg.1
      rw [hg.2.1] at hv
      obtain ⟨c, hf, hc, hX1, hv1⟩ := oMove_keeps_value s.board v hO hX hF hv
      rw [aiMove_eq noObserver s c hg.1 hg.2.1 hg.2.2 hf hc] at hstep
      simp only [Option.some.injEq, Prod.mk.injEq] at hstep
      obtain ⟨hb, hmode, hend, hcont⟩ := afterMove_noObserver
        { s with board := s.board.set c.1 c.2 'O' } "AI"
      rw [hstep.1] at hb hmode hend hcont
      simp only [hg.2.1] at hb hmode hend hcont
      refine ⟨hmode.trans hm, by rw [hb]; exact hX1, fun hact1 => ?_⟩
      by_cases hW : evalIsWinner (s.board.set c.1 c.2 'O') 'O' = true
      · rw [hend (Or.inl hW)] at hact1
        cases hact1
      have hW1 : evalIsWinner (s.board.set c.1 c.2 'O') 'O' = false := by simpa using hW
      by_cases hF1 : evalIsFull (s.board.set c.1 c.2 'O') = true
      · rw [hend (Or.inr hF1)] at hact1
        cases hact1
      have hF2 : evalIsFull (s.board.set c.1 c.2 'O') = false := by simpa using hF1
      obtain ⟨_, hcp⟩ := hcont hW1 hF2
      have hcp1 : s1.currentPlayer = 'X' := by
        rw [hcp]
        decide
      rw [hb, hcp1]
      exact ⟨hW1, hF2, Or.inl rfl, v, hv1, h0⟩
    · rw [aiMove_guard noObserver s hg] at hstep
      simp only [Option.some.injEq, Prod.mk.injEq] at hstep
      rw [← hstep.1]
      exact ⟨hm, hX, hact⟩

/-- C2: the computer never loses.  In every state of a game in mode 2 that starts from the
empty board with `'X'` to move, in which the human places `'X'` by any clicks and every
`'O'` is placed by `aiMove` (at the cell `findBestMove` returns), the board has no
complete line of `'X'`; and in every such state a click and `aiMove` return. -/
theorem computer_never_loses (s : GameBoard) (h : Reachable s) :
    ¬hasLine s.board 'X' ∧
      (∀ sender, ∃ r, onCellClicked noObserver s sender = some r) ∧
      ∃ r, aiMove noObserver s = some r := by
  obtain ⟨_, hX, _⟩ := reachable_inv s h
  refine ⟨?_, fun sender => onCellClicked_isSome noObserver s sender, aiMove_isSome noObserver s⟩
  rw [← evalIsWinner_iff, hX]
  simp

theorem computer_never_loses_witness :
    Reachable { board := emptyBoard.set 1 1 'X', currentPlayer := 'O', gameActive := true,
                gameMode := 2 } ∧
      ¬hasLine (emptyBoard.set 1 1 'X') 'X' :=
  ⟨Reachable.click (GameBoard.init 2) _ [Event.moveMade 1 1 'X', Event.aiMoveTimer]
      (some (1, 1)) Reachable.init rfl (by decide),
    (computer_never_loses
      { board := emptyBoard.set 1 1 'X', currentPlayer := 'O', gameActive := true,
        gameMode := 2 }
      (Reachable.click (GameBoard.init 2) _ [Event.moveMade 1 1 'X', Event.aiMoveTimer]
        (some (1, 1)) Reachable.init rfl (by decide))).1⟩

/-! ## Optimal play by both sides is a draw -/

/-- Invariant of optimal play: neither side has a line, `n` cells are taken, the game
is over exactly on a full board, and while it is active the position is worth 0. -/
theorem optimalPlay_inv (n : Nat) (s : GameBoard) (h : OptimalPlay n s) :
    s.gameMode = 2 ∧ evalIsWinner s.board 'X' = false ∧ evalIsWinner s.board 'O' = false ∧
      countEmpty s.board + n = 9 ∧
      (s.gameActive = true →
        evalIsFull s.board = false ∧ (s.currentPlayer = 'X' ∨ s.currentPlayer = 'O') ∧
        minimax s.board s.currentPlayer = some 0) ∧
      (s.gameActive = false → evalIsFull s.board = true) := by
  induction h with
  | init =>
    refine ⟨rfl, by decide, by decide, by decide, fun _ => ⟨by decide, Or.inl rfl, ?_⟩, ?_⟩
    · exact minimax_emptyBoard
    · intro hact
      cases hact
  | xMove n s s1 ev i j _ hact hp hmin hstep ih =>
    obtain ⟨hm, hX, hO, hcnt, hval, _⟩ := ih
    obtain ⟨hF, _, hv⟩ := hval hact
    rw [hp] at hv
    obtain ⟨hcell, v, hv1, hall⟩ := hmin
    obtain ⟨hge, c1, hc1, hv2⟩ := minimax_min s.board 'X' 0 (by decide) hO hX hF hv
    obtain ⟨hO1, hX1, w, hw, hvw⟩ := xMove_keeps_value s.board i j 0 hcell hO hX hF hv
      (le_refl _)
    obtain ⟨w2, hw2, hle2⟩ := hall c1.1 c1.2 hc1
    rw [hv2] at hw2
    rw [hv1] at hw
    simp only [Option.some.injEq] at hw hw2
    have hv0 : v = 0 := by omega
    subst hv0
    rw [onCellClicked_accepted_eq noObserver s i j hact hcell] at hstep
    simp only [Option.some.injEq, Prod.mk.injEq] at hstep
    obtain ⟨hb, hmode, hend, hcont⟩ := afterMove_noObserver
      { s with board := s.board.set i j s.currentPlayer }
      (winnerName { s with board := s.board.set i j s.currentPlayer })
    rw [hstep.1] at hb hmode hend hcont
    simp only [hp] at hb hmode hend hcont
    have hcnt1 := countEmpty_set s.board i j 'X' hcell (by decide)
    refine ⟨hmode.trans hm, by rw [hb]; exact hX1, by rw [hb]; exact hO1,
      by rw [hb]; omega, ?_, ?_⟩
    · intro hact1
      by_cases hF1 : evalIsFull (s.board.set i j 'X') = true
      · rw [hend (Or.inr hF1)] at hact1
        cases hact1
      · have hF2 : evalIsFull (s.board.set i j 'X') = false := by simpa using hF1
        obtain ⟨_, hcp⟩ := hcont hX1 hF2
        simp only [if_true] at hcp
        rw [hb, hcp]
        exact ⟨hF2, Or.inr rfl, hv1⟩
    · intro hact1
      by_cases hF1 : evalIsFull (s.board.set i j 'X') = true
      · rw [hb]
        exact hF1
      · have hF2 : evalIsFull (s.board.set i j 'X') = false := by simpa using hF1
        obtain ⟨hga, _⟩ := hcont hX1 hF2
        rw [hga, hact] at hact1
        cases hact1
  | oMove n s s1 ev _ hact hp hstep ih =>
    obtain ⟨hm, hX, hO, hcnt, hval, _⟩ := ih
    obtain ⟨hF, _, hv⟩ := hval hact
    rw [hp] at hv
    obtain ⟨c, hf, hc, hX1, hv1⟩ := oMove_keeps_value s.board 0 hO hX hF hv
    have hO1 : evalIsWinner (s.board.set c.1 c.2 'O') 'O' = false := by
      rw [← Bool.not_eq_true]
      intro hW
      have := minimax_winO _ 'X' hW
      rw [hv1] at this
      simp at this
    rw [aiMove_eq noObserver s c hact hp hm hf hc] at hstep
    simp only [Option.some.injEq, Prod.mk.injEq] at hstep
    obtain ⟨hb, hmode, hend, hcont⟩ := afterMove_noObserver
      { s with board := s.board.set c.1 c.2 'O' } "AI"
    rw [hstep.1] at hb hmode hend hcont
    simp only [hp] at hb hmode hend hcont
    have hcnt1 := countEmpty_set s.board c.1 c.2 'O' hc (by decide)
    refine ⟨hmode.trans hm, by rw [hb]; exact hX1, by rw [hb]; exact hO1,
      by rw [hb]; omega, ?_, ?_⟩
    · intro hact1
      by_cases hF1 : evalIsFull (s.board.set c.1 c.2 'O') = true
      · rw [hend (Or.inr hF1)] at hact1
        cases hact1
      · have hF2 : evalIsFull (s.board.set c.1 c.2 'O') = false := by simpa using hF1
        obtain ⟨_, hcp⟩ := hcont hO1 hF2
        have hcp1 : s1.currentPlayer = 'X' := by
          rw [hcp]
          decide
        rw [hb, hcp1]
        exact ⟨hF2, Or.inl rfl, hv1⟩
    · intro hact1
      by_cases hF1 : evalIsFull (s.board.set c.1 c.2 'O') = true
      · rw [hb]
        exact hF1
      · have hF2 : evalIsFull (s.board.set c.1 c.2 'O') = false := by simpa using hF1
        obtain ⟨hga, _⟩ := hcont hO1 hF2
        rw [hga, hact] at hact1
        cases hact1

/-- In optimal play with `'X'` to move, a placement of `'X'` on an empty cell whose
resulting position passes `atMostC 0` minimises `minimax` over the placements of `'X'`. -/
theorem minimisesX_of_cert (n k : Nat) (s : GameBoard) (i j : Fin 3) (h : OptimalPlay n s)
    (hact : s.gameActive = true) (hp : s.currentPlayer = 'X') (hcell : s.board.get i j = ' ')
    (hcert : atMostC 0 k (s.board.set i j 'X') 'O' = true) : minimisesX s.board i j := by
  obtain ⟨_, hX, hO, _, hval, _⟩ := optimalPlay_inv n s h
  obtain ⟨hF, _, hv⟩ := hval hact
  rw [hp] at hv
  obtain ⟨hge, _⟩ := minimax_min s.board 'X' 0 (by decide) hO hX hF hv
  obtain ⟨w, hw, h0w⟩ := hge (i, j) hcell
  obtain ⟨w2, hw2, hw0⟩ := minimax_le_zero k _ _ hcert
  have hw3 : minimax (s.board.set i j 'X') 'O' = some w := hw
  rw [hw3] at hw2
  simp only [Option.some.injEq] at hw2
  have hwz : w = 0 := by omega
  subst hwz
  exact ⟨hcell, 0, hw3, fun k l hkl => hge (k, l) hkl⟩

/-- In optimal play with `'O'` to move, `findBestMove` returns the empty cell `c` as soon
as the position after `'O'` at `c` passes `atLeastC 0` and the position after `'O'` at
every earlier empty cell passes `atMostC (-10)`. -/
theorem findBestMove_of_certs (n k : Nat) (s : GameBoard) (c : Fin 3 × Fin 3)
    (h : OptimalPlay n s) (hact : s.gameActive = true) (hp : s.currentPlayer = 'O')
    (hc : s.board.get c.1 c.2 = ' ')
    (hcert : atLeastC 0 k (s.board.set c.1 c.2 'O') 'X' = true)
    (hpre : ∀ d : Fin 3 × Fin 3, rowMajorLt d c → s.board.get d.1 d.2 = ' ' →
      atMostC (-10) k (s.board.set d.1 d.2 'O') 'X' = true) :
    findBestMove s.board = some ((c.1.val : Int), (c.2.val : Int)) := by
  obtain ⟨_, hX, hO, _, hval, _⟩ := optimalPlay_inv n s h
  obtain ⟨hF, _, hv⟩ := hval hact
  rw [hp] at hv
  obtain ⟨hle, _⟩ := minimax_max s.board 0 hO hX hF hv
  obtain ⟨w, hw, hw0⟩ := hle c hc
  have h0w := atLeastC_sound 0 k _ _ hcert 10 w hw
  have hwz : w = 0 := by omega
  subst hwz
  apply findBestMove_eq_of_scores s.board c 0 hc hw hle
  intro d hd hcell
  exact ⟨-10, minimax_eq_neg_ten k _ _ (hpre d hd hcell), by decide⟩

/-- C9: optimal self-play is a draw.  In a game from the empty board with `'X'` first, in
which every placement of `'X'` minimises `minimax(resulting board, 'O')` and every
placement of `'O'` is the cell returned by `findBestMove`, no board ever has a complete
line of `'X'` or of `'O'`, and the game is over exactly after the ninth placement, on a
full board.  The game cannot stop earlier: while it is not over, with `'X'` to move a
minimising cell exists and the click on every minimising cell is accepted and places
`'X'` there, and with `'O'` to move `aiMove` returns and places `'O'` at the cell
`findBestMove` returns; either way the state that follows is again one of optimal
play. -/
theorem optimal_play_is_draw (n : Nat) (s : GameBoard) (h : OptimalPlay n s) :
    ¬hasLine s.board 'X' ∧ ¬hasLine s.board 'O' ∧ n ≤ 9 ∧
      (s.gameActive = false ↔ n = 9) ∧ (s.gameActive = false → boardFull s.board) ∧
      (s.gameActive = true →
        (s.currentPlayer = 'X' ∧ (∃ i j : Fin 3, minimisesX s.board i j) ∧
          ∀ i j : Fin 3, minimisesX s.board i j →
            ∃ s1 ev, onCellClicked noObserver s (some (i, j)) = some (s1, ev) ∧
              s1.board = s.board.set i j 'X' ∧ OptimalPlay (n + 1) s1) ∨
        (s.currentPlayer = 'O' ∧
          ∃ (i j : Fin 3) (s1 : GameBoard) (ev : List Event),
            findBestMove s.board = some ((i.val : Int), (j.val : Int)) ∧
            s.board.get i j = ' ' ∧ aiMove noObserver s = some (s1, ev) ∧
            s1.board = s.board.set i j 'O' ∧ OptimalPlay (n + 1) s1)) := by
  obtain ⟨hm, hX, hO, hcnt, hval, hover⟩ := optimalPlay_inv n s h
  refine ⟨?_, ?_, by omega, ⟨?_, ?_⟩, ?_, ?_⟩
  · rw [← evalIsWinner_iff, hX]
    simp
  · rw [← evalIsWinner_iff, hO]
    simp
  · intro hact
    have := (evalIsFull_iff_countEmpty s.board).1 (hover hact)
    omega
  · intro hn
    by_contra hact
    have hact1 : s.gameActive = true := by simpa using hact
    obtain ⟨hF, _, _⟩ := hval hact1
    have hcz : countEmpty s.board = 0 := by omega
    rw [(evalIsFull_iff_countEmpty s.board).2 hcz] at hF
    cases hF
  · intro hact
    exact (evalIsFull_iff s.board).1 (hover hact)
  · intro hact
    obtain ⟨hF, hp, hv⟩ := hval hact
    rcases hp with hp | hp
    · rw [hp] at hv
      obtain ⟨hge, c1, hc1, hv2⟩ := minimax_min s.board 'X' 0 (by decide) hO hX hF hv
      refine Or.inl ⟨hp, ⟨c1.1, c1.2, hc1, 0, hv2, fun k l hkl => hge (k, l) hkl⟩, ?_⟩
      intro i j hmin
      have hstep := onCellClicked_accepted_eq noObserver s i j hact hmin.1
      refine ⟨_, _, hstep, ?_, OptimalPlay.xMove n s _ _ i j h hact hp hmin hstep⟩
      rw [(afterMove_noObserver _ _).1]
      show s.board.set i j s.currentPlayer = s.board.set i j 'X'
      rw [hp]
    · obtain ⟨c0, hc0⟩ := (evalIsFull_false_iff s.board).1 hF
      obtain ⟨c, v, hf, hc, _⟩ := findBestMove_first_max s.board ⟨c0, hc0⟩
      have hstep := aiMove_eq noObserver s c hact hp hm hf hc
      refine Or.inr ⟨hp, c.1, c.2, _, _, hf, hc, hstep, ?_,
        OptimalPlay.oMove n s _ _ h hact hp hstep⟩
      rw [(afterMove_noObserver _ _).1]

/-! ### A complete game of optimal play -/

set_option maxRecDepth 1000000 in
theorem drawnGame_1 : OptimalPlay 1 (GameBoard.mk ⟨⟨' ', ' ', ' '⟩, ⟨' ', 'X', ' '⟩, ⟨' ', ' ', ' '⟩⟩ 'O' true 2) := by
  have hmin : minimisesX (GameBoard.init 2).board 1 1 :=
    minimisesX_of_cert 0 10 (GameBoard.init 2) 1 1 OptimalPlay.init rfl rfl (by decide) (by decide!)
  exact OptimalPlay.xMove 0 (GameBoard.init 2) _ [Event.moveMade 1 1 'X', Event.aiMoveTimer] 1 1 OptimalPlay.init rfl rfl hmin (by decide)

set_option maxRecDepth 1000000 in
theorem drawnGame_2 : OptimalPlay 2 (GameBoard.mk ⟨⟨'O', ' ', ' '⟩, ⟨' ', 'X', ' '⟩, ⟨' ', ' ', ' '⟩⟩ 'X' true 2) := by
  have hbest : findBestMove (GameBoard.mk ⟨⟨' ', ' ', ' '⟩, ⟨' ', 'X', ' '⟩, ⟨' ', ' ', ' '⟩⟩ 'O' true 2).board = some (0, 0) := by
    apply findBestMove_of_certs 1 10 (GameBoard.mk ⟨⟨' ', ' ', ' '⟩, ⟨' ', 'X', ' '⟩, ⟨' ', ' ', ' '⟩⟩ 'O' true 2) (0, 0) drawnGame_1 rfl rfl (by decide)
      (by decide!)
    intro d hd hcell
    obtain ⟨i, j⟩ := d
    revert hd hcell
    fin_cases i <;> fin_cases j <;> decide!
  have hstep : aiMove noObserver (GameBoard.mk ⟨⟨' ', ' ', ' '⟩, ⟨' ', 'X', ' '⟩, ⟨' ', ' ', ' '⟩⟩ 'O' true 2) =
      some ((GameBoard.mk ⟨⟨'O', ' ', ' '⟩, ⟨' ', 'X', ' '⟩, ⟨' ', ' ', ' '⟩⟩ 'X' true 2), [Event.moveMade 0 0 'O']) := by
    rw [aiMove_eq noObserver (GameBoard.mk ⟨⟨' ', ' ', ' '⟩, ⟨' ', 'X', ' '⟩, ⟨' ', ' ', ' '⟩⟩ 'O' true 2) (0, 0) rfl rfl rfl hbest (by decide)]
    decide
  exact OptimalPlay.oMove 1 (GameBoard.mk ⟨⟨' ', ' ', ' '⟩, ⟨' ', 'X', ' '⟩, ⟨' ', ' ', ' '⟩⟩ 'O' true 2) _ _ drawnGame_1 rfl rfl hstep

set_option maxRecDepth 1000000 in
theorem drawnGame_3 : OptimalPlay 3 (GameBoard.mk ⟨⟨'O', 'X', ' '⟩, ⟨' ', 'X', ' '⟩, ⟨' ', ' ', ' '⟩⟩ 'O' true 2) := by
  have hmin : minimisesX (GameBoard.mk ⟨⟨'O', ' ', ' '⟩, ⟨' ', 'X', ' '⟩, ⟨' ', ' ', ' '⟩⟩ 'X' true 2).board 0 1 :=
    minimisesX_of_cert 2 10 (GameBoard.mk ⟨⟨'O', ' ', ' '⟩, ⟨' ', 'X', ' '⟩, ⟨' ', ' ', ' '⟩⟩ 'X' true 2) 0 1 drawnGame_2 rfl rfl (by decide) (by decide!)
  exact OptimalPlay.xMove 2 (GameBoard.mk ⟨⟨'O', ' ', ' '⟩, ⟨' ', 'X', ' '⟩, ⟨' ', ' ', ' '⟩⟩ 'X' true 2) _ [Event.moveMade 0 1 'X', Event.aiMoveTimer] 0 1 drawnGame_2 rfl rfl hmin (by decide)

set_option maxRecDepth 1000000 in
theorem drawnGame_4 : OptimalPlay 4 (GameBoard.mk ⟨⟨'O', 'X', ' '⟩, ⟨' ', 'X', ' '⟩, ⟨' ', 'O', ' '⟩⟩ 'X' true 2) := by
  have hbest : findBestMove (GameBoard.mk ⟨⟨'O', 'X', ' '⟩, ⟨' ', 'X', ' '⟩, ⟨' ', ' ', ' '⟩⟩ 'O' true 2).board = some (2, 1) := by
    apply findBestMove_of_certs 3 10 (GameBoard.mk ⟨⟨'O', 'X', ' '⟩, ⟨' ', 'X', ' '⟩, ⟨' ', ' ', ' '⟩⟩ 'O' true 2) (2, 1) drawnGame_3 rfl rfl (by decide)
      (by decide!)
    intro d hd hcell
    obtain ⟨i, j⟩ := d
    revert hd hcell
    fin_cases i <;> fin_cases j <;> decide!
  have hstep : aiMove noObserver (GameBoard.mk ⟨⟨'O', 'X', ' '⟩, ⟨' ', 'X', ' '⟩, ⟨' ', ' ', ' '⟩⟩ 'O' true 2) =
      some ((GameBoard.mk ⟨⟨'O', 'X', ' '⟩, ⟨' ', 'X', ' '⟩, ⟨' ', 'O', ' '⟩⟩ 'X' true 2), [Event.moveMade 2 1 'O']) := by
    rw [aiMove_eq noObserver (GameBoard.mk ⟨⟨'O', 'X', ' '⟩, ⟨' ', 'X', ' '⟩, ⟨' ', ' ', ' '⟩⟩ 'O' true 2) (2, 1) rfl rfl rfl hbest (by decide)]
    decide
  exact OptimalPlay.oMove 3 (GameBoard.mk ⟨⟨'O', 'X', ' '⟩, ⟨' ', 'X', ' '⟩, ⟨' ', ' ', ' '⟩⟩ 'O' true 2) _ _ drawnGame_3 rfl rfl hstep

set_option maxRecDepth 1000000 in
theorem drawnGame_5 : OptimalPlay 5 (GameBoard.mk ⟨⟨'O', 'X', ' '⟩, ⟨'X', 'X', ' '⟩, ⟨' ', 'O', ' '⟩⟩ 'O' true 2) := by
  have hmin : minimisesX (GameBoard.mk ⟨⟨'O', 'X', ' '⟩, ⟨' ', 'X', ' '⟩, ⟨' ', 'O', ' '⟩⟩ 'X' true 2).board 1 0 :=
    minimisesX_of_cert 4 10 (GameBoard.mk ⟨⟨'O', 'X', ' '⟩, ⟨' ', 'X', ' '⟩, ⟨' ', 'O', ' '⟩⟩ 'X' true 2) 1 0 drawnGame_4 rfl rfl (by decide) (by decide!)
  exact OptimalPlay.xMove 4 (GameBoard.mk ⟨⟨'O', 'X', ' '⟩, ⟨' ', 'X', ' '⟩, ⟨' ', 'O', ' '⟩⟩ 'X' true 2) _ [Event.moveMade 1 0 'X', Event.aiMoveTimer] 1 0 drawnGame_4 rfl rfl hmin (by decide)

set_option maxRecDepth 1000000 in
theorem drawnGame_6 : OptimalPlay 6 (GameBoard.mk ⟨⟨'O', 'X', ' '⟩, ⟨'X', 'X', 'O'⟩, ⟨' ', 'O', ' '⟩⟩ 'X' true 2) := by
  have hbest : findBestMove (GameBoard.mk ⟨⟨'O', 'X', ' '⟩, ⟨'X', 'X', ' '⟩, ⟨' ', 'O', ' '⟩⟩ 'O' true 2).board = some (1, 2) := by
    apply findBestMove_of_certs 5 10 (GameBoard.mk ⟨⟨'O', 'X', ' '⟩, ⟨'X', 'X', ' '⟩, ⟨' ', 'O', ' '⟩⟩ 'O' true 2) (1, 2) drawnGame_5 rfl rfl (by decide)
      (by decide!)
    intro d hd hcell
    obtain ⟨i, j⟩ := d
    revert hd hcell
    fin_cases i <;> fin_cases j <;> decide!
  have hstep : aiMove noObserver (GameBoard.mk ⟨⟨'O', 'X', ' '⟩, ⟨'X', 'X', ' '⟩, ⟨' ', 'O', ' '⟩⟩ 'O' true 2) =
      some ((GameBoard.mk ⟨⟨'O', 'X', ' '⟩, ⟨'X', 'X', 'O'⟩, ⟨' ', 'O', ' '⟩⟩ 'X' true 2), [Event.moveMade 1 2 'O']) := by
    rw [aiMove_eq noObserver (GameBoard.mk ⟨⟨'O', 'X', ' '⟩, ⟨'X', 'X', ' '⟩, ⟨' ', 'O', ' '⟩⟩ 'O' true 2) (1, 2) rfl rfl rfl hbest (by decide)]
    decide
  exact OptimalPlay.oMove 5 (GameBoard.mk ⟨⟨'O', 'X', ' '⟩, ⟨'X', 'X', ' '⟩, ⟨' ', 'O', ' '⟩⟩ 'O' true 2) _ _ drawnGame_5 rfl rfl hstep

set_option maxRecDepth 1000000 in
theorem drawnGame_7 : OptimalPlay 7 (GameBoard.mk ⟨⟨'O', 'X', 'X'⟩, ⟨'X', 'X', 'O'⟩, ⟨' ', 'O', ' '⟩⟩ 'O' true 2) := by
  have hmin : minimisesX (GameBoard.mk ⟨⟨'O', 'X', ' '⟩, ⟨'X', 'X', 'O'⟩, ⟨' ', 'O', ' '⟩⟩ 'X' true 2).board 0 2 :=
    minimisesX_of_cert 6 10 (GameBoard.mk ⟨⟨'O', 'X', ' '⟩, ⟨'X', 'X', 'O'⟩, ⟨' ', 'O', ' '⟩⟩ 'X' true 2) 0 2 drawnGame_6 rfl rfl (by decide) (by decide!)
  exact OptimalPlay.xMove 6 (GameBoard.mk ⟨⟨'O', 'X', ' '⟩, ⟨'X', 'X', 'O'⟩, ⟨' ', 'O', ' '⟩⟩ 'X' true 2) _ [Event.moveMade 0 2 'X', Event.aiMoveTimer] 0 2 drawnGame_6 rfl rfl hmin (by decide)

set_option maxRecDepth 1000000 in
theorem drawnGame_8 : OptimalPlay 8 (GameBoard.mk ⟨⟨'O', 'X', 'X'⟩, ⟨'X', 'X', 'O'⟩, ⟨'O', 'O', ' '⟩⟩ 'X' true 2) := by
  have hbest : findBestMove (GameBoard.mk ⟨⟨'O', 'X', 'X'⟩, ⟨'X', 'X', 'O'⟩, ⟨' ', 'O', ' '⟩⟩ 'O' true 2).board = some (2, 0) := by
    apply findBestMove_of_certs 7 10 (GameBoard.mk ⟨⟨'O', 'X', 'X'⟩, ⟨'X', 'X', 'O'⟩, ⟨' ', 'O', ' '⟩⟩ 'O' true 2) (2, 0) drawnGame_7 rfl rfl (by decide)
      (by decide!)
    intro d hd hcell
    obtain ⟨i, j⟩ := d
    revert hd hcell
    fin_cases i <;> fin_cases j <;> decide!
  have hstep : aiMove noObserver (GameBoard.mk ⟨⟨'O', 'X', 'X'⟩, ⟨'X', 'X', 'O'⟩, ⟨' ', 'O', ' '⟩⟩ 'O' true 2) =
      some ((GameBoard.mk ⟨⟨'O', 'X', 'X'⟩, ⟨'X', 'X', 'O'⟩, ⟨'O', 'O', ' '⟩⟩ 'X' true 2), [Event.moveMade 2 0 'O']) := by
    rw [aiMove_eq noObserver (GameBoard.mk ⟨⟨'O', 'X', 'X'⟩, ⟨'X', 'X', 'O'⟩, ⟨' ', 'O', ' '⟩⟩ 'O' true 2) (2, 0) rfl rfl rfl hbest (by decide)]
    decide
  exact OptimalPlay.oMove 7 (GameBoard.mk ⟨⟨'O', 'X', 'X'⟩, ⟨'X', 'X', 'O'⟩, ⟨' ', 'O', ' '⟩⟩ 'O' true 2) _ _ drawnGame_7 rfl rfl hstep

set_option maxRecDepth 1000000 in
theorem drawnGame_9 : OptimalPlay 9 (GameBoard.mk ⟨⟨'O', 'X', 'X'⟩, ⟨'X', 'X', 'O'⟩, ⟨'O', 'O', 'X'⟩⟩ 'X' false 2) := by
  have hmin : minimisesX (GameBoard.mk ⟨⟨'O', 'X', 'X'⟩, ⟨'X', 'X', 'O'⟩, ⟨'O', 'O', ' '⟩⟩ 'X' true 2).board 2 2 :=
    minimisesX_of_cert 8 10 (GameBoard.mk ⟨⟨'O', 'X', 'X'⟩, ⟨'X', 'X', 'O'⟩, ⟨'O', 'O', ' '⟩⟩ 'X' true 2) 2 2 drawnGame_8 rfl rfl (by decide) (by decide!)
  exact OptimalPlay.xMove 8 (GameBoard.mk ⟨⟨'O', 'X', 'X'⟩, ⟨'X', 'X', 'O'⟩, ⟨'O', 'O', ' '⟩⟩ 'X' true 2) _ [Event.moveMade 2 2 'X', Event.gameOver "Draw"] 2 2 drawnGame_8 rfl rfl hmin (by decide)

theorem optimal_play_is_draw_witness :
    OptimalPlay 9 (GameBoard.mk finishedBoard 'X' false 2) ∧
      ¬hasLine finishedBoard 'X' ∧ ¬hasLine finishedBoard 'O' ∧ (9 : Nat) ≤ 9 ∧
      boardFull finishedBoard :=
  ⟨drawnGame_9,
    (optimal_play_is_draw 9 (GameBoard.mk finishedBoard 'X' false 2) drawnGame_9).1,
    (optimal_play_is_draw 9 (GameBoard.mk finishedBoard 'X' false 2) drawnGame_9).2.1,
    (optimal_play_is_draw 9 (GameBoard.mk finishedBoard 'X' false 2) drawnGame_9).2.2.1,
    (optimal_play_is_draw 9 (GameBoard.mk finishedBoard 'X' false 2) drawnGame_9).2.2.2.2.1
      rfl⟩

/-! ## The search leaves the board as it found it -/

/-- After any number of iterations, a double loop of `minimax` holds the board it was
entered with. -/
theorem minimaxLoop_board (recur : Board → Char → Option Int) (mark next : Char)
    (pick : Int → Int → Int) (b : Board) :
    ∀ (cs : List (Fin 3 × Fin 3)) (best : Int) (st : Board × Int),
      minimaxLoop recur mark next pick cs (b, best) = some st → st.1 = b := by
  intro cs
  induction cs with
  | nil =>
    intro best st h
    simp only [minimaxLoop, Option.some.injEq] at h
    rw [← h]
  | cons c rest ih =>
    intro best st h
    obtain ⟨i, j⟩ := c
    by_cases hc : b.get i j = ' '
    · simp only [minimaxLoop, hc, beq_self_eq_true, if_true] at h
      cases hv : recur (b.set i j mark) next with
      | none => simp [hv] at h
      | some v =>
        simp only [hv, Board.set_restore b i j mark hc] at h
        exact ih _ _ h
    · have hc1 : (b.get i j == ' ') = false := by simpa using hc
      simp only [minimaxLoop, hc1, Bool.false_eq_true, if_false] at h
      exact ih _ _ h

/-- C11: `findBestMove` does not change the live game.  It reads `board` into its working
copy and returns only the move; after every candidate is scored (after any number of
iterations of its loop) the working copy equals the live board again, the loop runs to
its end, and in `minimax` the board argument equals its entry value again after every
child is scored.  `aiMove` then continues with the `board`, `currentPlayer` and
`gameActive` it had before the call. -/
theorem findBestMove_leaves_board (observer : Observer) (s : GameBoard) :
    (∀ (cs : List (Fin 3 × Fin 3)) (best : Int) (mv : Int × Int)
        (st : Board × Int × (Int × Int)),
        findBestMoveLoop minimax cs (s.board, best, mv) = some st → st.1 = s.board) ∧
    (∃ st, findBestMoveLoop minimax cells (s.board, -1000, (-1, -1)) = some st ∧
        st.1 = s.board ∧ findBestMove s.board = some st.2.2) ∧
    (∀ (fuel : Nat) (currentBoard : Board) (mark next : Char) (pick : Int → Int → Int)
        (cs : List (Fin 3 × Fin 3)) (best : Int) (st : Board × Int),
        minimaxLoop (minimaxFuel fuel) mark next pick cs (currentBoard, best) = some st →
          st.1 = currentBoard) ∧
    (∀ c : Fin 3 × Fin 3, s.gameActive = true → s.currentPlayer = 'O' → s.gameMode = 2 →
        findBestMove s.board = some ((c.1.val : Int), (c.2.val : Int)) →
        s.board.get c.1 c.2 = ' ' →
        aiMove observer s =
          some ((afterMove observer { s with board := s.board.set c.1 c.2 'O' } "AI").1,
            Event.moveMade c.1.val c.2.val 'O' ::
              (afterMove observer { s with board := s.board.set c.1 c.2 'O' } "AI").2)) := by
  refine ⟨?_, ?_, ?_, ?_⟩
  · intro cs best mv st h
    exact (findBestMoveLoop_spec minimax s.board cs best mv st h).1
  · obtain ⟨st, hst⟩ := findBestMoveLoop_isSome minimax s.board
      (fun c p => (minimax_total c p).imp fun v hv => hv.1) cells (-1000) (-1, -1)
    refine ⟨st, hst, (findBestMoveLoop_spec minimax s.board cells _ _ st hst).1, ?_⟩
    rw [findBestMove_eq_map, hst]
    rfl
  · intro fuel currentBoard mark next pick cs best st h
    exact minimaxLoop_board _ mark next pick currentBoard cs best st h
  · intro c hact hp hm hf hc
    exact aiMove_eq observer s c hact hp hm hf hc

theorem findBestMove_leaves_board_witness :
    findBestMoveLoop minimax [(2, 2)]
        (Board.mk ⟨'X', 'O', 'X'⟩ ⟨'X', 'O', 'O'⟩ ⟨'O', 'X', ' '⟩, -1000, (-1, -1)) =
      some (Board.mk ⟨'X', 'O', 'X'⟩ ⟨'X', 'O', 'O'⟩ ⟨'O', 'X', ' '⟩, 0, (2, 2)) ∧
    (Board.mk ⟨'X', 'O', 'X'⟩ ⟨'X', 'O', 'O'⟩ ⟨'O', 'X', ' '⟩, (0 : Int),
        (((2 : Int), (2 : Int)))).1 =
      Board.mk ⟨'X', 'O', 'X'⟩ ⟨'X', 'O', 'O'⟩ ⟨'O', 'X', ' '⟩ :=
  ⟨by decide,
    (findBestMove_leaves_board noObserver
      { board := Board.mk ⟨'X', 'O', 'X'⟩ ⟨'X', 'O', 'O'⟩ ⟨'O', 'X', ' '⟩, currentPlayer := 'O',
        gameActive := true, gameMode := 2 }).1 [(2, 2)] (-1000) (-1, -1) _ (by decide)⟩

/-! ## Full-board detection and termination of the search -/

/-- C15: `isFull()` is true exactly when none of the 9 cells is `' '`; it is a function of
the board alone, so the order in which the cells were filled does not matter; and
`evalIsFull` returns the same value on the same board. -/
theorem isFull_iff_boardFull (s : GameBoard) :
    (isFull s = true ↔ boardFull s.board) ∧ evalIsFull s.board = isFull s := by
  rw [isFull_eq_evalIsFull]
  exact ⟨evalIsFull_iff s.board, rfl⟩

/-- C18: the search always completes.  Each recursive call of `minimax` is made on a board
with exactly one empty cell fewer, so `minimax` returns with one nested call per empty
cell beyond the outermost one (fuel `countEmpty b + 1`), which is at most 9 nested calls;
the result is the one `minimax` gives with the fuel of a 3x3 board. -/
theorem minimax_terminates (b : Board) (player : Char) :
    (∃ v, minimaxFuel (countEmpty b + 1) b player = some v ∧ minimax b player = some v) ∧
    countEmpty b ≤ 9 ∧
    (∀ i j : Fin 3, b.get i j = ' ' →
      countEmpty (b.set i j 'O') + 1 = countEmpty b ∧
      countEmpty (b.set i j 'X') + 1 = countEmpty b) := by
  refine ⟨?_, countEmpty_le b, fun i j h =>
    ⟨countEmpty_set b i j 'O' h (by decide), countEmpty_set b i j 'X' h (by decide)⟩⟩
  obtain ⟨v, hv⟩ := minimaxFuel_total (countEmpty b + 1) b player (by omega)
  exact ⟨v, hv, minimax_of_fuel _ b player v hv⟩

/-! ## `minimax` computes the reference game value -/

theorem not_hasLine_iff (b : Board) (p : Char) : ¬hasLine b p ↔ evalIsWinner b p = false := by
  rw [← evalIsWinner_iff, Bool.not_eq_true]

theorem not_boardFull_iff (b : Board) : ¬boardFull b ↔ evalIsFull b = false := by
  rw [← evalIsFull_iff, Bool.not_eq_true]

/-- Every result of `minimax` is a reference game value of the position. -/
theorem gameValue_of_minimaxFuel : ∀ (n : Nat) (b : Board) (p : Char) (v : Int),
    p = 'X' ∨ p = 'O' → minimaxFuel n b p = some v → GameValue b p v := by
  intro n
  induction n with
  | zero =>
    intro b p v _ h
    simp [minimaxFuel] at h
  | succ n ih =>
    intro b p v hp h
    by_cases hO : evalIsWinner b 'O' = true
    · rw [minimaxFuel_winO n b p hO] at h
      simp only [Option.some.injEq] at h
      rw [← h]
      exact GameValue.winO b p ((evalIsWinner_iff b 'O').1 hO)
    have hO1 : evalIsWinner b 'O' = false := by simpa using hO
    by_cases hX : evalIsWinner b 'X' = true
    · rw [minimaxFuel_winX n b p hO1 hX] at h
      simp only [Option.some.injEq] at h
      rw [← h]
      exact GameValue.winX b p ((not_hasLine_iff b 'O').2 hO1) ((evalIsWinner_iff b 'X').1 hX)
    have hX1 : evalIsWinner b 'X' = false := by simpa using hX
    by_cases hF : evalIsFull b = true
    · rw [minimaxFuel_full n b p hO1 hX1 hF] at h
      simp only [Option.some.injEq] at h
      rw [← h]
      exact GameValue.draw b p ((not_hasLine_iff b 'O').2 hO1) ((not_hasLine_iff b 'X').2 hX1)
        ((evalIsFull_iff b).1 hF)
    have hF1 : evalIsFull b = false := by simpa using hF
    rcases hp with hp | hp
    · subst hp
      obtain ⟨h1, c1, hc1, hv1⟩ := minimaxFuel_min n b 'X' v (by decide) hO1 hX1 hF1 h
      refine GameValue.minX b v
        (fun c => (minimaxFuel n (b.set c.1 c.2 'X') 'O').getD 0)
        ((not_hasLine_iff b 'O').2 hO1) ((not_hasLine_iff b 'X').2 hX1)
        ((not_boardFull_iff b).2 hF1) ?_ ?_ ⟨c1, hc1, by simp [hv1]⟩
      · intro c hc
        obtain ⟨w, hw, _⟩ := h1 c hc
        simp only [hw, Option.getD_some]
        exact ih _ _ _ (Or.inr rfl) hw
      · intro c hc
        obtain ⟨w, hw, hle⟩ := h1 c hc
        simp only [hw, Option.getD_some]
        exact hle
    · subst hp
      obtain ⟨h1, c1, hc1, hv1⟩ := minimaxFuel_max n b v hO1 hX1 hF1 h
      refine GameValue.maxO b v
        (fun c => (minimaxFuel n (b.set c.1 c.2 'O') 'X').getD 0)
        ((not_hasLine_iff b 'O').2 hO1) ((not_hasLine_iff b 'X').2 hX1)
        ((not_boardFull_iff b).2 hF1) ?_ ?_ ⟨c1, hc1, by simp [hv1]⟩
      · intro c hc
        obtain ⟨w, hw, _⟩ := h1 c hc
        simp only [hw, Option.getD_some]
        exact ih _ _ _ (Or.inl rfl) hw
      · intro c hc
        obtain ⟨w, hw, hle⟩ := h1 c hc
        simp only [hw, Option.getD_some]
        exact hle

/-- Every reference game value of a position is the result of `minimax`. -/
theorem minimax_of_gameValue (b : Board) (p : Char) (v : Int) (h : GameValue b p v) :
    minimax b p = some v := by
  induction h with
  | winO b p hO => exact minimax_winO b p ((evalIsWinner_iff b 'O').2 hO)
  | winX b p hO hX =>
    exact minimax_winX b p ((not_hasLine_iff b 'O').1 hO) ((evalIsWinner_iff b 'X').2 hX)
  | draw b p hO hX hF =>
    exact minimax_full b p ((not_hasLine_iff b 'O').1 hO) ((not_hasLine_iff b 'X').1 hX)
      ((evalIsFull_iff b).2 hF)
  | maxO b v val hO hX hF _ hle hatt ih =>
    obtain ⟨r, hr, _⟩ := minimax_total b 'O'
    obtain ⟨h1, c2, hc2, hv2⟩ := minimax_max b r ((not_hasLine_iff b 'O').1 hO)
      ((not_hasLine_iff b 'X').1 hX) ((not_boardFull_iff b).1 hF) hr
    obtain ⟨c1, hc1, hv1⟩ := hatt
    obtain ⟨w, hw, hwr⟩ := h1 c1 hc1
    rw [ih c1 hc1] at hw
    rw [ih c2 hc2] at hv2
    simp only [Option.some.injEq] at hw hv2
    have := hle c2 hc2
    have hrv : r = v := by omega
    rw [hr, hrv]
  | minX b v val hO hX hF _ hle hatt ih =>
    obtain ⟨r, hr, _⟩ := minimax_total b 'X'
    obtain ⟨h1, c2, hc2, hv2⟩ := minimax_min b 'X' r (by decide)
      ((not_hasLine_iff b 'O').1 hO) ((not_hasLine_iff b 'X').1 hX)
      ((not_boardFull_iff b).1 hF) hr
    obtain ⟨c1, hc1, hv1⟩ := hatt
    obtain ⟨w, hw, hwr⟩ := h1 c1 hc1
    rw [ih c1 hc1] at hw
    rw [ih c2 hc2] at hv2
    simp only [Option.some.injEq] at hw hv2
    have := hle c2 hc2
    have hrv : r = v := by omega
    rw [hr, hrv]

/-- C16: for every board and either marker to move, `minimax` returns the reference game
value: +10 if `'O'` has a complete line, otherwise -10 if `'X'` has one, otherwise 0 on a
full board, otherwise the maximum (for `'O'`) or minimum (for `'X'`) over the empty cells
of the value of the position after the placement.  That value is unique, it is one of
-10, 0, +10, and the initial bounds -1000 and 1000 of the loops are never returned. -/
theorem minimax_eq_gameValue (b : Board) (player : Char)
    (hp : player = 'X' ∨ player = 'O') :
    ∃ v, minimax b player = some v ∧ GameValue b player v ∧
      (∀ w, GameValue b player w → w = v) ∧ (v = -10 ∨ v = 0 ∨ v = 10) ∧
      v ≠ -1000 ∧ v ≠ 1000 := by
  obtain ⟨v, hv, hr⟩ := minimax_total b player
  refine ⟨v, hv, gameValue_of_minimaxFuel 10 b player v hp hv, ?_, hr, by omega, by omega⟩
  intro w hw
  have := minimax_of_gameValue b player w hw
  rw [hv] at this
  simp only [Option.some.injEq] at this
  exact this.symm

theorem minimax_eq_gameValue_witness :
    ('X' = 'X' ∨ 'X' = 'O') ∧
      ∃ v, minimax emptyBoard 'X' = some v ∧ GameValue emptyBoard 'X' v ∧
        (∀ w, GameValue emptyBoard 'X' w → w = v) ∧ (v = -10 ∨ v = 0 ∨ v = 10) ∧
        v ≠ -1000 ∧ v ≠ 1000 :=
  ⟨Or.inl rfl, minimax_eq_gameValue emptyBoard 'X' (Or.inl rfl)⟩

/-! ## The board under the dialog's `onGameOver` slot -/

theorem resetBoard_eq (s : GameBoard) :
    resetBoard s =
      ({ board := emptyBoard, currentPlayer := 'X', gameActive := true, gameMode := s.gameMode },
        []) := by
  obtain ⟨⟨⟨a0, a1, a2⟩, ⟨a3, a4, a5⟩, ⟨a6, a7, a8⟩⟩, p, a, m⟩ := s
  have hb : cells.foldl (fun b c => b.set c.1 c.2 ' ')
      (Board.mk ⟨a0, a1, a2⟩ ⟨a3, a4, a5⟩ ⟨a6, a7, a8⟩) = emptyBoard := rfl
  simp [resetBoard, hb]

theorem dialogObserver_eq (name : String) (s : GameBoard) :
    dialogObserver name s =
      { board := emptyBoard, currentPlayer := 'X', gameActive := true, gameMode := s.gameMode } := by
  simp [dialogObserver, resetBoard_eq, enableBoard]

/-- With the dialog's slot connected, the checks after a game-ending placement leave a
reset but inactive board. -/
theorem afterMove_dialog_end (s : GameBoard) (name : String)
    (h : evalIsWinner s.board s.currentPlayer = true ∨ evalIsFull s.board = true) :
    (afterMove dialogObserver s name).1 =
      { board := emptyBoard, currentPlayer := 'X', gameActive := false,
        gameMode := s.gameMode } := by
  by_cases hw : checkWinner s s.currentPlayer = true
  · rw [afterMove_win _ _ _ hw, dialogObserver_eq]
  · have hw1 : checkWinner s s.currentPlayer = false := by simpa using hw
    have hf : isFull s = true := by
      rw [isFull_eq_evalIsFull]
      rcases h with h | h
      · rw [checkWinner_eq_evalIsWinner] at hw
        exact absurd h hw
      · exact h
    rw [afterMove_draw _ _ _ hw1 hf, dialogObserver_eq]

/-- C17: with `gameOver` connected synchronously to `GameDialog::onGameOver`, a placement
that ends the game (it completes a line of the mover or fills the board), made by
`onCellClicked` or by `aiMove`, leaves the `GameBoard` with every cell empty,
`currentPlayer` `'X'` and `gameActive` false: the slot resets and enables the board
inside the `emit`, and the `disableBoard` after the `emit` deactivates it again.  In that
state every `makeMove` returns false, and `resetBoard` or `enableBoard` makes the board
active again. -/
theorem game_end_leaves_reset_inactive_board (s : GameBoard) (i j : Fin 3)
    (hact : s.gameActive = true) (hcell : s.board.get i j = ' ')
    (hend : hasLine (s.board.set i j s.currentPlayer) s.currentPlayer ∨
      boardFull (s.board.set i j s.currentPlayer)) :
    (∃ ev, onCellClicked dialogObserver s (some (i, j)) =
      some ({ board := emptyBoard, currentPlayer := 'X', gameActive := false,
              gameMode := s.gameMode }, ev)) ∧
    (s.currentPlayer = 'O' → s.gameMode = 2 →
      findBestMove s.board = some ((i.val : Int), (j.val : Int)) →
      ∃ ev, aiMove dialogObserver s =
        some ({ board := emptyBoard, currentPlayer := 'X', gameActive := false,
                gameMode := s.gameMode }, ev)) ∧
    (∀ (row col : Int) (marker : Char),
      makeMove { board := emptyBoard, currentPlayer := 'X', gameActive := false,
                 gameMode := s.gameMode } row col marker =
        some (false, { board := emptyBoard, currentPlayer := 'X', gameActive := false,
                       gameMode := s.gameMode })) ∧
    (resetBoard { board := emptyBoard, currentPlayer := 'X', gameActive := false,
                  gameMode := s.gameMode }).1.gameActive = true ∧
    (enableBoard { board := emptyBoard, currentPlayer := 'X', gameActive := false,
                   gameMode := s.gameMode }).gameActive = true := by
  have hend1 : evalIsWinner (s.board.set i j s.currentPlayer) s.currentPlayer = true ∨
      evalIsFull (s.board.set i j s.currentPlayer) = true := by
    rcases hend with h | h
    · exact Or.inl ((evalIsWinner_iff _ _).2 h)
    · exact Or.inr ((evalIsFull_iff _).2 h)
  refine ⟨?_, ?_, ?_, ?_, rfl⟩
  · rw [onCellClicked_accepted_eq dialogObserver s i j hact hcell]
    rw [afterMove_dialog_end { s with board := s.board.set i j s.currentPlayer } _ hend1]
    exact ⟨_, rfl⟩
  · intro hp hm hf
    rw [aiMove_eq dialogObserver s (i, j) hact hp hm hf hcell]
    rw [hp] at hend1
    rw [afterMove_dialog_end { s with board := s.board.set i j 'O' } "AI"
      (by simpa [hp] using hend1)]
    exact ⟨_, rfl⟩
  · intro row col marker
    by_cases hr : 0 ≤ row ∧ row < 3 ∧ 0 ≤ col ∧ col < 3
    · obtain ⟨k, hk⟩ := toIndex_of_range ⟨hr.1, hr.2.1⟩
      obtain ⟨l, hl⟩ := toIndex_of_range ⟨hr.2.2.1, hr.2.2.2⟩
      have hk1 := toIndex_eq_some hk
      have hl1 := toIndex_eq_some hl
      subst hk1 hl1
      rw [makeMove_coe, if_neg]
      simp
    · exact makeMove_out_of_range _ row col marker hr
  · rw [resetBoard_eq]

theorem game_end_leaves_reset_inactive_board_witness :
    (GameBoard.mk scenario2Board 'X' true 1).gameActive = true ∧
      scenario2Board.get 0 2 = ' ' ∧ hasLine (scenario2Board.set 0 2 'X') 'X' ∧
      ∃ ev, onCellClicked dialogObserver (GameBoard.mk scenario2Board 'X' true 1)
          (some (0, 2)) =
        some ({ board := emptyBoard, currentPlayer := 'X', gameActive := false, gameMode := 1 },
          ev) :=
  ⟨rfl, by decide, by rw [← evalIsWinner_iff]; decide,
    (game_end_leaves_reset_inactive_board (GameBoard.mk scenario2Board 'X' true 1) 0 2 rfl
      (by decide) (Or.inl (by rw [← evalIsWinner_iff]; decide))).1⟩

/-! ## Events -/

theorem aiMove_no_empty (observer : Observer) (s : GameBoard)
    (h : ¬∃ c : Fin 3 × Fin 3, s.board.get c.1 c.2 = ' ') :
    aiMove observer s = some (s, []) := by
  by_cases hg : s.gameActive = true ∧ s.currentPlayer = 'O' ∧ s.gameMode = 2
  · unfold aiMove
    simp [hg.1, hg.2.1, hg.2.2, findBestMove_no_empty s.board h]
  · exact aiMove_guard observer s hg

/-- Events sent by the checks that follow a placement: no `moveMade`, and one `gameOver`
exactly when the mover has a line or the board is full, after which the game is
inactive. -/
theorem afterMove_events (observer : Observer) (s : GameBoard) (name : String) :
    (afterMove observer s name).2.countP Event.isMoveMade = 0 ∧
    ((evalIsWinner s.board s.currentPlayer = true ∨ evalIsFull s.board = true) →
      (afterMove observer s name).2.countP Event.isGameOver = 1 ∧
      (afterMove observer s name).1.gameActive = false) ∧
    (evalIsWinner s.board s.currentPlayer = false → evalIsFull s.board = false →
      (afterMove observer s name).2.countP Event.isGameOver = 0) := by
  by_cases hw : checkWinner s s.currentPlayer = true
  · rw [afterMove_win _ _ _ hw]
    rw [checkWinner_eq_evalIsWinner] at hw
    simp [Event.isMoveMade, Event.isGameOver, hw]
  · have hw1 : checkWinner s s.currentPlayer = false := by simpa using hw
    by_cases hf : isFull s = true
    · rw [afterMove_draw _ _ _ hw1 hf]
      rw [isFull_eq_evalIsFull] at hf
      simp [Event.isMoveMade, Event.isGameOver, hf]
    · have hf1 : isFull s = false := by simpa using hf
      rw [afterMove_continue _ _ _ hw1 hf1, switchPlayer_eq]
      rw [checkWinner_eq_evalIsWinner] at hw1
      rw [isFull_eq_evalIsFull] at hf1
      simp only [hw1, hf1, Bool.false_eq_true, or_self, false_implies, true_implies, true_and]
      split <;> simp [Event.isMoveMade, Event.isGameOver]

/-- One input sends at most one `gameOver`, leaves the game inactive when it sends one, and
sends nothing on an inactive game. -/
theorem step_gameOver (observer : Observer) (s s1 : GameBoard) (inp : Input)
    (ev : List Event) (h : step observer s inp = some (s1, ev)) :
    ev.countP Event.isGameOver ≤ 1 ∧
      (ev.countP Event.isGameOver = 1 → s1.gameActive = false) ∧
      (s.gameActive = false → s1 = s ∧ ev = []) := by
  have hsame : ∀ r : Option (GameBoard × List Event), r = some (s, []) → r = some (s1, ev) →
      ev.countP Event.isGameOver ≤ 1 ∧
        (ev.countP Event.isGameOver = 1 → s1.gameActive = false) ∧
        (s.gameActive = false → s1 = s ∧ ev = []) := by
    intro r h1 h2
    rw [h1] at h2
    simp only [Option.some.injEq, Prod.mk.injEq] at h2
    obtain ⟨rfl, rfl⟩ := h2
    simp
  have hplaced : ∀ (s2 : GameBoard) (name : String) (e : Event), e.isGameOver = false →
      s.gameActive = true →
      some ((afterMove observer s2 name).1, e :: (afterMove observer s2 name).2) =
        some (s1, ev) →
      ev.countP Event.isGameOver ≤ 1 ∧
        (ev.countP Event.isGameOver = 1 → s1.gameActive = false) ∧
        (s.gameActive = false → s1 = s ∧ ev = []) := by
    intro s2 name e he hact h2
    simp only [Option.some.injEq, Prod.mk.injEq] at h2
    obtain ⟨rfl, rfl⟩ := h2
    obtain ⟨_, hend, hcont⟩ := afterMove_events observer s2 name
    rw [List.countP_cons_of_neg _ _ (by simp [he])]
    by_cases hd : evalIsWinner s2.board s2.currentPlayer = true ∨ evalIsFull s2.board = true
    · obtain ⟨h1, h2⟩ := hend hd
      exact ⟨by omega, fun _ => h2, fun hf => by rw [hact] at hf; cases hf⟩
    · have hd1 : evalIsWinner s2.board s2.currentPlayer = false := by
        simpa using fun h => hd (Or.inl h)
      have hd2 : evalIsFull s2.board = false := by
        simpa using fun h => hd (Or.inr h)
      have h0 := hcont hd1 hd2
      exact ⟨by omega, fun h1 => by omega, fun hf => by rw [hact] at hf; cases hf⟩
  cases inp with
  | click sender =>
    simp only [step] at h
    cases sender with
    | none => exact hsame _ (onCellClicked_none observer s) h
    | some c =>
      obtain ⟨i, j⟩ := c
      by_cases hacc : s.board.get i j = ' ' ∧ s.gameActive = true
      · rw [onCellClicked_accepted_eq observer s i j hacc.2 hacc.1] at h
        exact hplaced _ _ (Event.moveMade _ _ _) rfl hacc.2 h
      · exact hsame _ (onCellClicked_rejected observer s i j hacc) h
  | aiTimer =>
    simp only [step] at h
    by_cases hg : s.gameActive = true ∧ s.currentPlayer = 'O' ∧ s.gameMode = 2
    · by_cases hex : ∃ c : Fin 3 × Fin 3, s.board.get c.1 c.2 = ' '
      · obtain ⟨c, v, hf, hc, _⟩ := findBestMove_first_max s.board hex
        rw [aiMove_eq observer s c hg.1 hg.2.1 hg.2.2 hf hc] at h
        exact hplaced _ _ (Event.moveMade _ _ _) rfl hg.1 h
      · exact hsame _ (aiMove_no_empty observer s hex) h
    · exact hsame _ (aiMove_guard observer s hg) h

theorem run_inactive (observer : Observer) :
    ∀ (inputs : List Input) (s : GameBoard), s.gameActive = false →
      run observer s inputs = some (s, []) := by
  intro inputs
  induction inputs with
  | nil =>
    intro s _
    rfl
  | cons inp rest ih =>
    intro s hs
    cases hstep : step observer s inp with
    | none =>
      exfalso
      cases inp with
      | click sender =>
        obtain ⟨r, hr⟩ := onCellClicked_isSome observer s sender
        simp [step, hr] at hstep
      | aiTimer =>
        obtain ⟨r, hr⟩ := aiMove_isSome observer s
        simp [step, hr] at hstep
    | some r =>
      obtain ⟨s1, ev⟩ := r
      obtain ⟨_, _, h3⟩ := step_gameOver observer s s1 inp ev hstep
      obtain ⟨rfl, rfl⟩ := h3 hs
      simp [run, hstep, ih s1 hs]

/-- Over any sequence of inputs `gameOver` is sent at most once, and once it is sent the
game is inactive. -/
theorem run_gameOver (observer : Observer) :
    ∀ (inputs : List Input) (s s1 : GameBoard) (ev : List Event),
      run observer s inputs = some (s1, ev) →
        ev.countP Event.isGameOver ≤ 1 ∧
          (ev.countP Event.isGameOver = 1 → s1.gameActive = false) := by
  intro inputs
  induction inputs with
  | nil =>
    intro s s1 ev h
    simp only [run, Option.some.injEq, Prod.mk.injEq] at h
    obtain ⟨_, rfl⟩ := h
    simp
  | cons inp rest ih =>
    intro s s1 ev h
    cases hstep : step observer s inp with
    | none => simp [run, hstep] at h
    | some r =>
      obtain ⟨s2, ev2⟩ := r
      cases hrun : run observer s2 rest with
      | none => simp [run, hstep, hrun] at h
      | some r2 =>
        obtain ⟨s3, ev3⟩ := r2
        simp only [run, hstep, hrun, Option.some.injEq, Prod.mk.injEq] at h
        obtain ⟨rfl, rfl⟩ := h
        obtain ⟨h1, h2, _⟩ := step_gameOver observer s s2 inp ev2 hstep
        rw [List.countP_append]
        by_cases hone : ev2.countP Event.isGameOver = 1
        · have hin := h2 hone
          rw [run_inactive observer rest s2 hin] at hrun
          simp only [Option.some.injEq, Prod.mk.injEq] at hrun
          obtain ⟨rfl, rfl⟩ := hrun
          simp [hone, hin]
        · have hz : ev2.countP Event.isGameOver = 0 := by omega
          obtain ⟨h3, h4⟩ := ih s2 s3 ev3 hrun
          rw [hz]
          simp only [Nat.zero_add]
          exact ⟨h3, h4⟩

/-- Events of a placement of `marker` at `(i, j)` followed by the checks of `afterMove`:
one `moveMade`, first, and one `gameOver` exactly when the placement completes a line of
the mover or fills the board. -/
theorem placement_events (observer : Observer) (s : GameBoard) (name : String) :
    (afterMove observer s name).2.countP Event.isMoveMade = 0 ∧
    ((hasLine s.board s.currentPlayer ∨ boardFull s.board) →
      (afterMove observer s name).2.countP Event.isGameOver = 1) ∧
    (¬hasLine s.board s.currentPlayer → ¬boardFull s.board →
      (afterMove observer s name).2.countP Event.isGameOver = 0) := by
  obtain ⟨h1, h2, h3⟩ := afterMove_events observer s name
  refine ⟨h1, ?_, ?_⟩
  · rintro (h | h)
    · exact (h2 (Or.inl ((evalIsWinner_iff _ _).2 h))).1
    · exact (h2 (Or.inr ((evalIsFull_iff _).2 h))).1
  · intro hl hf
    exact h3 ((not_hasLine_iff _ _).1 hl) ((not_boardFull_iff _).1 hf)

/-- C14: events are sent exactly once per transition, whatever is connected to the
signals.  An accepted placement by `onCellClicked` or by `aiMove` sends `moveMade` exactly
once, first, with the placed row and column and the mover's marker, and sends `gameOver`
once if the placement completes a line of the mover or fills the board and not at all
otherwise; a rejected click and an `aiMove` that places nothing send nothing; over any
sequence of clicks and timer expiries `gameOver` is sent at most once, after which the
game is inactive.  `findBestMove` and `minimax` return a move and a score only: they send
no event. -/
theorem events_exactly_once (observer : Observer) (s : GameBoard) :
    (∀ i j : Fin 3, s.gameActive = true → s.board.get i j = ' ' →
      ∃ rest, onCellClicked observer s (some (i, j)) =
          some ((afterMove observer { s with board := s.board.set i j s.currentPlayer }
              (winnerName { s with board := s.board.set i j s.currentPlayer })).1,
            Event.moveMade i.val j.val s.currentPlayer :: rest) ∧
        rest.countP Event.isMoveMade = 0 ∧
        ((hasLine (s.board.set i j s.currentPlayer) s.currentPlayer ∨
            boardFull (s.board.set i j s.currentPlayer)) →
          rest.countP Event.isGameOver = 1) ∧
        (¬hasLine (s.board.set i j s.currentPlayer) s.currentPlayer →
          ¬boardFull (s.board.set i j s.currentPlayer) →
          rest.countP Event.isGameOver = 0)) ∧
    (∀ sender : Option (Fin 3 × Fin 3),
      (sender = none ∨ s.gameActive = false ∨
        ∃ i j : Fin 3, sender = some (i, j) ∧ s.board.get i j ≠ ' ') →
      onCellClicked observer s sender = some (s, [])) ∧
    (s.gameActive = true → s.currentPlayer = 'O' → s.gameMode = 2 →
      (∃ i j : Fin 3, s.board.get i j = ' ') →
      ∃ (i j : Fin 3) (rest : List Event),
        findBestMove s.board = some ((i.val : Int), (j.val : Int)) ∧ s.board.get i j = ' ' ∧
        aiMove observer s =
          some ((afterMove observer { s with board := s.board.set i j 'O' } "AI").1,
            Event.moveMade i.val j.val 'O' :: rest) ∧
        rest.countP Event.isMoveMade = 0 ∧
        ((hasLine (s.board.set i j 'O') 'O' ∨ boardFull (s.board.set i j 'O')) →
          rest.countP Event.isGameOver = 1) ∧
        (¬hasLine (s.board.set i j 'O') 'O' → ¬boardFull (s.board.set i j 'O') →
          rest.countP Event.isGameOver = 0)) ∧
    ((¬(s.gameActive = true ∧ s.currentPlayer = 'O' ∧ s.gameMode = 2) ∨
        ¬∃ i j : Fin 3, s.board.get i j = ' ') →
      aiMove observer s = some (s, [])) ∧
    (∀ (inputs : List Input) (s1 : GameBoard) (ev : List Event),
      run observer s inputs = some (s1, ev) →
        ev.countP Event.isGameOver ≤ 1 ∧
          (ev.countP Event.isGameOver = 1 → s1.gameActive = false)) := by
  refine ⟨?_, ?_, ?_, ?_, ?_⟩
  · intro i j hact hcell
    obtain ⟨h1, h2, h3⟩ := placement_events observer
      { s with board := s.board.set i j s.currentPlayer }
      (winnerName { s with board := s.board.set i j s.currentPlayer })
    exact ⟨_, onCellClicked_accepted_eq observer s i j hact hcell, h1, h2, h3⟩
  · rintro sender (h | h | ⟨i, j, h, hne⟩)
    · rw [h]
      exact onCellClicked_none observer s
    · exact onCellClicked_inactive observer s sender h
    · rw [h]
      exact onCellClicked_rejected observer s i j (fun hh => hne hh.1)
  · rintro hact hp hm ⟨i0, j0, h0⟩
    obtain ⟨c, v, hf, hc, _⟩ := findBestMove_first_max s.board ⟨(i0, j0), h0⟩
    obtain ⟨h1, h2, h3⟩ := placement_events observer
      { s with board := s.board.set c.1 c.2 'O' } "AI"
    exact ⟨c.1, c.2, _, hf, hc, aiMove_eq observer s c hact hp hm hf hc, h1,
      fun h => h2 (by simpa [hp] using h),
      fun hl hfull => h3 (by simpa [hp] using hl) hfull⟩
  · rintro (h | h)
    · exact aiMove_guard observer s h
    · apply aiMove_no_empty
      rintro ⟨c, hc⟩
      exact h ⟨c.1, c.2, hc⟩
  · intro inputs s1 ev h
    exact run_gameOver observer inputs s s1 ev h

theorem events_exactly_once_witness :
    (GameBoard.init 1).gameActive = true ∧ (GameBoard.init 1).board.get 0 0 = ' ' ∧
      ∃ rest, onCellClicked noObserver (GameBoard.init 1) (some (0, 0)) =
          some ((afterMove noObserver
              { GameBoard.init 1 with board := (GameBoard.init 1).board.set 0 0 'X' }
              (winnerName
                { GameBoard.init 1 with board := (GameBoard.init 1).board.set 0 0 'X' })).1,
            Event.moveMade 0 0 'X' :: rest) ∧
        rest.countP Event.isMoveMade = 0 :=
  ⟨rfl, rfl,
    ((events_exactly_once noObserver (GameBoard.init 1)).1 0 0 rfl rfl).imp
      fun _ h => ⟨h.1, h.2.1⟩⟩

/-! ## Alternation of the players -/

/-- Writing `m` into an empty cell adds one to the count of `m` and leaves the count of
every other mark as it was. -/
theorem countMark_set (b : Board) (i j : Fin 3) (m x : Char) (h : b.get i j = ' ')
    (hx : x ≠ ' ') :
    countMark (b.set i j m) x = countMark b x + (if m = x then 1 else 0) := by
  have hbx : (b.get i j == x) = false := by
    rw [h]
    simpa using fun hh => hx hh.symm
  have key : ∀ (cs : List (Fin 3 × Fin 3)), cs.Nodup →
      cs.countP (fun c => (b.set i j m).get c.1 c.2 == x) =
        cs.countP (fun c => b.get c.1 c.2 == x) +
          (if (i, j) ∈ cs then (if m = x then 1 else 0) else 0) := by
    intro cs
    induction cs with
    | nil => intro _; simp
    | cons c rest ih =>
      intro hnd
      obtain ⟨hnot, hnd1⟩ := List.nodup_cons.1 hnd
      have ih1 := ih hnd1
      by_cases hc : c = (i, j)
      · subst hc
        have hrest : ¬((i, j) ∈ rest) := hnot
        simp only [hrest, if_false, Nat.add_zero] at ih1
        simp only [List.countP_cons, Board.get_set_self, hbx, List.mem_cons, true_or, if_true,
          Bool.false_eq_true, if_false, ih1, beq_iff_eq, Nat.add_zero]
      · have hne : ¬(c.1 = i ∧ c.2 = j) := fun hh => hc (Prod.ext hh.1 hh.2)
        have hmem : ((i, j) ∈ c :: rest) ↔ ((i, j) ∈ rest) := by
          simp [List.mem_cons, Ne.symm hc]
        simp only [List.countP_cons, Board.get_set_other b i j m c.1 c.2 hne, hmem, ih1]
        omega
  have hnd : cells.Nodup := by decide
  have := key cells hnd
  simp only [mem_cells, if_true] at this
  unfold countMark
  rw [← List.countP_eq_length_filter, ← List.countP_eq_length_filter]
  exact this

/-- The invariant of alternation is kept by a placement of the player to move followed
by the checks of `afterMove`, with either observer. -/
theorem placement_alternates (observer : Observer)
    (hobs : observer = noObserver ∨ observer = dialogObserver) (s : GameBoard) (i j : Fin 3)
    (name : String) (hcell : s.board.get i j = ' ')
    (hcells : ∀ k l : Fin 3,
      s.board.get k l = ' ' ∨ s.board.get k l = 'X' ∨ s.board.get k l = 'O')
    (hturn : (s.currentPlayer = 'X' ∧ countMark s.board 'X' = countMark s.board 'O') ∨
      (s.currentPlayer = 'O' ∧ countMark s.board 'X' = countMark s.board 'O' + 1)) :
    (∀ k l : Fin 3,
      (afterMove observer { s with board := s.board.set i j s.currentPlayer } name).1.board.get
          k l = ' ' ∨
      (afterMove observer { s with board := s.board.set i j s.currentPlayer } name).1.board.get
          k l = 'X' ∨
      (afterMove observer { s with board := s.board.set i j s.currentPlayer } name).1.board.get
          k l = 'O') ∧
    (countMark (afterMove observer { s with board := s.board.set i j s.currentPlayer }
          name).1.board 'X' =
        countMark (afterMove observer { s with board := s.board.set i j s.currentPlayer }
          name).1.board 'O' ∨
      countMark (afterMove observer { s with board := s.board.set i j s.currentPlayer }
          name).1.board 'X' =
        countMark (afterMove observer { s with board := s.board.set i j s.currentPlayer }
          name).1.board 'O' + 1) ∧
    ((afterMove observer { s with board := s.board.set i j s.currentPlayer }
          name).1.gameActive = true →
      ((afterMove observer { s with board := s.board.set i j s.currentPlayer }
            name).1.currentPlayer = 'X' ∧
        countMark (afterMove observer { s with board := s.board.set i j s.currentPlayer }
            name).1.board 'X' =
          countMark (afterMove observer { s with board := s.board.set i j s.currentPlayer }
            name).1.board 'O') ∨
      ((afterMove observer { s with board := s.board.set i j s.currentPlayer }
            name).1.currentPlayer = 'O' ∧
        countMark (afterMove observer { s with board := s.board.set i j s.currentPlayer }
            name).1.board 'X' =
          countMark (afterMove observer { s with board := s.board.set i j s.currentPlayer }
            name).1.board 'O' + 1)) := by
  have hX := countMark_set s.board i j s.currentPlayer 'X' hcell (by decide)
  have hO := countMark_set s.board i j s.currentPlayer 'O' hcell (by decide)
  have hcells1 : ∀ k l : Fin 3,
      (s.board.set i j s.currentPlayer).get k l = ' ' ∨
      (s.board.set i j s.currentPlayer).get k l = 'X' ∨
      (s.board.set i j s.currentPlayer).get k l = 'O' := by
    intro k l
    rw [Board.get_set]
    split
    · rcases hturn with h | h
      · exact Or.inr (Or.inl h.1)
      · exact Or.inr (Or.inr h.1)
    · exact hcells k l
  have hempty : ∀ k l : Fin 3, emptyBoard.get k l = ' ' := by decide
  have hzX : countMark emptyBoard 'X' = 0 := by decide
  have hzO : countMark emptyBoard 'O' = 0 := by decide
  have hXO : ('X' : Char) ≠ 'O' := by decide
  have hOX : ('O' : Char) ≠ 'X' := by decide
  have hcount : countMark (s.board.set i j s.currentPlayer) 'X' =
        countMark (s.board.set i j s.currentPlayer) 'O' ∨
      countMark (s.board.set i j s.currentPlayer) 'X' =
        countMark (s.board.set i j s.currentPlayer) 'O' + 1 := by
    rcases hturn with ⟨hp, hc⟩ | ⟨hp, hc⟩
    · rw [hp] at hX hO ⊢
      simp only [if_true, if_neg hXO] at hX hO
      omega
    · rw [hp] at hX hO ⊢
      simp only [if_true, if_neg hOX] at hX hO
      omega
  by_cases hw : checkWinner { s with board := s.board.set i j s.currentPlayer }
      s.currentPlayer = true
  · rw [afterMove_win _ _ _ hw]
    rcases hobs with rfl | rfl
    · exact ⟨hcells1, hcount, fun h => by cases h⟩
    · rw [dialogObserver_eq]
      exact ⟨fun k l => Or.inl (hempty k l), Or.inl (by rw [hzX, hzO]), fun h => by cases h⟩
  · have hw1 : checkWinner { s with board := s.board.set i j s.currentPlayer }
        s.currentPlayer = false := by simpa using hw
    by_cases hf : isFull { s with board := s.board.set i j s.currentPlayer } = true
    · rw [afterMove_draw _ _ _ hw1 hf]
      rcases hobs with rfl | rfl
      · exact ⟨hcells1, hcount, fun h => by cases h⟩
      · rw [dialogObserver_eq]
        exact ⟨fun k l => Or.inl (hempty k l), Or.inl (by rw [hzX, hzO]), fun h => by cases h⟩
    · have hf1 : isFull { s with board := s.board.set i j s.currentPlayer } = false := by
        simpa using hf
      rw [afterMove_continue _ _ _ hw1 hf1, switchPlayer_eq]
      refine ⟨hcells1, hcount, fun _ => ?_⟩
      rcases hturn with ⟨hp, hc⟩ | ⟨hp, hc⟩
      · rw [hp] at hX hO
        simp only [if_true, if_neg hXO] at hX hO
        refine Or.inr ⟨by simp [hp], ?_⟩
        show countMark (s.board.set i j s.currentPlayer) 'X' =
          countMark (s.board.set i j s.currentPlayer) 'O' + 1
        rw [hp]
        omega
      · rw [hp] at hX hO
        simp only [if_true, if_neg hOX] at hX hO
        refine Or.inl ⟨by simp [hp], ?_⟩
        show countMark (s.board.set i j s.currentPlayer) 'X' =
          countMark (s.board.set i j s.currentPlayer) 'O'
        rw [hp]
        omega

/-- Invariant of alternation over the states of a `GameBoard`. -/
theorem played_inv (observer : Observer)
    (hobs : observer = noObserver ∨ observer = dialogObserver) (s : GameBoard)
    (h : Played observer s) :
    (∀ k l : Fin 3, s.board.get k l = ' ' ∨ s.board.get k l = 'X' ∨ s.board.get k l = 'O') ∧
    (countMark s.board 'X' = countMark s.board 'O' ∨
      countMark s.board 'X' = countMark s.board 'O' + 1) ∧
    (s.gameActive = true →
      (s.currentPlayer = 'X' ∧ countMark s.board 'X' = countMark s.board 'O') ∨
      (s.currentPlayer = 'O' ∧ countMark s.board 'X' = countMark s.board 'O' + 1)) := by
  induction h with
  | start s0 =>
    rw [resetBoard_eq]
    have hempty : ∀ k l : Fin 3, emptyBoard.get k l = ' ' := by decide
    have hzero : countMark emptyBoard 'X' = countMark emptyBoard 'O' := by decide
    exact ⟨fun k l => Or.inl (hempty k l), Or.inl hzero, fun _ => Or.inl ⟨rfl, hzero⟩⟩
  | click s s1 ev sender _ hstep ih =>
    cases sender with
    | none =>
      rw [onCellClicked_none] at hstep
      simp only [Option.some.injEq, Prod.mk.injEq] at hstep
      rw [← hstep.1]
      exact ih
    | some c =>
      obtain ⟨i, j⟩ := c
      by_cases hacc : s.board.get i j = ' ' ∧ s.gameActive = true
      · rw [onCellClicked_accepted_eq observer s i j hacc.2 hacc.1] at hstep
        simp only [Option.some.injEq, Prod.mk.injEq] at hstep
        rw [← hstep.1]
        exact placement_alternates observer hobs s i j _ hacc.1 ih.1 (ih.2.2 hacc.2)
      · rw [onCellClicked_rejected observer s i j hacc] at hstep
        simp only [Option.some.injEq, Prod.mk.injEq] at hstep
        rw [← hstep.1]
        exact ih
  | ai s s1 ev _ hstep ih =>
    by_cases hg : s.gameActive = true ∧ s.currentPlayer = 'O' ∧ s.gameMode = 2
    · by_cases hex : ∃ c : Fin 3 × Fin 3, s.board.get c.1 c.2 = ' '
      · obtain ⟨c, v, hf, hc, _⟩ := findBestMove_first_max s.board hex
        rw [aiMove_eq observer s c hg.1 hg.2.1 hg.2.2 hf hc] at hstep
        simp only [Option.some.injEq, Prod.mk.injEq] at hstep
        rw [← hstep.1]
        have hb : s.board.set c.1 c.2 s.currentPlayer = s.board.set c.1 c.2 'O' := by
          rw [hg.2.1]
        have := placement_alternates observer hobs s c.1 c.2 "AI" hc ih.1 (ih.2.2 hg.1)
        rw [hb] at this
        exact this
      · rw [aiMove_no_empty observer s hex] at hstep
        simp only [Option.some.injEq, Prod.mk.injEq] at hstep
        rw [← hstep.1]
        exact ih
    · rw [aiMove_guard observer s hg] at hstep
      simp only [Option.some.injEq, Prod.mk.injEq] at hstep
      rw [← hstep.1]
      exact ih

/-- C13: players strictly alternate with `'X'` first.  In every state reached from a
freshly reset board by clicks and runs of `aiMove`, in any game mode, with no observer
or with the dialog's `onGameOver` connected, every cell is `' '`, `'X'` or `'O'`, the
number of `'X'` cells minus the number of `'O'` cells is 0 or 1, and while the game is
active `currentPlayer` is `'X'` exactly when the two counts are equal (and is `'O'`
otherwise). -/
theorem players_alternate (observer : Observer)
    (hobs : observer = noObserver ∨ observer = dialogObserver) (s : GameBoard)
    (h : Played observer s) :
    (∀ k l : Fin 3, s.board.get k l = ' ' ∨ s.board.get k l = 'X' ∨ s.board.get k l = 'O') ∧
    (countMark s.board 'X' = countMark s.board 'O' ∨
      countMark s.board 'X' = countMark s.board 'O' + 1) ∧
    (s.gameActive = true →
      (s.currentPlayer = 'X' ↔ countMark s.board 'X' = countMark s.board 'O') ∧
      (s.currentPlayer = 'X' ∨ s.currentPlayer = 'O')) := by
  obtain ⟨h1, h2, h3⟩ := played_inv observer hobs s h
  refine ⟨h1, h2, fun hact => ?_⟩
  rcases h3 hact with ⟨hp, hc⟩ | ⟨hp, hc⟩
  · exact ⟨⟨fun _ => hc, fun _ => hp⟩, Or.inl hp⟩
  · refine ⟨⟨fun hx => ?_, fun he => ?_⟩, Or.inr hp⟩
    · rw [hp] at hx
      exact absurd hx (by decide)
    · omega

theorem players_alternate_witness :
    Played noObserver
        { board := emptyBoard.set 1 1 'X', currentPlayer := 'O', gameActive := true,
          gameMode := 2 } ∧
      (countMark (emptyBoard.set 1 1 'X') 'X' = countMark (emptyBoard.set 1 1 'X') 'O' ∨
        countMark (emptyBoard.set 1 1 'X') 'X' = countMark (emptyBoard.set 1 1 'X') 'O' + 1) :=
  ⟨Played.click (resetBoard (GameBoard.init 2)).1 _ [Event.moveMade 1 1 'X', Event.aiMoveTimer]
      (some (1, 1)) (Played.start (GameBoard.init 2)) (by decide),
    (players_alternate noObserver (Or.inl rfl)
      { board := emptyBoard.set 1 1 'X', currentPlayer := 'O', gameActive := true,
        gameMode := 2 }
      (Played.click (resetBoard (GameBoard.init 2)).1 _
        [Event.moveMade 1 1 'X', Event.aiMoveTimer] (some (1, 1))
        (Played.start (GameBoard.init 2)) (by decide))).2.1⟩

/-! ## A click while it is the computer's turn -/

set_option maxRecDepth 1000000 in
theorem centreBoard_corner_score : minimax (centreBoard.set 0 0 'O') 'X' = some 0 :=
  minimax_eq_zero 10 10 _ _ (by decide!) (by decide!)

set_option maxRecDepth 1000000 in
theorem centreBoard_scores (d : Fin 3 × Fin 3) (hd : centreBoard.get d.1 d.2 = ' ') :
    ∃ w, minimax (centreBoard.set d.1 d.2 'O') 'X' = some w ∧ w ≤ 0 := by
  obtain ⟨i, j⟩ := d
  revert hd
  fin_cases i <;> fin_cases j <;> intro hd
  · exact minimax_le_zero 10 _ _ (by decide!)
  · exact minimax_le_zero 10 _ _ (by decide!)
  · exact minimax_le_zero 10 _ _ (by decide!)
  · exact minimax_le_zero 10 _ _ (by decide!)
  · exact absurd hd (by decide)
  · exact minimax_le_zero 10 _ _ (by decide!)
  · exact minimax_le_zero 10 _ _ (by decide!)
  · exact minimax_le_zero 10 _ _ (by decide!)
  · exact minimax_le_zero 10 _ _ (by decide!)

/-- After `'X'` opens at the centre `findBestMove` returns the corner `(0, 0)`. -/
theorem findBestMove_centreBoard : findBestMove centreBoard = some (0, 0) := by
  apply findBestMove_eq_of_scores centreBoard (0, 0) 0 (by decide) centreBoard_corner_score
  · exact centreBoard_scores
  · intro d hd _
    exfalso
    obtain ⟨i, j⟩ := d
    revert hd
    fin_cases i <;> fin_cases j <;> decide

/-- C12 fails on the code.  In mode 2, after `'X'` has opened at the centre it is `'O'` to
move and the timer for `aiMove` is armed; `findBestMove` would return `(0, 0)`.  A click
on the cell `(0, 1)` handled before the timer expires is accepted: `onCellClicked` has no
test of whose turn it is and places `currentPlayer`, that is `'O'`, at `(0, 1)`, sends
`moveMade(0, 1, 'O')` and passes the turn to `'X'`; `aiMove` then returns at its guard
without placing anything. -/
theorem click_on_computer_turn_places_O :
    onCellClicked noObserver (GameBoard.init 2) (some (1, 1)) =
      some ({ board := centreBoard, currentPlayer := 'O', gameActive := true, gameMode := 2 },
        [Event.moveMade 1 1 'X', Event.aiMoveTimer]) ∧
    findBestMove centreBoard = some (0, 0) ∧
    onCellClicked noObserver
        { board := centreBoard, currentPlayer := 'O', gameActive := true, gameMode := 2 }
        (some (0, 1)) =
      some ({ board := centreBoard.set 0 1 'O', currentPlayer := 'X', gameActive := true,
              gameMode := 2 },
        [Event.moveMade 0 1 'O']) ∧
    (centreBoard.set 0 1 'O').get 0 1 = 'O' ∧
    aiMove noObserver
        { board := centreBoard.set 0 1 'O', currentPlayer := 'X', gameActive := true,
          gameMode := 2 } =
      some ({ board := centreBoard.set 0 1 'O', currentPlayer := 'X', gameActive := true,
              gameMode := 2 }, []) :=
  ⟨by decide, findBestMove_centreBoard, by decide, by decide,
    aiMove_guard noObserver _ (by decide)⟩

end TicTacToe
